import Mathlib

/-! # Heartbeat averager: receiver frame decoder and ISR pipeline

A shallow embedding of `receiver_code/SA_RECEIVER.cpp` (the byte decoder in `main`
and the periodic routine `ISRfxn`) and of the frame emitted by `send_sp` in
`sender_code/SA_SENDER.cpp`.

Conventions of the embedding:

* `float` values are rationals. In the definitions that carry the source's plain
  names every operation is exact; the detector and the averager are also given
  with every `float` operation rounded to binary32 (`fl`, nearest, ties to even,
  subnormals included), under the names `Binary32.finalizeCond`,
  `Binary32.pdFinalize`, `Binary32.peakDetection`, `Binary32.tempWrites`,
  `Binary32.signalAverager`, `Binary32.detAvg`. The finalize rule and the
  single-pulse property, whose values depend on the rounding, are stated on the
  binary32 definitions.
* a C array `float a[n]` is a list of exactly `n` rationals (`Arr n`);
  globals without an initialiser start at zero (static storage).
* `int` counters are integers; the counters of the averager stay far from
  the 32-bit limits, which is part of what is proved about them.
* the automatic variables `Output_LPF`, `Output_HPF`, `Output_deriv` and
  `Output_MWI` of `ISRfxn` are declared without an initialiser and are read
  before they are written; the value each of them holds on entry is an input
  of the tick (`Indeterminate`).
-/

namespace Receiver

/-! ## Arrays and loops -/

/-- A C array of `n` floats. -/
abbrev Arr (n : Nat) := { l : List ℚ // l.length = n }

/-- The all-zero array, the initial contents of a global array. -/
def Arr.zero (n : Nat) : Arr n := ⟨List.replicate n 0, by simp⟩

/-- Read `a[i]` (an index outside the array reads as 0). -/
def Arr.rd {n : Nat} (a : Arr n) (i : Nat) : ℚ := a.1.getD i 0

/-- Write `a[i] = v` (an index outside the array writes nothing). -/
def Arr.wr {n : Nat} (a : Arr n) (i : Nat) (v : ℚ) : Arr n :=
  ⟨a.1.set i v, by simp [a.2]⟩

/-- Read `a[i]` at an `int` index. -/
def Arr.rdI {n : Nat} (a : Arr n) (i : Int) : ℚ :=
  if 0 ≤ i then a.rd i.toNat else 0

/-- Write `a[i] = v` at an `int` index. -/
def Arr.wrI {n : Nat} (a : Arr n) (i : Int) (v : ℚ) : Arr n :=
  if 0 ≤ i then a.wr i.toNat v else a

/-- The loop `for (int i = hi; i > lo; i--) body(i)`. -/
def forDown {σ : Type} (lo : Nat) (body : Nat → σ → σ) : Nat → σ → σ
  | 0, s => s
  | hi + 1, s => if lo < hi + 1 then forDown lo body hi (body (hi + 1) s) else s

/-- The loop `for (int i = lo; i < lo + cnt; i++) body(i)`. -/
def forUp {σ : Type} (body : Nat → σ → σ) : Nat → Nat → σ → σ
  | _, 0, s => s
  | lo, cnt + 1, s => forUp body (lo + 1) cnt (body lo s)

/-- The shift loop `for (int i = size-1; i > 0; i--) buf[i] = buf[i-1];`. -/
def shiftBuf {n : Nat} (size : Nat) (buf : Arr n) : Arr n :=
  forDown 0 (fun i b => b.wr i (b.rd (i - 1))) (size - 1) buf

/-! ## Frame format (sender `send_sp`) and frame decoder (receiver `main`) -/

/-- The two bytes `h[0]`, `h[1]` of the union `myShort` holding the short `v`
(two's complement; `bigEndian` selects the byte order of the platform). -/
def bytesOfShort (bigEndian : Bool) (v : Int) : Nat × Nat :=
  let u := (v % 65536).toNat
  if bigEndian then (u / 256, u % 256) else (u % 256, u / 256)

/-- The short `data.s` of the union `myShort` whose bytes are `h0`, `h1`. -/
def shortOfBytes (bigEndian : Bool) (h0 h1 : Nat) : Int :=
  let u : Int := if bigEndian then 256 * (h0 % 256) + h1 % 256 else h0 % 256 + 256 * (h1 % 256)
  if u < 32768 then u else u - 65536

/-- The bytes `send_sp` puts on the line for the sample `temp.s = v`:
`temp.h[0]`, `temp.h[1]`, then the terminator. -/
def send_sp (bigEndian : Bool) (v : Int) : List Nat :=
  [(bytesOfShort bigEndian v).1, (bytesOfShort bigEndian v).2, 0]

/-- The globals of the decoder loop: the bytes of `data`, `num` and `i`. -/
structure Decoder where
  h0 : Nat
  h1 : Nat
  num : Int
  i : Int
deriving DecidableEq, Repr

/-- The value of the `int` `i` in the comparisons with `sizeof(short)`,
which are made in `size_t` (32 bits, unsigned). -/
def asUnsigned (i : Int) : Int := i % 4294967296

/-- One pass of the `while (1)` loop of `main` on the received byte `d`. -/
def decodeByte (bigEndian : Bool) (d : Nat) (s : Decoder) : Decoder :=
  if d % 256 = 0 ∧ asUnsigned s.i ≥ 2 then
    { s with i := 0, num := shortOfBytes bigEndian s.h0 s.h1 }
  else if asUnsigned s.i < 2 then
    if s.i = 0 then { s with h0 := d % 256, i := s.i + 1 }
    else if s.i = 1 then { s with h1 := d % 256, i := s.i + 1 }
    else { s with i := s.i + 1 }
  else s

/-- The decoder fed a sequence of bytes, first byte first. -/
def decode (bigEndian : Bool) (bytes : List Nat) (s : Decoder) : Decoder :=
  bytes.foldl (fun st d => decodeByte bigEndian d st) s

/-! ## Globals of the receiver -/

/-- Numerator of the low-pass filter. -/
def FiltCoeff_LPF_a : Arr 13 := ⟨[1, 0, 0, 0, 0, 0, -2, 0, 0, 0, 0, 0, 1], rfl⟩

/-- Denominator of the low-pass filter. -/
def FiltCoeff_LPF_b : Arr 3 := ⟨[1, -2, 1], rfl⟩

/-- Numerator of the high-pass filter: `[0] = -0.03125, [16] = 1, [17] = -1,
[32] = 0.03125`, every other entry 0. -/
def FiltCoeff_HPF_a : Arr 33 :=
  ⟨[-1/32, 0, 0, 0, 0, 0, 0, 0, 0, 0, 0, 0, 0, 0, 0, 0, 1, -1, 0, 0, 0, 0, 0, 0, 0, 0, 0, 0, 0,
    0, 0, 0, 1/32], rfl⟩

/-- Denominator of the high-pass filter. -/
def FiltCoeff_HPF_b : Arr 2 := ⟨[1, -1], rfl⟩

/-- The constant `Gain_HPF = 1.0/1.2`. -/
def Gain_HPF : ℚ := 1 / (12 / 10)

/-- Coefficients of the differentiator. -/
def FiltCoeff_deriv : Arr 5 := ⟨[2, 1, 0, -1, -2], rfl⟩

/-- The constant `Gain_deriv = 1.0/4.0`. -/
def Gain_deriv : ℚ := 1 / 4

/-- The constant `Gain_MWI = 1.0 / 32.0` (declared; `ISRfxn` never reads it). -/
def Gain_MWI : ℚ := 1 / 32

/-- The constant `MWI_Size`. -/
def MWI_Size : Nat := 32

/-- The constant `max_epochs`. -/
def max_epochs : Int := 32

/-- The mutable globals read and written by `ISRfxn`, and the output pins. -/
structure ISR where
  LPF_Xbuf : Arr 13
  LPF_Ybuf : Arr 3
  HPF_Xbuf : Arr 33
  HPF_Ybuf : Arr 2
  deriv_Xbuf : Arr 5
  sq : ℚ
  MWI_Ybuf : Arr 32
  peaki : ℚ
  peakt : ℚ
  npki : ℚ
  spki : ℚ
  thresholdi1 : ℚ
  x5 : Arr 3
  flag : Int
  Tempbuf : Arr 200
  SAbuf : Arr 200
  GDbuf : Arr 55
  counter_SA : Int
  c_epochs : Int
  counter_out : Int
  Aout : ℚ
  Aout2 : ℚ
  Aout3 : ℚ
  myled : Int
deriving DecidableEq

/-- The globals as the program starts. -/
def ISR.init : ISR where
  LPF_Xbuf := Arr.zero 13
  LPF_Ybuf := Arr.zero 3
  HPF_Xbuf := Arr.zero 33
  HPF_Ybuf := Arr.zero 2
  deriv_Xbuf := Arr.zero 5
  sq := 0
  MWI_Ybuf := Arr.zero 32
  peaki := 0
  peakt := 0
  npki := 0
  spki := 0
  thresholdi1 := 0
  x5 := Arr.zero 3
  flag := 0
  Tempbuf := Arr.zero 200
  SAbuf := Arr.zero 200
  GDbuf := Arr.zero 55
  counter_SA := 144
  c_epochs := 0
  counter_out := 199
  Aout := 0
  Aout2 := 0
  Aout3 := 0
  myled := 0

/-- What the four uninitialised automatic variables of `ISRfxn` hold when the
routine is entered. -/
structure Indeterminate where
  Output_LPF : ℚ
  Output_HPF : ℚ
  Output_deriv : ℚ
  Output_MWI : ℚ
deriving DecidableEq

/-- The case in which all four locals happen to hold 0. -/
def Indeterminate.zero : Indeterminate := ⟨0, 0, 0, 0⟩

/-! ## The stages of `ISRfxn` -/

/-- Low-pass stage (source lines 160-188): load the centred sample, accumulate
numerator and denominator into `Output_LPF`, store it, shift both buffers. -/
def lowPass (fnum : ℚ) (Output_LPF : ℚ) (s : ISR) : ISR :=
  let s := { s with LPF_Xbuf := s.LPF_Xbuf.wr 0 (fnum - 1/2) }
  let Output_LPF := forUp
    (fun i acc => acc + (1/20) * s.LPF_Xbuf.rd i * FiltCoeff_LPF_a.rd i) 0 13 Output_LPF
  let Output_LPF := forUp
    (fun i acc => acc + -1 * s.LPF_Ybuf.rd i * FiltCoeff_LPF_b.rd i) 1 2 Output_LPF
  let s := { s with LPF_Ybuf := s.LPF_Ybuf.wr 0 Output_LPF }
  let s := { s with LPF_Xbuf := shiftBuf 13 s.LPF_Xbuf }
  { s with LPF_Ybuf := shiftBuf 3 s.LPF_Ybuf }

/-- High-pass stage (source lines 195-223). -/
def highPass (Output_HPF : ℚ) (s : ISR) : ISR :=
  let s := { s with HPF_Xbuf := s.HPF_Xbuf.wr 0 (s.LPF_Ybuf.rd 0) }
  let Output_HPF := forUp
    (fun i acc => acc + Gain_HPF * s.HPF_Xbuf.rd i * FiltCoeff_HPF_a.rd i) 0 33 Output_HPF
  let Output_HPF := forUp
    (fun i acc => acc + -1 * s.HPF_Ybuf.rd i * FiltCoeff_HPF_b.rd i) 1 1 Output_HPF
  let s := { s with HPF_Ybuf := s.HPF_Ybuf.wr 0 Output_HPF }
  let s := { s with HPF_Xbuf := shiftBuf 33 s.HPF_Xbuf }
  { s with HPF_Ybuf := shiftBuf 2 s.HPF_Ybuf }

/-- Differentiator stage (source lines 230-243); returns the new globals and
the local `Output_deriv`. -/
def derivative (Output_deriv : ℚ) (s : ISR) : ISR × ℚ :=
  let s := { s with deriv_Xbuf := s.deriv_Xbuf.wr 0 (s.HPF_Ybuf.rd 0) }
  let Output_deriv := forUp
    (fun i acc => acc + Gain_deriv * s.deriv_Xbuf.rd i * FiltCoeff_deriv.rd i) 0 5 Output_deriv
  ({ s with deriv_Xbuf := shiftBuf 5 s.deriv_Xbuf }, Output_deriv)

/-- Moving-window integrator (source lines 254-269); returns the new globals and
the local `Output_MWI`. -/
def movingWindow (Output_deriv : ℚ) (Output_MWI : ℚ) (s : ISR) : ISR × ℚ :=
  let s := { s with MWI_Ybuf := s.MWI_Ybuf.wr 0 (Output_deriv * Output_deriv) }
  let Output_MWI := forUp (fun i acc => acc + s.MWI_Ybuf.rd i) 0 MWI_Size Output_MWI
  let s := { s with MWI_Ybuf := shiftBuf MWI_Size s.MWI_Ybuf }
  ({ s with Aout2 := Output_MWI }, Output_MWI)

/-- Lines 274-276: store the newest integrator value, track the running peak. -/
def pdTrack (Output_MWI : ℚ) (s : ISR) : ISR :=
  let s := { s with x5 := s.x5.wr 0 Output_MWI }
  if s.x5.rd 0 > s.x5.rd 2 ∧ s.x5.rd 0 > s.peakt then { s with peakt := s.x5.rd 0 } else s

/-- The condition of the beat-onset branch (line 277). -/
def onsetCond (s : ISR) : Prop := s.peakt > s.thresholdi1 ∧ s.flag ≠ 1

instance (s : ISR) : Decidable (onsetCond s) := by unfold onsetCond; infer_instance

/-- Lines 277-281: beat onset. -/
def pdOnset (s : ISR) : ISR :=
  if onsetCond s then { s with myled := 1, flag := 1, counter_out := 199 } else s

/-- The condition of the finalize branch (line 283). -/
def finalizeCond (s : ISR) : Prop := s.x5.rd 0 ≤ s.x5.rd 2 ∧ s.x5.rd 0 < (1/2) * s.peakt

instance (s : ISR) : Decidable (finalizeCond s) := by unfold finalizeCond; infer_instance

/-- Lines 283-296: peak finalize. -/
def pdFinalize (s : ISR) : ISR :=
  if finalizeCond s then
    let s := { s with peaki := s.peakt, myled := 0 }
    let s :=
      if s.peaki > s.thresholdi1 then { s with spki := (1/8) * s.peaki + (7/8) * s.spki }
      else { s with npki := (1/8) * s.peaki + (7/8) * s.npki }
    let s := { s with thresholdi1 := s.npki + (1/4) * (s.spki - s.npki) }
    { s with peakt := 0 }
  else s

/-- Peak detection (source lines 274-300). -/
def peakDetection (Output_MWI : ℚ) (s : ISR) : ISR :=
  let s := pdFinalize (pdOnset (pdTrack Output_MWI s))
  { s with x5 := shiftBuf 3 s.x5 }

/-- Lines 313-317: the additions into `Tempbuf` of an inside-beat tick, from the
current `counter_SA`, `GDbuf` and `Tempbuf`. -/
def tempWrites (fnum : ℚ) (counter_SA : Int) (GDbuf : Arr 55) (Tempbuf : Arr 200) : Arr 200 :=
  let T :=
    if counter_SA ≥ 144 then
      forDown 144 (fun i T => T.wr i (T.rd i + GDbuf.rd (i - 145))) 199 Tempbuf
    else Tempbuf
  T.wrI counter_SA (T.rdI counter_SA + fnum)

/-- Lines 323-339: the end of a beat epoch and, at `max_epochs`, the promotion. -/
def epochEnd (s : ISR) : ISR :=
  if s.counter_SA ≤ 0 then
    let s := { s with flag := 0, counter_SA := 144, c_epochs := s.c_epochs + 1 }
    if s.c_epochs ≥ max_epochs then
      let s := { s with SAbuf := forDown 0 (fun i A => A.wr i (s.Tempbuf.rd i)) 199 s.SAbuf }
      let s := { s with Tempbuf := forUp (fun i T => T.wr i 0) 0 200 s.Tempbuf }
      { s with c_epochs := 0 }
    else s
  else s

/-- Signal averager (source lines 305-342). -/
def signalAverager (fnum : ℚ) (s : ISR) : ISR :=
  let s := { s with GDbuf := s.GDbuf.wr 0 fnum }
  let s :=
    if s.flag = 1 then
      let s := { s with Aout3 := s.SAbuf.rdI s.counter_out / max_epochs }
      let s := if s.counter_out = 0 then { s with counter_out := 200 } else s
      let s := { s with Tempbuf := tempWrites fnum s.counter_SA s.GDbuf s.Tempbuf }
      let s := { s with counter_SA := s.counter_SA - 1 }
      let s := { s with counter_out := s.counter_out - 1 }
      epochEnd s
    else s
  { s with GDbuf := shiftBuf 55 s.GDbuf }

/-- The stages of `ISRfxn` up to the differentiator (source lines 154-243): the
globals after it, and the local `Output_deriv`. -/
def derivStages (num : Int) (u : Indeterminate) (s : ISR) : ISR × ℚ :=
  let fnum : ℚ := (num : ℚ) / 2048
  let s := { s with Aout := fnum }
  let s := lowPass fnum u.Output_LPF s
  let s := highPass u.Output_HPF s
  derivative u.Output_deriv s

/-- The filter part of `ISRfxn` (source lines 154-269): the globals after the
moving-window integrator, and the local `Output_MWI`. -/
def filterStages (num : Int) (u : Indeterminate) (s : ISR) : ISR × ℚ :=
  let d := derivStages num u s
  let s := { d.1 with sq := d.2 * d.2 * 5 }
  movingWindow d.2 u.Output_MWI s

/-- Peak detection followed by the signal averager (source lines 274-342), for an
integrator value `mwi` and a raw sample `fnum`. -/
def detAvg (mwi fnum : ℚ) (s : ISR) : ISR :=
  signalAverager fnum (peakDetection mwi s)

/-- One call of `ISRfxn`, with `num` the sample last published by the decoder
and `u` the entry values of the uninitialised locals. -/
def ISRfxn (num : Int) (u : Indeterminate) (s : ISR) : ISR :=
  detAvg (filterStages num u s).2 ((num : ℚ) / 2048) (filterStages num u s).1

/-- The globals at the point where `ISRfxn` enters the signal averager (line 305). -/
def detected (num : Int) (u : Indeterminate) (s : ISR) : ISR :=
  peakDetection (filterStages num u s).2 (filterStages num u s).1

/-- The globals before tick `t` of a run from the initial state, `inp t` being
the sample and the entry values of the locals at tick `t`. -/
def ISRrun (inp : Nat → Int × Indeterminate) : Nat → ISR
  | 0 => ISR.init
  | t + 1 => ISRfxn (inp t).1 (inp t).2 (ISRrun inp t)

/-- The globals before tick `t` when the detector and the averager are driven from
the globals `s0` by a synthetic integrator signal `mwi` and raw samples `fnum`. -/
def detAvgRun (s0 : ISR) (mwi fnum : Nat → ℚ) : Nat → ISR
  | 0 => s0
  | t + 1 => detAvg (mwi t) (fnum t) (detAvgRun s0 mwi fnum t)

/-- The value the low-pass stage stores in `LPF_Ybuf[0]` at tick `t` of a run. -/
def lpfOut (inp : Nat → Int × Indeterminate) (t : Nat) : ℚ :=
  (ISRrun inp (t + 1)).LPF_Ybuf.rd 0

/-- The value the high-pass stage stores in `HPF_Ybuf[0]` at tick `t` of a run. -/
def hpfOut (inp : Nat → Int × Indeterminate) (t : Nat) : ℚ :=
  (ISRrun inp (t + 1)).HPF_Ybuf.rd 0

/-- The centred sample `fnum - 0.5` of tick `t`. -/
def centred (inp : Nat → Int × Indeterminate) (t : Nat) : ℚ :=
  ((inp t).1 : ℚ) / 2048 - 1/2

/-- The local `Output_deriv` at tick `t` of a run. -/
def derivOut (inp : Nat → Int × Indeterminate) (t : Nat) : ℚ :=
  (derivStages (inp t).1 (inp t).2 (ISRrun inp t)).2

/-- The local `Output_MWI` at tick `t` of a run: the value handed to the peak detector. -/
def mwiOut (inp : Nat → Int × Indeterminate) (t : Nat) : ℚ :=
  (filterStages (inp t).1 (inp t).2 (ISRrun inp t)).2

/-- The position of `Tempbuf` that receives the raw sample on a tick entered with
globals `s` (`none` when the inside-beat branch of the averager is not taken). -/
def writePos (num : Int) (u : Indeterminate) (s : ISR) : Option Int :=
  if (detected num u s).flag = 1 then some s.counter_SA else none

/-- The tick entered with globals `s` ends a beat epoch: the inside-beat branch runs
and the write countdown reaches 0. -/
def completesEpoch (num : Int) (u : Indeterminate) (s : ISR) : Prop :=
  (detected num u s).flag = 1 ∧ s.counter_SA - 1 ≤ 0

instance (num : Int) (u : Indeterminate) (s : ISR) : Decidable (completesEpoch num u s) := by
  unfold completesEpoch; infer_instance

/-- Number of beat epochs completed by the ticks `0 .. t-1` of a run. -/
def epochsCompleted (inp : Nat → Int × Indeterminate) : Nat → Nat
  | 0 => 0
  | t + 1 => epochsCompleted inp t +
      (if completesEpoch (inp t).1 (inp t).2 (ISRrun inp t) then 1 else 0)

/-- Tick `t` of a run promotes: it ends a beat epoch entered with `c_epochs = 31`. -/
def promotionAt (inp : Nat → Int × Indeterminate) (t : Nat) : Prop :=
  completesEpoch (inp t).1 (inp t).2 (ISRrun inp t) ∧ (ISRrun inp t).c_epochs = 31

instance (inp : Nat → Int × Indeterminate) (t : Nat) : Decidable (promotionAt inp t) := by
  unfold promotionAt; infer_instance

/-- Number of promoting ticks among the ticks `0 .. t-1` of a run. -/
def promotions (inp : Nat → Int × Indeterminate) : Nat → Nat
  | 0 => 0
  | t + 1 => promotions inp t + (if promotionAt inp t then 1 else 0)

/-- A synthetic integrator signal: `h` at tick `t0`, 0 at every other tick. -/
def pulse (h : ℚ) (t0 : Nat) (t : Nat) : ℚ := if t = t0 then h else 0

/-! ## Predicates, sample runs and closed forms used by the theorems -/

/-- The quiescent detector: all estimates zero, flag lowered. -/
def Quiet (s : ISR) : Prop :=
  s.peakt = 0 ∧ s.spki = 0 ∧ s.npki = 0 ∧ s.thresholdi1 = 0 ∧ s.x5.rd 1 = 0 ∧ s.x5.rd 2 = 0 ∧
    s.flag = 0

/-- The detector once the pulse of height `h` has been finalized. -/
def Settled (h : ℚ) (s : ISR) : Prop :=
  s.peakt = 0 ∧ s.spki = h / 8 ∧ s.npki = 0 ∧ s.thresholdi1 = h / 32 ∧ s.x5.rd 1 = 0 ∧
    0 ≤ s.x5.rd 2

/-- What holds of the averager's globals between ticks: outside a beat the countdown is
at 144, inside a beat it is in 1..143; the epoch counter is in 0..31; entry 0 of both
buffers is 0. -/
def AvgInv (s : ISR) : Prop :=
  (s.flag = 0 ∧ s.counter_SA = 144 ∨ s.flag = 1 ∧ 1 ≤ s.counter_SA ∧ s.counter_SA ≤ 143) ∧
  0 ≤ s.c_epochs ∧ s.c_epochs ≤ 31 ∧ s.Tempbuf.rd 0 = 0 ∧ s.SAbuf.rd 0 = 0

/-- The accumulator `Tempbuf` of a tick entered with globals `s`, as it stands after the
additions of lines 313-317 and before the reset of lines 333-334. -/
def tempAfterWrites (num : Int) (s : ISR) : Arr 200 :=
  tempWrites ((num : ℚ) / 2048) s.counter_SA (s.GDbuf.wr 0 ((num : ℚ) / 2048)) s.Tempbuf

/-- The run in which the decoder publishes the full-scale sample 2047 on every tick and the
uninitialised locals hold 0. -/
def fullScale : Nat → Int × Indeterminate := fun _ => (2047, Indeterminate.zero)

/-- The effect of the shift loop over a whole array, as one list operation: the first
entry is duplicated and the last one dropped. -/
def shifted {n : Nat} (a : Arr n) : Arr n :=
  ⟨(a.1.headD 0 :: a.1).take n, by simp [a.2]⟩

/-- Closed form of the value the low-pass stage stores in `LPF_Ybuf[0]`, from the entry
value `o` of `Output_LPF`, the centred sample `x` and the buffers before the tick. -/
def lpfValue (o x : ℚ) (X : Arr 13) (Y : Arr 3) : ℚ :=
  o + (1/20) * (x - 2 * X.rd 6 + X.rd 12) + 2 * Y.rd 1 - Y.rd 2

/-- Closed form of the value the high-pass stage stores in `HPF_Ybuf[0]`. -/
def hpfValue (o yl : ℚ) (X : Arr 33) (Y : Arr 2) : ℚ :=
  o + Gain_HPF * (-(1/32) * yl + X.rd 16 - X.rd 17 + (1/32) * X.rd 32) + Y.rd 1

/-- Closed form of `Output_deriv`. -/
def derivValue (o yh : ℚ) (X : Arr 5) : ℚ :=
  o + (1/4) * (2 * yh + X.rd 1 - X.rd 3 - 2 * X.rd 4)

/-- Closed form of `Output_MWI`: the entry value plus the window with the new square in
front, added first to last. -/
def mwiValue (o q : ℚ) (Y : Arr 32) : ℚ :=
  (Y.wr 0 q).1.foldl (fun acc y => acc + y) o

/-- The globals of the filters and of the detector's estimates: the part of the state that
evolves on its own, whatever the flag and the averager do. -/
structure Core where
  LX : Arr 13
  LY : Arr 3
  HX : Arr 33
  HY : Arr 2
  DX : Arr 5
  MY : Arr 32
  peakt : ℚ
  thresholdi1 : ℚ
  spki : ℚ
  npki : ℚ
  x5 : Arr 3

/-- The core of the globals. -/
def coreOf (s : ISR) : Core :=
  ⟨s.LPF_Xbuf, s.LPF_Ybuf, s.HPF_Xbuf, s.HPF_Ybuf, s.deriv_Xbuf, s.MWI_Ybuf, s.peakt,
    s.thresholdi1, s.spki, s.npki, s.x5⟩

/-- Closed form of the low-pass output of a tick, from the core before the tick. -/
def coreLpf (num : Int) (u : Indeterminate) (c : Core) : ℚ :=
  lpfValue u.Output_LPF ((num : ℚ) / 2048 - 1/2) c.LX c.LY

/-- Closed form of the high-pass output of a tick. -/
def coreHpf (num : Int) (u : Indeterminate) (c : Core) : ℚ :=
  hpfValue u.Output_HPF (coreLpf num u c) c.HX c.HY

/-- Closed form of `Output_deriv` of a tick. -/
def coreDeriv (num : Int) (u : Indeterminate) (c : Core) : ℚ :=
  derivValue u.Output_deriv (coreHpf num u c) c.DX

/-- Closed form of `Output_MWI` of a tick. -/
def coreMwi (num : Int) (u : Indeterminate) (c : Core) : ℚ :=
  mwiValue u.Output_MWI (coreDeriv num u c * coreDeriv num u c) c.MY

/-- Closed form of one tick on the core, with the integrator value `m` of the tick given. -/
def coreStepWith (num : Int) (u : Indeterminate) (c : Core) (m : ℚ) : Core :=
  let fin : Bool := decide (m ≤ c.x5.rd 2 ∧ m < (1/2) * c.peakt)
  let sp := if fin then (if c.peakt > c.thresholdi1 then (1/8) * c.peakt + (7/8) * c.spki
    else c.spki) else c.spki
  let np := if fin then (if c.peakt > c.thresholdi1 then c.npki
    else (1/8) * c.peakt + (7/8) * c.npki) else c.npki
  { LX := shifted (c.LX.wr 0 ((num : ℚ) / 2048 - 1/2))
    LY := shifted (c.LY.wr 0 (coreLpf num u c))
    HX := shifted (c.HX.wr 0 (coreLpf num u c))
    HY := shifted (c.HY.wr 0 (coreHpf num u c))
    DX := shifted (c.DX.wr 0 (coreHpf num u c))
    MY := shifted (c.MY.wr 0 (coreDeriv num u c * coreDeriv num u c))
    peakt := if fin then 0 else (if m > c.x5.rd 2 ∧ m > c.peakt then m else c.peakt)
    thresholdi1 := if fin then np + (1/4) * (sp - np) else c.thresholdi1
    spki := sp
    npki := np
    x5 := shifted (c.x5.wr 0 m) }

/-- Closed form of one tick on the core. -/
def coreStep (num : Int) (u : Indeterminate) (c : Core) : Core :=
  coreStepWith num u c (coreMwi num u c)

/-- The core before tick `t` of a run, by the closed form. -/
def coreRun (inp : Nat → Int × Indeterminate) : Nat → Core
  | 0 => coreOf ISR.init
  | t + 1 => coreStep (inp t).1 (inp t).2 (coreRun inp t)

/-- The two globals have the same filter buffers. -/
def SameFilters (s s' : ISR) : Prop :=
  s.LPF_Xbuf = s'.LPF_Xbuf ∧ s.LPF_Ybuf = s'.LPF_Ybuf ∧ s.HPF_Xbuf = s'.HPF_Xbuf ∧
    s.HPF_Ybuf = s'.HPF_Ybuf ∧ s.deriv_Xbuf = s'.deriv_Xbuf ∧ s.MWI_Ybuf = s'.MWI_Ybuf

/-- The two cores agree field by field. -/
def CoreSame (a b : Core) : Prop :=
  a.LX = b.LX ∧ a.LY = b.LY ∧ a.HX = b.HX ∧ a.HY = b.HY ∧ a.DX = b.DX ∧ a.MY = b.MY ∧
    a.peakt = b.peakt ∧ a.thresholdi1 = b.thresholdi1 ∧ a.spki = b.spki ∧ a.npki = b.npki ∧
    a.x5 = b.x5

instance (a b : Core) : Decidable (CoreSame a b) := by unfold CoreSame; infer_instance

/-- The onset comparison of a tick, on the core: the running peak after line 276 exceeds
the threshold. -/
def armed (num : Int) (u : Indeterminate) (c : Core) : Prop :=
  (if coreMwi num u c > c.x5.rd 2 ∧ coreMwi num u c > c.peakt then coreMwi num u c
    else c.peakt) > c.thresholdi1

instance (num : Int) (u : Indeterminate) (c : Core) : Decidable (armed num u c) := by
  unfold armed; infer_instance

/-- A run with real samples only: the four-sample cycle 1536, 1024, 512, 1024 (the centred
samples 1/4, 0, -1/4, 0), the uninitialised locals holding 0. -/
def cycle4 (t : Nat) : Int × Indeterminate :=
  (if t % 4 = 0 then 1536 else if t % 4 = 2 then 512 else 1024, Indeterminate.zero)

/-- The value of the sequence `f` at `k` ticks before tick `n`, counted as 0 before tick 0. -/
def past (f : Nat → ℚ) (n k : Nat) : ℚ := if k ≤ n then f (n - k) else 0

/-- A run in which the uninitialised `Output_LPF` holds 1 on entry, the sample being the
mid-scale 1024 (centred sample 0). -/
def lpfJunk : Nat → Int × Indeterminate := fun _ => (1024, ⟨1, 0, 0, 0⟩)

/-- A run in which the uninitialised `Output_HPF` holds 1 on entry. -/
def hpfJunk : Nat → Int × Indeterminate := fun _ => (1024, ⟨0, 1, 0, 0⟩)

/-- The run in which the decoder publishes the sample 0 on every tick and the
uninitialised locals hold 0. -/
def zeroSample : Nat → Int × Indeterminate := fun _ => (0, Indeterminate.zero)

/-- The decoder's globals as the program starts: `i = 0`, zero-filled `data` and `num`. -/
def Decoder.init : Decoder := ⟨0, 0, 0, 0⟩

/-- The pass of the loop on byte `d` from globals `s` stores `d` in `data.h[i]`. -/
def storesByte (d : Nat) (s : Decoder) : Prop :=
  ¬ (d % 256 = 0 ∧ asUnsigned s.i ≥ 2) ∧ asUnsigned s.i < 2

/-- What holds of the detector's estimates between ticks: the running peak and the noise
estimate are not negative, the threshold lies between the noise and the signal estimate and
is the noise estimate plus a quarter of their distance. -/
def DetInv (s : ISR) : Prop :=
  0 ≤ s.peakt ∧ 0 ≤ s.npki ∧ s.npki ≤ s.thresholdi1 ∧ s.thresholdi1 ≤ s.spki ∧
    s.thresholdi1 = s.npki + (s.spki - s.npki) / 4

/-- Inside a beat the read counter runs 55 ahead of the write countdown. -/
def OutInv (s : ISR) : Prop := s.flag = 1 → s.counter_out = s.counter_SA + 55

/-- The raw sample `fnum` of tick `t` of a run. -/
def rawAt (inp : Nat → Int × Indeterminate) (t : Nat) : ℚ := ((inp t).1 : ℚ) / 2048

/-- What one beat epoch with onset at tick `t0` adds to position `p` of the accumulator: the
raw sample of tick `t0 + (144 - p)` at the positions 1..144 (countdown writes), the raw sample
of `p - 145` ticks before the onset at the positions 145..199 (catch-up loop), nothing at
position 0. -/
def epochContribution (inp : Nat → Int × Indeterminate) (t0 p : Nat) : ℚ :=
  if 1 ≤ p ∧ p ≤ 144 then rawAt inp (t0 + (144 - p))
  else if 145 ≤ p ∧ p ≤ 199 then past (rawAt inp) t0 (p - 145) else 0

/-- What one beat epoch adds to position `p` of the accumulator when the raw waveform
around its onset is `r`: `r (144 - p)` at the positions 1..144, `r (-(p - 145))` at the
positions 145..199, nothing at position 0. -/
def waveformAt (r : Int → ℚ) (p : Nat) : ℚ :=
  if 1 ≤ p ∧ p ≤ 144 then r (144 - (p : Int))
  else if 145 ≤ p ∧ p ≤ 199 then r (-((p : Int) - 145)) else 0

/-- The raw waveform of the cycle run around a tick that is a multiple of 4. -/
def cycle4Wave (d : Int) : ℚ := if d % 4 = 0 then 3/4 else if d % 4 = 2 then 1/4 else 1/2

/-- The triangular FIR filter of the specification: `(1/20) Σ_{j=0..10} (6 - |j - 5|) x[n-j]`,
with `x = 0` before tick 0. -/
def firLPF (x : Nat → ℚ) (n : Nat) : ℚ :=
  (1/20) * ∑ j in Finset.range 11, (6 - |(j : ℚ) - 5|) * past x n j

/-- The high-pass filter of the specification: `G (x[n-16] - (1/32) Σ_{j=0..31} x[n-j])`
with `G = 5/6` and `x = 0` before tick 0. -/
def delayMinusAverage (x : Nat → ℚ) (n : Nat) : ℚ :=
  (5/6) * (past x n 16 - (1/32) * ∑ j in Finset.range 32, past x n j)

/-! ## Binary32 arithmetic of the detector and the averager -/

/-- Nearest integer, ties to the even one. -/
def roundHalfEven (x : ℚ) : Int :=
  if x - ⌊x⌋ < 1/2 then ⌊x⌋
  else if 1/2 < x - ⌊x⌋ then ⌊x⌋ + 1
  else if ⌊x⌋ % 2 = 0 then ⌊x⌋ else ⌊x⌋ + 1

/-- The binade of a magnitude `a` in binary32: the largest exponent `e` in -126..127 with
`2^e ≤ a`, and -126 (the subnormal range) if there is none; `n` is the number of exponents
above -126 still to be tried. -/
def binade (a : ℚ) : Nat → Int
  | 0 => -126
  | n + 1 => if (2 : ℚ) ^ ((n : Int) - 125) ≤ a then (n : Int) - 125 else binade a n

/-- The result a `float` operation stores for the exact result `q`: the nearest multiple of
the spacing `2^(e-23)` of the binade `e` of `q`, ties to the even multiple (IEEE 754
binary32, round to nearest even, subnormals included). An exact result of magnitude
`2^128 - 2^103` or more, which the hardware turns into an infinity, is outside the model. -/
def fl (q : ℚ) : ℚ :=
  (roundHalfEven (q / 2 ^ (binade |q| 253 - 23)) : ℚ) * 2 ^ (binade |q| 253 - 23)

/-- The condition of the finalize branch (line 283) as the hardware evaluates it: the
product `0.5f*peakt` is rounded to binary32 before the comparison. -/
def Binary32.finalizeCond (s : ISR) : Prop :=
  s.x5.rd 0 ≤ s.x5.rd 2 ∧ s.x5.rd 0 < fl ((1/2) * s.peakt)

instance (s : ISR) : Decidable (Binary32.finalizeCond s) := by
  unfold Binary32.finalizeCond; infer_instance

/-- Lines 283-296 with every `float` operation rounded to binary32: two products and a
sum for the estimate, a difference, a product and a sum for the threshold. -/
def Binary32.pdFinalize (s : ISR) : ISR :=
  if Binary32.finalizeCond s then
    let s := { s with peaki := s.peakt, myled := 0 }
    let s :=
      if s.peaki > s.thresholdi1 then
        { s with spki := fl (fl ((1/8) * s.peaki) + fl ((7/8) * s.spki)) }
      else { s with npki := fl (fl ((1/8) * s.peaki) + fl ((7/8) * s.npki)) }
    let s := { s with thresholdi1 := fl (s.npki + fl ((1/4) * fl (s.spki - s.npki))) }
    { s with peakt := 0 }
  else s

/-- Peak detection (source lines 274-300) in binary32 arithmetic; the tracking and the
onset branch only compare and copy. -/
def Binary32.peakDetection (Output_MWI : ℚ) (s : ISR) : ISR :=
  let s := Binary32.pdFinalize (pdOnset (pdTrack Output_MWI s))
  { s with x5 := shiftBuf 3 s.x5 }

/-- Lines 313-317 with the two additions rounded to binary32. -/
def Binary32.tempWrites (fnum : ℚ) (counter_SA : Int) (GDbuf : Arr 55) (Tempbuf : Arr 200) :
    Arr 200 :=
  let T :=
    if counter_SA ≥ 144 then
      forDown 144 (fun i T => T.wr i (fl (T.rd i + GDbuf.rd (i - 145)))) 199 Tempbuf
    else Tempbuf
  T.wrI counter_SA (fl (T.rdI counter_SA + fnum))

/-- Signal averager (source lines 305-342) in binary32 arithmetic: the additions into
`Tempbuf` and the division by `max_epochs` are rounded. -/
def Binary32.signalAverager (fnum : ℚ) (s : ISR) : ISR :=
  let s := { s with GDbuf := s.GDbuf.wr 0 fnum }
  let s :=
    if s.flag = 1 then
      let s := { s with Aout3 := fl (s.SAbuf.rdI s.counter_out / max_epochs) }
      let s := if s.counter_out = 0 then { s with counter_out := 200 } else s
      let s := { s with Tempbuf := Binary32.tempWrites fnum s.counter_SA s.GDbuf s.Tempbuf }
      let s := { s with counter_SA := s.counter_SA - 1 }
      let s := { s with counter_out := s.counter_out - 1 }
      epochEnd s
    else s
  { s with GDbuf := shiftBuf 55 s.GDbuf }

/-- Peak detection followed by the signal averager (source lines 274-342) in binary32
arithmetic, for an integrator value `mwi` and a raw sample `fnum`. -/
def Binary32.detAvg (mwi fnum : ℚ) (s : ISR) : ISR :=
  Binary32.signalAverager fnum (Binary32.peakDetection mwi s)

/-- The globals before tick `t` when the binary32 detector and averager are driven from
the globals `s0` by a synthetic integrator signal `mwi` and raw samples `fnum`. -/
def Binary32.detAvgRun (s0 : ISR) (mwi fnum : Nat → ℚ) : Nat → ISR
  | 0 => s0
  | t + 1 => Binary32.detAvg (mwi t) (fnum t) (Binary32.detAvgRun s0 mwi fnum t)

/-- The smallest positive binary32 number, `2^-149`. -/
def tiny : ℚ := 1 / 2 ^ 149

/-- The detector after a pulse of height `h` that has not been finalized: the running peak
still holds `h`, the estimates and the threshold are still 0. -/
def Stuck (h : ℚ) (s : ISR) : Prop :=
  s.peakt = h ∧ s.spki = 0 ∧ s.npki = 0 ∧ s.thresholdi1 = 0 ∧ 0 ≤ s.x5.rd 1 ∧ 0 ≤ s.x5.rd 2

/-- A synthetic integrator signal with two pulses: `8 + 2^-20` at tick 0 and 1 at tick 3. -/
def twoPulses (t : Nat) : ℚ := if t = 0 then 8 + 1 / 2 ^ 20 else if t = 3 then 1 else 0

/-! # Theorems -/

/-! ## Frame decoder -/

theorem shortOfBytes_bytesOfShort (be : Bool) (v : Int) (hlo : -32768 ≤ v) (hhi : v ≤ 32767) :
    shortOfBytes be (bytesOfShort be v).1 (bytesOfShort be v).2 = v := by
  cases be <;> simp only [shortOfBytes, bytesOfShort, if_true, if_false, Bool.false_eq_true] <;>
    (push_cast; omega)

theorem shortOfBytes_mod (be : Bool) (a b : Nat) :
    shortOfBytes be (a % 256) (b % 256) = shortOfBytes be a b := by
  simp [shortOfBytes, Nat.mod_mod]

theorem decode_send_sp (be : Bool) (v : Int) (s : Decoder) (hi : s.i = 0) :
    decode be (send_sp be v) s =
      { h0 := (bytesOfShort be v).1 % 256, h1 := (bytesOfShort be v).2 % 256,
        num := shortOfBytes be (bytesOfShort be v).1 (bytesOfShort be v).2, i := 0 } := by
  simp [decode, send_sp, decodeByte, asUnsigned, hi, shortOfBytes_mod]

/-- C1. Decoder round trip: for every signed 16-bit value `v` (and either byte order of the
platform), the decoder at byte count `i = 0`, fed the three bytes `send_sp` emits for `v`,
publishes `num = v` and is back at `i = 0`; nothing is assumed about the payload bytes, so
values with a zero first or second byte are included. -/
theorem decoder_round_trip (bigEndian : Bool) (v : Int) (hlo : -32768 ≤ v) (hhi : v ≤ 32767)
    (s : Decoder) (hi : s.i = 0) :
    (decode bigEndian (send_sp bigEndian v) s).num = v ∧
      (decode bigEndian (send_sp bigEndian v) s).i = 0 := by
  rw [decode_send_sp bigEndian v s hi]
  exact ⟨shortOfBytes_bytesOfShort bigEndian v hlo hhi, rfl⟩

/-- Witness for C1 at `v = 256`, whose first payload byte is 0 (little-endian bytes 0, 1, 0). -/
theorem decoder_round_trip_witness :
    send_sp false 256 = [0, 1, 0] ∧
      (decode false (send_sp false 256) ⟨7, 7, 5, 0⟩).num = 256 ∧
      (decode false (send_sp false 256) ⟨7, 7, 5, 0⟩).i = 0 :=
  ⟨by decide, decoder_round_trip false 256 (by decide) (by decide) ⟨7, 7, 5, 0⟩ rfl⟩

/-! ## Arrays and loops: closed forms -/

theorem Arr.rd_wr {n : Nat} (a : Arr n) (i j : Nat) (v : ℚ) :
    (a.wr i v).rd j = if i = j ∧ i < n then v else a.rd j := by
  obtain ⟨l, hl⟩ := a
  subst hl
  simp only [Arr.rd, Arr.wr, List.getD_eq_getElem?_getD, List.getElem?_set]
  by_cases h : i = j
  · subst h
    by_cases h2 : i < l.length
    · simp [h2]
    · simp [h2, List.getElem?_eq_none (not_lt.mp h2)]
  · simp [h]

theorem Arr.rd_of_le {n : Nat} (a : Arr n) (j : Nat) (h : n ≤ j) : a.rd j = 0 := by
  obtain ⟨l, hl⟩ := a
  subst hl
  simp [Arr.rd, List.getD_eq_getElem?_getD, List.getElem?_eq_none h]

theorem Arr.rd_zero (n j : Nat) : (Arr.zero n).rd j = 0 := by
  simp only [Arr.rd, Arr.zero, List.getD_eq_getElem?_getD, List.getElem?_replicate]
  split <;> rfl

theorem Arr.ext_rd {n : Nat} (a b : Arr n) (h : ∀ j, j < n → a.rd j = b.rd j) : a = b := by
  obtain ⟨l, hl⟩ := a
  obtain ⟨m, hm⟩ := b
  apply Subtype.ext
  apply List.ext_getElem (by simp [hl, hm])
  intro j h1 h2
  have := h j (by simpa [hl] using h1)
  simpa [Arr.rd, List.getD_eq_getElem?_getD, List.getElem?_eq_getElem h1, List.getElem?_eq_getElem h2] using this

theorem Arr.rdI_ofNat {n : Nat} (a : Arr n) (j : Nat) : a.rdI (j : Int) = a.rd j := by
  simp [Arr.rdI]

theorem Arr.wrI_ofNat {n : Nat} (a : Arr n) (j : Nat) (v : ℚ) : a.wrI (j : Int) v = a.wr j v := by
  simp [Arr.wrI]

/-- Closed form of a descending loop whose iteration `i` rewrites entry `i` alone,
from the entry itself. -/
theorem forDown_pointwise {n : Nat} (lo : Nat) (g : Nat → ℚ → ℚ) (hi : Nat) (hhi : hi < n)
    (a : Arr n) (j : Nat) :
    (forDown lo (fun i b => b.wr i (g i (b.rd i))) hi a).rd j =
      if lo < j ∧ j ≤ hi then g j (a.rd j) else a.rd j := by
  induction hi generalizing a with
  | zero => simp only [forDown]; rw [if_neg (by omega)]
  | succ hi ih =>
    simp only [forDown]
    by_cases hlo : lo < hi + 1
    · rw [if_pos hlo, ih (by omega), Arr.rd_wr]
      by_cases hj : j = hi + 1
      · subst hj
        simp [hlo, hhi]
      · have h1 : ¬ (hi + 1 = j ∧ hi + 1 < n) := fun h => hj h.1.symm
        rw [if_neg h1]
        by_cases h2 : lo < j ∧ j ≤ hi
        · rw [if_pos h2, if_pos ⟨h2.1, by omega⟩]
        · rw [if_neg h2, if_neg (by omega)]
    · rw [if_neg hlo, if_neg (by omega)]

/-- Closed form of the shift loop: entries `1 .. size-1` take the old value of their left
neighbour, entry 0 and the entries from `size` on are unchanged. -/
theorem shiftBuf_rd {n : Nat} (size : Nat) (hsize : size ≤ n) (a : Arr n) (j : Nat) :
    (shiftBuf size a).rd j = if 1 ≤ j ∧ j < size then a.rd (j - 1) else a.rd j := by
  unfold shiftBuf
  have key : ∀ hi : Nat, hi < n → ∀ a : Arr n,
      (forDown 0 (fun i b => b.wr i (b.rd (i - 1))) hi a).rd j =
        if 1 ≤ j ∧ j ≤ hi then a.rd (j - 1) else a.rd j := by
    intro hi
    induction hi with
    | zero => intro _ a; simp only [forDown]; rw [if_neg (by omega)]
    | succ hi ih =>
      intro hhi a
      simp only [forDown, Nat.zero_lt_succ, if_true, Nat.add_sub_cancel]
      rw [ih (by omega)]
      by_cases hj : j = hi + 1
      · subst hj
        simp [Arr.rd_wr, hhi]
      · by_cases h2 : 1 ≤ j ∧ j ≤ hi
        · rw [if_pos h2, if_pos ⟨h2.1, by omega⟩, Arr.rd_wr, if_neg (by omega)]
        · rw [if_neg h2, if_neg (by omega), Arr.rd_wr, if_neg (by omega)]
  by_cases h0 : size = 0
  · subst h0
    simp [forDown]
  · rw [key (size - 1) (by omega) a]
    by_cases h2 : 1 ≤ j ∧ j < size
    · rw [if_pos h2, if_pos ⟨h2.1, by omega⟩]
    · rw [if_neg h2, if_neg (by omega)]

/-- Closed form of an ascending loop that stores a constant in each entry it visits. -/
theorem forUp_fill {n : Nat} (c : ℚ) (lo cnt : Nat) (a : Arr n) (j : Nat) :
    (forUp (fun i T => T.wr i c) lo cnt a).rd j =
      if lo ≤ j ∧ j < lo + cnt ∧ j < n then c else a.rd j := by
  induction cnt generalizing lo a with
  | zero => simp only [forUp]; rw [if_neg (by omega)]
  | succ cnt ih =>
    simp only [forUp]
    rw [ih, Arr.rd_wr]
    by_cases h1 : lo + 1 ≤ j ∧ j < lo + 1 + cnt ∧ j < n
    · rw [if_pos h1, if_pos (by omega)]
    · rw [if_neg h1]
      by_cases h2 : lo = j ∧ lo < n
      · rw [if_pos h2, if_pos (by omega)]
      · rw [if_neg h2, if_neg (by omega)]

/-! ## Single-tick facts about the detector and the averager -/

theorem x5_wr_rd0 (a : Arr 3) (m : ℚ) : (a.wr 0 m).rd 0 = m := by simp [Arr.rd_wr]

theorem x5_wr_rd2 (a : Arr 3) (m : ℚ) : (a.wr 0 m).rd 2 = a.rd 2 := by simp [Arr.rd_wr]

/-- The running peak after line 276. -/
theorem pdTrack_peakt (m : ℚ) (s : ISR) :
    (pdTrack m s).peakt = if m > s.x5.rd 2 ∧ m > s.peakt then m else s.peakt := by
  unfold pdTrack
  simp only [x5_wr_rd0, x5_wr_rd2]
  split <;> rfl

theorem pdTrack_x5 (m : ℚ) (s : ISR) : (pdTrack m s).x5 = s.x5.wr 0 m := by
  unfold pdTrack
  simp only [x5_wr_rd0, x5_wr_rd2]
  split <;> rfl

theorem pdTrack_frame (m : ℚ) (s : ISR) :
    (pdTrack m s).thresholdi1 = s.thresholdi1 ∧ (pdTrack m s).spki = s.spki ∧
    (pdTrack m s).npki = s.npki ∧ (pdTrack m s).peaki = s.peaki ∧
    (pdTrack m s).flag = s.flag ∧ (pdTrack m s).counter_SA = s.counter_SA ∧
    (pdTrack m s).c_epochs = s.c_epochs ∧ (pdTrack m s).Tempbuf = s.Tempbuf ∧
    (pdTrack m s).SAbuf = s.SAbuf ∧ (pdTrack m s).GDbuf = s.GDbuf ∧
    (pdTrack m s).counter_out = s.counter_out ∧ (pdTrack m s).Aout3 = s.Aout3 := by
  unfold pdTrack
  simp only [x5_wr_rd0, x5_wr_rd2]
  split <;> simp

theorem pdOnset_flag (s : ISR) :
    (pdOnset s).flag = if s.peakt > s.thresholdi1 ∧ s.flag ≠ 1 then 1 else s.flag := by
  unfold pdOnset onsetCond
  split <;> rfl

theorem pdOnset_frame (s : ISR) :
    (pdOnset s).x5 = s.x5 ∧ (pdOnset s).peakt = s.peakt ∧
    (pdOnset s).thresholdi1 = s.thresholdi1 ∧ (pdOnset s).spki = s.spki ∧
    (pdOnset s).npki = s.npki ∧ (pdOnset s).peaki = s.peaki ∧
    (pdOnset s).counter_SA = s.counter_SA ∧
    (pdOnset s).c_epochs = s.c_epochs ∧ (pdOnset s).Tempbuf = s.Tempbuf ∧
    (pdOnset s).SAbuf = s.SAbuf ∧ (pdOnset s).GDbuf = s.GDbuf ∧ (pdOnset s).Aout3 = s.Aout3 := by
  unfold pdOnset
  split <;> simp

theorem pdFinalize_frame (s : ISR) :
    (pdFinalize s).x5 = s.x5 ∧ (pdFinalize s).flag = s.flag ∧
    (pdFinalize s).counter_SA = s.counter_SA ∧
    (pdFinalize s).c_epochs = s.c_epochs ∧ (pdFinalize s).Tempbuf = s.Tempbuf ∧
    (pdFinalize s).SAbuf = s.SAbuf ∧ (pdFinalize s).GDbuf = s.GDbuf ∧
    (pdFinalize s).counter_out = s.counter_out ∧ (pdFinalize s).Aout3 = s.Aout3 := by
  unfold pdFinalize
  split
  · simp only []
    split <;> simp
  · simp

theorem pdFinalize_pos (s : ISR) (h : finalizeCond s) :
    (pdFinalize s).peaki = s.peakt ∧ (pdFinalize s).peakt = 0 ∧
    (pdFinalize s).spki =
      (if s.peakt > s.thresholdi1 then (1/8) * s.peakt + (7/8) * s.spki else s.spki) ∧
    (pdFinalize s).npki =
      (if s.peakt > s.thresholdi1 then s.npki else (1/8) * s.peakt + (7/8) * s.npki) ∧
    (pdFinalize s).thresholdi1 =
      (pdFinalize s).npki + (1/4) * ((pdFinalize s).spki - (pdFinalize s).npki) := by
  unfold pdFinalize
  rw [if_pos h]
  simp only []
  split <;> simp

theorem pdFinalize_neg (s : ISR) (h : ¬ finalizeCond s) : pdFinalize s = s := by
  unfold pdFinalize
  rw [if_neg h]

theorem finalizeCond_iff (m : ℚ) (s : ISR) :
    finalizeCond (pdOnset (pdTrack m s)) ↔ (m ≤ s.x5.rd 2 ∧ m < (1/2) * s.peakt) := by
  unfold finalizeCond
  rw [(pdOnset_frame _).1, (pdOnset_frame _).2.1, pdTrack_x5, pdTrack_peakt, x5_wr_rd0,
    x5_wr_rd2]
  constructor
  · rintro ⟨h1, h2⟩
    rw [if_neg (fun h => absurd h.1 (not_lt.mpr h1))] at h2
    exact ⟨h1, h2⟩
  · rintro ⟨h1, h2⟩
    rw [if_neg (fun h => absurd h.1 (not_lt.mpr h1))]
    exact ⟨h1, h2⟩

theorem peakDetection_flag (m : ℚ) (s : ISR) :
    (peakDetection m s).flag =
      if (if m > s.x5.rd 2 ∧ m > s.peakt then m else s.peakt) > s.thresholdi1 ∧ s.flag ≠ 1
      then 1 else s.flag := by
  unfold peakDetection
  simp only []
  rw [(pdFinalize_frame _).2.1, pdOnset_flag, pdTrack_peakt, (pdTrack_frame m s).1,
    (pdTrack_frame m s).2.2.2.2.1]

theorem peakDetection_frame (m : ℚ) (s : ISR) :
    (peakDetection m s).counter_SA = s.counter_SA ∧
    (peakDetection m s).c_epochs = s.c_epochs ∧ (peakDetection m s).Tempbuf = s.Tempbuf ∧
    (peakDetection m s).SAbuf = s.SAbuf ∧ (peakDetection m s).GDbuf = s.GDbuf ∧
    (peakDetection m s).Aout3 = s.Aout3 := by
  unfold peakDetection
  have h1 := pdFinalize_frame (pdOnset (pdTrack m s))
  have h2 := pdOnset_frame (pdTrack m s)
  have h3 := pdTrack_frame m s
  simp only []
  refine ⟨?_, ?_, ?_, ?_, ?_, ?_⟩
  · rw [h1.2.2.1, h2.2.2.2.2.2.2.1, h3.2.2.2.2.2.1]
  · rw [h1.2.2.2.1, h2.2.2.2.2.2.2.2.1, h3.2.2.2.2.2.2.1]
  · rw [h1.2.2.2.2.1, h2.2.2.2.2.2.2.2.2.1, h3.2.2.2.2.2.2.2.1]
  · rw [h1.2.2.2.2.2.1, h2.2.2.2.2.2.2.2.2.2.1, h3.2.2.2.2.2.2.2.2.1]
  · rw [h1.2.2.2.2.2.2.1, h2.2.2.2.2.2.2.2.2.2.2.1, h3.2.2.2.2.2.2.2.2.2.1]
  · rw [h1.2.2.2.2.2.2.2.2, h2.2.2.2.2.2.2.2.2.2.2.2, h3.2.2.2.2.2.2.2.2.2.2.2]

/-- The three-sample history after a tick: the newest value twice, then the previous one. -/
theorem peakDetection_x5 (m : ℚ) (s : ISR) :
    (peakDetection m s).x5.rd 0 = m ∧ (peakDetection m s).x5.rd 1 = m ∧
    (peakDetection m s).x5.rd 2 = s.x5.rd 1 := by
  unfold peakDetection
  simp only []
  rw [(pdFinalize_frame _).1, (pdOnset_frame _).1, pdTrack_x5]
  simp [shiftBuf_rd, Arr.rd_wr]

theorem peakDetection_pos (m : ℚ) (s : ISR) (h : m ≤ s.x5.rd 2 ∧ m < (1/2) * s.peakt) :
    (peakDetection m s).peaki = s.peakt ∧ (peakDetection m s).peakt = 0 ∧
    (peakDetection m s).spki =
      (if s.peakt > s.thresholdi1 then (1/8) * s.peakt + (7/8) * s.spki else s.spki) ∧
    (peakDetection m s).npki =
      (if s.peakt > s.thresholdi1 then s.npki else (1/8) * s.peakt + (7/8) * s.npki) ∧
    (peakDetection m s).thresholdi1 =
      (peakDetection m s).npki + (1/4) * ((peakDetection m s).spki - (peakDetection m s).npki) := by
  have hf := pdFinalize_pos _ ((finalizeCond_iff m s).mpr h)
  have hp : (pdOnset (pdTrack m s)).peakt = s.peakt := by
    rw [(pdOnset_frame _).2.1, pdTrack_peakt, if_neg (fun h' => absurd h'.1 (not_lt.mpr h.1))]
  have ht : (pdOnset (pdTrack m s)).thresholdi1 = s.thresholdi1 := by
    rw [(pdOnset_frame _).2.2.1, (pdTrack_frame m s).1]
  have hs : (pdOnset (pdTrack m s)).spki = s.spki := by
    rw [(pdOnset_frame _).2.2.2.1, (pdTrack_frame m s).2.1]
  have hn : (pdOnset (pdTrack m s)).npki = s.npki := by
    rw [(pdOnset_frame _).2.2.2.2.1, (pdTrack_frame m s).2.2.1]
  rw [hp, ht, hs, hn] at hf
  unfold peakDetection
  exact hf

theorem peakDetection_neg (m : ℚ) (s : ISR) (h : ¬ (m ≤ s.x5.rd 2 ∧ m < (1/2) * s.peakt)) :
    (peakDetection m s).peaki = s.peaki ∧
    (peakDetection m s).peakt = (if m > s.x5.rd 2 ∧ m > s.peakt then m else s.peakt) ∧
    (peakDetection m s).spki = s.spki ∧ (peakDetection m s).npki = s.npki ∧
    (peakDetection m s).thresholdi1 = s.thresholdi1 := by
  have hf := pdFinalize_neg _ (fun hc => h ((finalizeCond_iff m s).mp hc))
  unfold peakDetection
  simp only [hf]
  have h2 := pdOnset_frame (pdTrack m s)
  have h3 := pdTrack_frame m s
  refine ⟨?_, ?_, ?_, ?_, ?_⟩
  · rw [h2.2.2.2.2.2.1, h3.2.2.2.1]
  · rw [h2.2.1, pdTrack_peakt]
  · rw [h2.2.2.2.1, h3.2.1]
  · rw [h2.2.2.2.2.1, h3.2.2.1]
  · rw [h2.2.2.1, h3.1]

set_option maxRecDepth 8000 in
/-- The averager never touches the detector's estimates. -/
theorem signalAverager_det (f : ℚ) (s : ISR) :
    (signalAverager f s).x5 = s.x5 ∧ (signalAverager f s).peakt = s.peakt ∧
    (signalAverager f s).thresholdi1 = s.thresholdi1 ∧ (signalAverager f s).spki = s.spki ∧
    (signalAverager f s).npki = s.npki ∧ (signalAverager f s).peaki = s.peaki := by
  unfold signalAverager epochEnd
  simp only []
  split_ifs <;> simp

set_option maxRecDepth 8000 in
/-- Outside a beat the averager only records the raw sample in `GDbuf`. -/
theorem signalAverager_idle (f : ℚ) (s : ISR) (h : s.flag ≠ 1) :
    (signalAverager f s).flag = s.flag ∧ (signalAverager f s).counter_SA = s.counter_SA ∧
    (signalAverager f s).c_epochs = s.c_epochs ∧ (signalAverager f s).Tempbuf = s.Tempbuf ∧
    (signalAverager f s).SAbuf = s.SAbuf ∧ (signalAverager f s).counter_out = s.counter_out ∧
    (signalAverager f s).Aout3 = s.Aout3 := by
  unfold signalAverager
  simp only [h, if_false]
  simp

set_option maxRecDepth 8000 in
/-- An inside-beat tick that does not end the epoch. -/
theorem signalAverager_beat (f : ℚ) (s : ISR) (h : s.flag = 1) (hc : ¬ s.counter_SA - 1 ≤ 0) :
    (signalAverager f s).flag = 1 ∧ (signalAverager f s).counter_SA = s.counter_SA - 1 ∧
    (signalAverager f s).c_epochs = s.c_epochs ∧
    (signalAverager f s).Tempbuf = tempWrites f s.counter_SA (s.GDbuf.wr 0 f) s.Tempbuf ∧
    (signalAverager f s).SAbuf = s.SAbuf ∧
    (signalAverager f s).Aout3 = s.SAbuf.rdI s.counter_out / max_epochs := by
  unfold signalAverager epochEnd
  simp only [h, if_true]
  split_ifs <;> simp_all

set_option maxRecDepth 8000 in
/-- An inside-beat tick that ends the epoch without promotion. -/
theorem signalAverager_end (f : ℚ) (s : ISR) (h : s.flag = 1) (hc : s.counter_SA - 1 ≤ 0)
    (he : ¬ s.c_epochs + 1 ≥ max_epochs) :
    (signalAverager f s).flag = 0 ∧ (signalAverager f s).counter_SA = 144 ∧
    (signalAverager f s).c_epochs = s.c_epochs + 1 ∧
    (signalAverager f s).Tempbuf = tempWrites f s.counter_SA (s.GDbuf.wr 0 f) s.Tempbuf ∧
    (signalAverager f s).SAbuf = s.SAbuf ∧
    (signalAverager f s).Aout3 = s.SAbuf.rdI s.counter_out / max_epochs := by
  unfold signalAverager epochEnd
  simp only [h, if_true]
  split_ifs <;> simp_all

set_option maxRecDepth 8000 in
/-- An inside-beat tick that ends the epoch and promotes the accumulator. -/
theorem signalAverager_promote (f : ℚ) (s : ISR) (h : s.flag = 1) (hc : s.counter_SA - 1 ≤ 0)
    (he : s.c_epochs + 1 ≥ max_epochs) :
    (signalAverager f s).flag = 0 ∧ (signalAverager f s).counter_SA = 144 ∧
    (signalAverager f s).c_epochs = 0 ∧
    (signalAverager f s).Tempbuf = forUp (fun i T => T.wr i 0) 0 200
      (tempWrites f s.counter_SA (s.GDbuf.wr 0 f) s.Tempbuf) ∧
    (signalAverager f s).SAbuf = forDown 0
      (fun i A => A.wr i ((tempWrites f s.counter_SA (s.GDbuf.wr 0 f) s.Tempbuf).rd i)) 199
      s.SAbuf ∧
    (signalAverager f s).Aout3 = s.SAbuf.rdI s.counter_out / max_epochs := by
  unfold signalAverager epochEnd
  simp only [h, if_true]
  split_ifs <;> simp_all

/-- The filter stages leave the detector's and the averager's globals alone. -/
theorem filterStages_frame (num : Int) (u : Indeterminate) (s : ISR) :
    (filterStages num u s).1.x5 = s.x5 ∧ (filterStages num u s).1.peakt = s.peakt ∧
    (filterStages num u s).1.thresholdi1 = s.thresholdi1 ∧
    (filterStages num u s).1.spki = s.spki ∧ (filterStages num u s).1.npki = s.npki ∧
    (filterStages num u s).1.peaki = s.peaki ∧ (filterStages num u s).1.flag = s.flag ∧
    (filterStages num u s).1.counter_SA = s.counter_SA ∧
    (filterStages num u s).1.c_epochs = s.c_epochs ∧
    (filterStages num u s).1.Tempbuf = s.Tempbuf ∧ (filterStages num u s).1.SAbuf = s.SAbuf ∧
    (filterStages num u s).1.GDbuf = s.GDbuf ∧
    (filterStages num u s).1.counter_out = s.counter_out ∧
    (filterStages num u s).1.Aout3 = s.Aout3 := by
  unfold filterStages derivStages movingWindow derivative highPass lowPass
  simp only [and_self]

theorem ISRfxn_eq (num : Int) (u : Indeterminate) (s : ISR) :
    ISRfxn num u s = signalAverager ((num : ℚ) / 2048) (detected num u s) := rfl

/-- The detector's fields of the globals entering the averager, for a full tick. -/
theorem detected_frame (num : Int) (u : Indeterminate) (s : ISR) :
    (detected num u s).counter_SA = s.counter_SA ∧
    (detected num u s).c_epochs = s.c_epochs ∧ (detected num u s).Tempbuf = s.Tempbuf ∧
    (detected num u s).SAbuf = s.SAbuf ∧ (detected num u s).GDbuf = s.GDbuf ∧
    (detected num u s).Aout3 = s.Aout3 := by
  have h := peakDetection_frame (filterStages num u s).2 (filterStages num u s).1
  have g := filterStages_frame num u s
  unfold detected
  exact ⟨h.1.trans g.2.2.2.2.2.2.2.1, h.2.1.trans g.2.2.2.2.2.2.2.2.1,
    h.2.2.1.trans g.2.2.2.2.2.2.2.2.2.1, h.2.2.2.1.trans g.2.2.2.2.2.2.2.2.2.2.1,
    h.2.2.2.2.1.trans g.2.2.2.2.2.2.2.2.2.2.2.1, h.2.2.2.2.2.trans g.2.2.2.2.2.2.2.2.2.2.2.2.2⟩

theorem detected_flag (num : Int) (u : Indeterminate) (s : ISR) :
    (detected num u s).flag = 1 ∨ (detected num u s).flag = s.flag := by
  unfold detected
  rw [peakDetection_flag, (filterStages_frame num u s).2.2.2.2.2.2.1]
  split_ifs <;> first | exact Or.inl rfl | exact Or.inr rfl

/-- The finalize rule in exact arithmetic, for every call of the routine (the program
rounds each operation to binary32, see `peak_finalize_rule_binary32`): with `m` the newest
integrator value, when `m` is at most the value of two ticks ago (`x5[2]`) and below half of
`peakt`,
`peaki` becomes `peakt`; if that exceeds the threshold held before the update `spki` becomes
`peaki/8 + 7*spki/8` and `npki` is unchanged, otherwise `npki` becomes `peaki/8 + 7*npki/8`
and `spki` is unchanged; `thresholdi1` becomes `npki + (spki - npki)/4` of the updated
estimates; `peakt` becomes 0. When the condition is false, `spki`, `npki`, `thresholdi1`
and `peaki` are unchanged. -/
theorem peak_finalize_rule (num : Int) (u : Indeterminate) (s : ISR) :
    ((filterStages num u s).2 ≤ s.x5.rd 2 ∧ (filterStages num u s).2 < (1/2) * s.peakt →
      (ISRfxn num u s).peaki = s.peakt ∧
      (s.peakt > s.thresholdi1 →
        (ISRfxn num u s).spki = s.peakt / 8 + 7 * s.spki / 8 ∧
        (ISRfxn num u s).npki = s.npki) ∧
      (¬ s.peakt > s.thresholdi1 →
        (ISRfxn num u s).npki = s.peakt / 8 + 7 * s.npki / 8 ∧
        (ISRfxn num u s).spki = s.spki) ∧
      (ISRfxn num u s).thresholdi1 =
        (ISRfxn num u s).npki + ((ISRfxn num u s).spki - (ISRfxn num u s).npki) / 4 ∧
      (ISRfxn num u s).peakt = 0) ∧
    (¬ ((filterStages num u s).2 ≤ s.x5.rd 2 ∧ (filterStages num u s).2 < (1/2) * s.peakt) →
      (ISRfxn num u s).spki = s.spki ∧ (ISRfxn num u s).npki = s.npki ∧
      (ISRfxn num u s).thresholdi1 = s.thresholdi1 ∧ (ISRfxn num u s).peaki = s.peaki) := by
  have g := filterStages_frame num u s
  have a := signalAverager_det ((num : ℚ) / 2048) (detected num u s)
  rw [ISRfxn_eq]
  rw [a.2.1, a.2.2.1, a.2.2.2.1, a.2.2.2.2.1, a.2.2.2.2.2]
  unfold detected
  constructor
  · intro h
    rw [← g.1, ← g.2.1] at h
    have p := peakDetection_pos _ _ h
    rw [g.2.1, g.2.2.1, g.2.2.2.1, g.2.2.2.2.1] at p
    refine ⟨p.1, ?_, ?_, ?_, p.2.1⟩
    · intro hgt
      rw [p.2.2.1, p.2.2.2.1, if_pos hgt, if_pos hgt]
      exact ⟨by ring, rfl⟩
    · intro hgt
      rw [p.2.2.1, p.2.2.2.1, if_neg hgt, if_neg hgt]
      exact ⟨by ring, rfl⟩
    · rw [p.2.2.2.2]
      ring
  · intro h
    rw [← g.1, ← g.2.1] at h
    have p := peakDetection_neg _ _ h
    rw [g.2.2.1, g.2.2.2.1, g.2.2.2.2.1, g.2.2.2.2.2.1] at p
    exact ⟨p.2.2.1, p.2.2.2.1, p.2.2.2.2, p.1⟩

/-! ## The detector and the averager driven by a synthetic integrator signal -/

theorem detAvg_x5 (m f : ℚ) (s : ISR) :
    (detAvg m f s).x5.rd 1 = m ∧ (detAvg m f s).x5.rd 2 = s.x5.rd 1 := by
  unfold detAvg
  rw [(signalAverager_det f _).1]
  exact (peakDetection_x5 m s).2

theorem detAvg_pos (m f : ℚ) (s : ISR) (h : m ≤ s.x5.rd 2 ∧ m < (1/2) * s.peakt) :
    (detAvg m f s).peaki = s.peakt ∧ (detAvg m f s).peakt = 0 ∧
    (detAvg m f s).spki =
      (if s.peakt > s.thresholdi1 then (1/8) * s.peakt + (7/8) * s.spki else s.spki) ∧
    (detAvg m f s).npki =
      (if s.peakt > s.thresholdi1 then s.npki else (1/8) * s.peakt + (7/8) * s.npki) ∧
    (detAvg m f s).thresholdi1 =
      (detAvg m f s).npki + (1/4) * ((detAvg m f s).spki - (detAvg m f s).npki) := by
  have a := signalAverager_det f (peakDetection m s)
  unfold detAvg
  rw [a.2.1, a.2.2.1, a.2.2.2.1, a.2.2.2.2.1, a.2.2.2.2.2]
  exact peakDetection_pos m s h

theorem detAvg_neg (m f : ℚ) (s : ISR) (h : ¬ (m ≤ s.x5.rd 2 ∧ m < (1/2) * s.peakt)) :
    (detAvg m f s).peaki = s.peaki ∧
    (detAvg m f s).peakt = (if m > s.x5.rd 2 ∧ m > s.peakt then m else s.peakt) ∧
    (detAvg m f s).spki = s.spki ∧ (detAvg m f s).npki = s.npki ∧
    (detAvg m f s).thresholdi1 = s.thresholdi1 := by
  have a := signalAverager_det f (peakDetection m s)
  unfold detAvg
  rw [a.2.1, a.2.2.1, a.2.2.2.1, a.2.2.2.2.1, a.2.2.2.2.2]
  exact peakDetection_neg m s h

/-- A tick on which the onset condition fails leaves a lowered flag lowered. -/
theorem detAvg_flag_stays (m f : ℚ) (s : ISR) (hf : s.flag = 0)
    (h : ¬ (if m > s.x5.rd 2 ∧ m > s.peakt then m else s.peakt) > s.thresholdi1) :
    (detAvg m f s).flag = 0 ∧ (detAvg m f s).counter_SA = s.counter_SA := by
  have hd : (peakDetection m s).flag = 0 := by
    rw [peakDetection_flag, if_neg (fun hc => h hc.1), hf]
  have a := signalAverager_idle f (peakDetection m s) (by rw [hd]; decide)
  unfold detAvg
  rw [a.1, a.2.1, hd, (peakDetection_frame m s).1]
  exact ⟨rfl, rfl⟩

/-- A tick on which the onset condition holds with the countdown above 1 raises the flag. -/
theorem detAvg_flag_onset (m f : ℚ) (s : ISR) (hf : s.flag ≠ 1) (hc : 1 < s.counter_SA)
    (h : (if m > s.x5.rd 2 ∧ m > s.peakt then m else s.peakt) > s.thresholdi1) :
    (detAvg m f s).flag = 1 ∧ (detAvg m f s).counter_SA = s.counter_SA - 1 := by
  have hd : (peakDetection m s).flag = 1 := by
    rw [peakDetection_flag, if_pos ⟨h, hf⟩]
  have a := signalAverager_beat f (peakDetection m s) hd
    (by rw [(peakDetection_frame m s).1]; omega)
  unfold detAvg
  rw [a.1, a.2.1, (peakDetection_frame m s).1]
  exact ⟨rfl, rfl⟩

theorem Quiet_step (f : ℚ) (s : ISR) (h : Quiet s) :
    Quiet (detAvg 0 f s) ∧ (detAvg 0 f s).counter_SA = s.counter_SA := by
  obtain ⟨h1, h2, h3, h4, h5, h6, h7⟩ := h
  have hn : ¬ ((0 : ℚ) ≤ s.x5.rd 2 ∧ (0 : ℚ) < (1/2) * s.peakt) := by
    rw [h1]; norm_num
  have n := detAvg_neg 0 f s hn
  have x := detAvg_x5 0 f s
  have hp : (if (0 : ℚ) > s.x5.rd 2 ∧ (0 : ℚ) > s.peakt then (0 : ℚ) else s.peakt) = 0 := by
    rw [h1]; simp
  have fl := detAvg_flag_stays 0 f s h7 (by rw [hp, h4]; norm_num)
  refine ⟨⟨?_, ?_, ?_, ?_, x.1, ?_, fl.1⟩, fl.2⟩
  · rw [n.2.1, hp]
  · rw [n.2.2.1, h2]
  · rw [n.2.2.2.1, h3]
  · rw [n.2.2.2.2, h4]
  · rw [x.2, h5]

theorem Quiet_run (s0 : ISR) (mwi raw : Nat → ℚ) (h : Quiet s0) (t : Nat)
    (hz : ∀ i, i < t → mwi i = 0) :
    Quiet (detAvgRun s0 mwi raw t) ∧ (detAvgRun s0 mwi raw t).counter_SA = s0.counter_SA := by
  induction t with
  | zero => exact ⟨h, rfl⟩
  | succ t ih =>
    have ih' := ih (fun i hi => hz i (Nat.lt_succ_of_lt hi))
    have := Quiet_step (raw t) _ ih'.1
    simp only [detAvgRun, hz t (Nat.lt_succ_self t)]
    exact ⟨this.1, this.2.trans ih'.2⟩

theorem Quiet_no_branch (s : ISR) (h : Quiet s) :
    ¬ onsetCond (pdTrack 0 s) ∧ ¬ finalizeCond (pdOnset (pdTrack 0 s)) := by
  obtain ⟨h1, _, _, h4, _, _, _⟩ := h
  constructor
  · unfold onsetCond
    rw [pdTrack_peakt, (pdTrack_frame 0 s).1, h1, h4]
    simp
  · rw [finalizeCond_iff, h1]
    norm_num

theorem Quiet_init : Quiet ISR.init := by
  refine ⟨rfl, rfl, rfl, rfl, ?_, ?_, rfl⟩ <;> exact Arr.rd_zero 3 _

/-- C5. A flat-zero integrator signal never triggers a beat: from any globals in which
`peakt`, `spki`, `npki`, `thresholdi1` and `x5` are all 0 and `flag = 0`, with the integrator
value 0 on every tick (whatever the raw samples), before and after every tick `flag = 0`,
`peakt = 0` and `thresholdi1 = 0`, and neither the onset branch nor the finalize branch is
taken on any tick. -/
theorem flat_zero_never_triggers (s0 : ISR) (raw : Nat → ℚ)
    (h0 : s0.peakt = 0 ∧ s0.spki = 0 ∧ s0.npki = 0 ∧ s0.thresholdi1 = 0 ∧
      s0.x5 = Arr.zero 3 ∧ s0.flag = 0) (t : Nat) :
    (detAvgRun s0 (fun _ => 0) raw t).flag = 0 ∧
    (detAvgRun s0 (fun _ => 0) raw t).peakt = 0 ∧
    (detAvgRun s0 (fun _ => 0) raw t).thresholdi1 = 0 ∧
    ¬ onsetCond (pdTrack 0 (detAvgRun s0 (fun _ => 0) raw t)) ∧
    ¬ finalizeCond (pdOnset (pdTrack 0 (detAvgRun s0 (fun _ => 0) raw t))) := by
  have q0 : Quiet s0 := by
    obtain ⟨h1, h2, h3, h4, h5, h6⟩ := h0
    refine ⟨h1, h2, h3, h4, ?_, ?_, h6⟩ <;> rw [h5] <;> exact Arr.rd_zero 3 _
  have q := (Quiet_run s0 (fun _ => 0) raw q0 t (fun _ _ => rfl)).1
  exact ⟨q.2.2.2.2.2.2, q.1, q.2.2.2.1, Quiet_no_branch _ q⟩

/-- Witness for C5: the initial globals, raw sample 1 on every tick, after 1000 ticks. -/
theorem flat_zero_never_triggers_witness :
    (detAvgRun ISR.init (fun _ => 0) (fun _ => 1) 1000).flag = 0 ∧
    (detAvgRun ISR.init (fun _ => 0) (fun _ => 1) 1000).peakt = 0 ∧
    (detAvgRun ISR.init (fun _ => 0) (fun _ => 1) 1000).thresholdi1 = 0 ∧
    ¬ onsetCond (pdTrack 0 (detAvgRun ISR.init (fun _ => 0) (fun _ => 1) 1000)) ∧
    ¬ finalizeCond (pdOnset (pdTrack 0 (detAvgRun ISR.init (fun _ => 0) (fun _ => 1) 1000))) :=
  flat_zero_never_triggers ISR.init (fun _ => 1) ⟨rfl, rfl, rfl, rfl, rfl, rfl⟩ 1000

/-! ## A single pulse -/

/-- The pulse tick: the running peak takes the pulse height and the flag is raised. -/
theorem pulse_tick (h f : ℚ) (hh : 0 < h) (s : ISR) (q : Quiet s) (hc : s.counter_SA = 144) :
    (detAvg h f s).peakt = h ∧ (detAvg h f s).spki = 0 ∧ (detAvg h f s).npki = 0 ∧
    (detAvg h f s).thresholdi1 = 0 ∧ (detAvg h f s).x5.rd 1 = h ∧
    (detAvg h f s).x5.rd 2 = 0 ∧ (detAvg h f s).flag = 1 ∧
    ¬ finalizeCond (pdOnset (pdTrack h s)) := by
  obtain ⟨h1, h2, h3, h4, h5, h6, h7⟩ := q
  have hn : ¬ (h ≤ s.x5.rd 2 ∧ h < (1/2) * s.peakt) := by
    rw [h6]; intro hc; exact absurd hc.1 (not_le.mpr hh)
  have n := detAvg_neg h f s hn
  have x := detAvg_x5 h f s
  have hp : (if h > s.x5.rd 2 ∧ h > s.peakt then h else s.peakt) = h := by
    rw [h1, h6, if_pos ⟨hh, hh⟩]
  have fl := detAvg_flag_onset h f s (by rw [h7]; decide) (by rw [hc]; decide)
    (by rw [hp, h4]; exact hh)
  refine ⟨?_, ?_, ?_, ?_, x.1, ?_, fl.1, ?_⟩
  · rw [n.2.1, hp]
  · rw [n.2.2.1, h2]
  · rw [n.2.2.2.1, h3]
  · rw [n.2.2.2.2, h4]
  · rw [x.2, h5]
  · rw [finalizeCond_iff]; exact hn

/-- The tick after the pulse: the finalize branch runs and classifies a signal peak. -/
theorem after_pulse_tick (h f : ℚ) (hh : 0 < h) (s : ISR)
    (p : s.peakt = h ∧ s.spki = 0 ∧ s.npki = 0 ∧ s.thresholdi1 = 0 ∧ s.x5.rd 1 = h ∧
      s.x5.rd 2 = 0) :
    Settled h (detAvg 0 f s) ∧ finalizeCond (pdOnset (pdTrack 0 s)) := by
  obtain ⟨h1, h2, h3, h4, h5, h6⟩ := p
  have hc : (0 : ℚ) ≤ s.x5.rd 2 ∧ (0 : ℚ) < (1/2) * s.peakt := by
    rw [h6, h1]; exact ⟨le_refl 0, by linarith⟩
  have n := detAvg_pos 0 f s hc
  have x := detAvg_x5 0 f s
  have hgt : s.peakt > s.thresholdi1 := by rw [h1, h4]; exact hh
  rw [if_pos hgt, if_pos hgt, h1, h2, h3] at n
  refine ⟨⟨n.2.1, ?_, n.2.2.2.1, ?_, x.1, ?_⟩, (finalizeCond_iff 0 s).mpr hc⟩
  · rw [n.2.2.1]; ring
  · rw [n.2.2.2.2, n.2.2.1, n.2.2.2.1]; ring
  · rw [x.2, h5]; exact le_of_lt hh

/-- Once settled, a zero integrator value changes nothing and raises no flag. -/
theorem Settled_step (h f : ℚ) (hh : 0 < h) (s : ISR) (p : Settled h s) :
    Settled h (detAvg 0 f s) ∧ ¬ finalizeCond (pdOnset (pdTrack 0 s)) ∧
      (s.flag = 0 → (detAvg 0 f s).flag = 0) := by
  obtain ⟨h1, h2, h3, h4, h5, h6⟩ := p
  have hn : ¬ ((0 : ℚ) ≤ s.x5.rd 2 ∧ (0 : ℚ) < (1/2) * s.peakt) := by
    rw [h1]; norm_num
  have n := detAvg_neg 0 f s hn
  have x := detAvg_x5 0 f s
  have hp : (if (0 : ℚ) > s.x5.rd 2 ∧ (0 : ℚ) > s.peakt then (0 : ℚ) else s.peakt) = 0 := by
    rw [h1]; simp
  refine ⟨⟨?_, ?_, ?_, ?_, x.1, ?_⟩, ?_, ?_⟩
  · rw [n.2.1, hp]
  · rw [n.2.2.1, h2]
  · rw [n.2.2.2.1, h3]
  · rw [n.2.2.2.2, h4]
  · rw [x.2, h5]
  · rw [finalizeCond_iff]; exact hn
  · intro hf
    exact (detAvg_flag_stays 0 f s hf (by rw [hp, h4]; linarith)).1

theorem pulse_before (h : ℚ) (t0 : Nat) (raw : Nat → ℚ) (t : Nat) (ht : t ≤ t0) :
    Quiet (detAvgRun ISR.init (pulse h t0) raw t) ∧
      (detAvgRun ISR.init (pulse h t0) raw t).counter_SA = 144 := by
  have := Quiet_run ISR.init (pulse h t0) raw Quiet_init t
    (fun i hi => by unfold pulse; rw [if_neg (by omega)])
  exact ⟨this.1, this.2⟩

theorem pulse_at (h : ℚ) (hh : 0 < h) (t0 : Nat) (raw : Nat → ℚ) :
    (detAvgRun ISR.init (pulse h t0) raw (t0 + 1)).peakt = h ∧
    (detAvgRun ISR.init (pulse h t0) raw (t0 + 1)).spki = 0 ∧
    (detAvgRun ISR.init (pulse h t0) raw (t0 + 1)).npki = 0 ∧
    (detAvgRun ISR.init (pulse h t0) raw (t0 + 1)).thresholdi1 = 0 ∧
    (detAvgRun ISR.init (pulse h t0) raw (t0 + 1)).x5.rd 1 = h ∧
    (detAvgRun ISR.init (pulse h t0) raw (t0 + 1)).x5.rd 2 = 0 ∧
    (detAvgRun ISR.init (pulse h t0) raw (t0 + 1)).flag = 1 ∧
    ¬ finalizeCond (pdOnset (pdTrack h (detAvgRun ISR.init (pulse h t0) raw t0))) := by
  have b := pulse_before h t0 raw t0 (le_refl t0)
  have := pulse_tick h (raw t0) hh _ b.1 b.2
  simp only [detAvgRun, pulse, if_true]
  exact this

theorem pulse_after (h : ℚ) (hh : 0 < h) (t0 : Nat) (raw : Nat → ℚ) (k : Nat) :
    Settled h (detAvgRun ISR.init (pulse h t0) raw (t0 + 2 + k)) := by
  induction k with
  | zero =>
    have a := pulse_at h hh t0 raw
    have := (after_pulse_tick h (raw (t0 + 1)) hh _
      ⟨a.1, a.2.1, a.2.2.1, a.2.2.2.1, a.2.2.2.2.1, a.2.2.2.2.2.1⟩).1
    have e : pulse h t0 (t0 + 1) = 0 := by unfold pulse; rw [if_neg (by omega)]
    show Settled h (detAvg (pulse h t0 (t0 + 1)) (raw (t0 + 1)) _)
    rw [e]
    exact this
  | succ k ih =>
    have := (Settled_step h (raw (t0 + 2 + k)) hh _ ih).1
    have e : pulse h t0 (t0 + 2 + k) = 0 := by unfold pulse; rw [if_neg (by omega)]
    show Settled h (detAvg (pulse h t0 (t0 + 2 + k)) (raw (t0 + 2 + k)) _)
    rw [e]
    exact this

/-- In exact arithmetic a single pulse gives exactly one beat: from the initial globals, for
every height `h > 0`, pulse tick `t0` and raw samples, when the integrator value is `h` at
tick `t0` and 0 at every other tick, the flag goes from 0 (before the tick) to 1 (after it)
on tick `t0` and on no other tick, the finalize branch runs on tick `t0 + 1` and on no other
tick, from then on `spki = h/8`, `npki = 0` and `thresholdi1 = h/32`, and `npki` is 0
throughout. The program computes in binary32, where this holds only for the heights of
`single_pulse_one_beat_binary32`. -/
theorem single_pulse_one_beat (h : ℚ) (hh : 0 < h) (t0 : Nat) (raw : Nat → ℚ) :
    (∀ t, ((detAvgRun ISR.init (pulse h t0) raw t).flag = 0 ∧
        (detAvgRun ISR.init (pulse h t0) raw (t + 1)).flag = 1) ↔ t = t0) ∧
    (∀ t, finalizeCond (pdOnset (pdTrack (pulse h t0 t)
        (detAvgRun ISR.init (pulse h t0) raw t))) ↔ t = t0 + 1) ∧
    (∀ t, t0 + 2 ≤ t → (detAvgRun ISR.init (pulse h t0) raw t).spki = h / 8 ∧
        (detAvgRun ISR.init (pulse h t0) raw t).npki = 0 ∧
        (detAvgRun ISR.init (pulse h t0) raw t).thresholdi1 = h / 32) ∧
    (∀ t, (detAvgRun ISR.init (pulse h t0) raw t).npki = 0) := by
  have hat := pulse_at h hh t0 raw
  have hsettled : ∀ t, t0 + 2 ≤ t → Settled h (detAvgRun ISR.init (pulse h t0) raw t) := by
    intro t ht
    obtain ⟨k, rfl⟩ := Nat.exists_eq_add_of_le ht
    exact pulse_after h hh t0 raw k
  have hzero : ∀ t, t ≠ t0 → pulse h t0 t = 0 := by
    intro t ht; unfold pulse; rw [if_neg ht]
  refine ⟨?_, ?_, ?_, ?_⟩
  · intro t
    constructor
    · rintro ⟨f0, f1⟩
      by_contra hne
      rcases Nat.lt_or_gt_of_ne hne with hlt | hgt
      · have q := (pulse_before h t0 raw (t + 1) hlt).1
        rw [q.2.2.2.2.2.2] at f1
        exact absurd f1 (by decide)
      · by_cases h1 : t = t0 + 1
        · subst h1
          rw [hat.2.2.2.2.2.2.1] at f0
          exact absurd f0 (by decide)
        · have st := hsettled t (by omega)
          have := (Settled_step h (raw t) hh _ st).2.2 f0
          have e : detAvgRun ISR.init (pulse h t0) raw (t + 1) =
              detAvg 0 (raw t) (detAvgRun ISR.init (pulse h t0) raw t) := by
            simp only [detAvgRun, hzero t hne]
          rw [e, this] at f1
          exact absurd f1 (by decide)
    · rintro rfl
      exact ⟨(pulse_before h t raw t (le_refl t)).1.2.2.2.2.2.2, hat.2.2.2.2.2.2.1⟩
  · intro t
    constructor
    · intro hf
      by_contra hne
      by_cases h0 : t = t0
      · subst h0
        have e : pulse h t t = h := by unfold pulse; rw [if_pos rfl]
        rw [e] at hf
        exact hat.2.2.2.2.2.2.2 hf
      · rw [hzero t h0] at hf
        rcases Nat.lt_or_gt_of_ne h0 with hlt | hgt
        · exact (Quiet_no_branch _ (pulse_before h t0 raw t (le_of_lt hlt)).1).2 hf
        · exact (Settled_step h (raw t) hh _ (hsettled t (by omega))).2.1 hf
    · rintro rfl
      rw [hzero (t0 + 1) (by omega)]
      exact (after_pulse_tick h (raw (t0 + 1)) hh _
        ⟨hat.1, hat.2.1, hat.2.2.1, hat.2.2.2.1, hat.2.2.2.2.1, hat.2.2.2.2.2.1⟩).2
  · intro t ht
    have st := hsettled t ht
    exact ⟨st.2.1, st.2.2.1, st.2.2.2.1⟩
  · intro t
    by_cases h1 : t ≤ t0
    · exact (pulse_before h t0 raw t h1).1.2.2.1
    · by_cases h2 : t = t0 + 1
      · subst h2; exact hat.2.2.1
      · exact (hsettled t (by omega)).2.2.1

/-- An instance in exact arithmetic: unit height, pulse at tick 3, raw sample 1/2 on every
tick. -/
theorem single_pulse_one_beat_witness :
    (0 : ℚ) < 1 ∧
    (∀ t, ((detAvgRun ISR.init (pulse 1 3) (fun _ => 1/2) t).flag = 0 ∧
        (detAvgRun ISR.init (pulse 1 3) (fun _ => 1/2) (t + 1)).flag = 1) ↔ t = 3) ∧
    (∀ t, finalizeCond (pdOnset (pdTrack (pulse 1 3 t)
        (detAvgRun ISR.init (pulse 1 3) (fun _ => 1/2) t))) ↔ t = 3 + 1) ∧
    (∀ t, 3 + 2 ≤ t → (detAvgRun ISR.init (pulse 1 3) (fun _ => 1/2) t).spki = 1 / 8 ∧
        (detAvgRun ISR.init (pulse 1 3) (fun _ => 1/2) t).npki = 0 ∧
        (detAvgRun ISR.init (pulse 1 3) (fun _ => 1/2) t).thresholdi1 = 1 / 32) ∧
    (∀ t, (detAvgRun ISR.init (pulse 1 3) (fun _ => 1/2) t).npki = 0) :=
  ⟨by norm_num, single_pulse_one_beat 1 (by norm_num) 3 (fun _ => 1/2)⟩

/-! ## The averager over a run of the full routine -/

/-- Closed form of the additions of lines 313-317 for a countdown value `c` in 0..144. -/
theorem tempWrites_rd (f : ℚ) (c : Nat) (hc : c ≤ 144) (G : Arr 55) (T : Arr 200) (j : Nat) :
    (tempWrites f (c : Int) G T).rd j =
      (if 144 ≤ c ∧ 145 ≤ j ∧ j ≤ 199 then T.rd j + G.rd (j - 145) else T.rd j) +
        (if j = c then f else 0) := by
  unfold tempWrites
  simp only [Arr.wrI_ofNat, Arr.rdI_ofNat, Arr.rd_wr]
  have hinj : ∀ i, (forDown 144 (fun i T => T.wr i (T.rd i + G.rd (i - 145))) 199 T).rd i =
      if 144 < i ∧ i ≤ 199 then T.rd i + G.rd (i - 145) else T.rd i :=
    fun i => forDown_pointwise 144 (fun i x => x + G.rd (i - 145)) 199 (by decide) T i
  by_cases h144 : (c : Int) ≥ 144
  · have hc' : c = 144 := by omega
    subst hc'
    simp only [h144, if_true, hinj]
    by_cases hj : j = 144
    · subst hj; simp
    · rw [if_neg (by omega), if_neg hj]
      by_cases h2 : 144 < j ∧ j ≤ 199
      · rw [if_pos h2, if_pos (by omega)]; ring
      · rw [if_neg h2, if_neg (by omega)]; ring
  · simp only [h144, if_false]
    have e1 : ¬ (144 ≤ c ∧ 145 ≤ j ∧ j ≤ 199) := by omega
    rw [if_neg e1]
    by_cases hj : j = c
    · subst hj; rw [if_pos ⟨rfl, by omega⟩, if_pos rfl]
    · rw [if_neg (fun h => hj h.1.symm), if_neg hj]; ring

theorem copyLoop_rd (T A : Arr 200) (j : Nat) :
    (forDown 0 (fun i A => A.wr i (T.rd i)) 199 A).rd j =
      if 0 < j ∧ j ≤ 199 then T.rd j else A.rd j :=
  forDown_pointwise 0 (fun i _ => T.rd i) 199 (by decide) A j

theorem zeroLoop_rd (T : Arr 200) (j : Nat) :
    (forUp (fun i T => T.wr i 0) 0 200 T).rd j = 0 := by
  rw [forUp_fill]
  by_cases h : j < 200
  · rw [if_pos (by omega)]
  · rw [if_neg (by omega)]; exact Arr.rd_of_le T j (by omega)

/-- A tick on which the averager's inside-beat branch is not taken. -/
theorem ISRfxn_idle (num : Int) (u : Indeterminate) (s : ISR)
    (hd : (detected num u s).flag ≠ 1) :
    (ISRfxn num u s).flag = s.flag ∧ (ISRfxn num u s).counter_SA = s.counter_SA ∧
    (ISRfxn num u s).c_epochs = s.c_epochs ∧ (ISRfxn num u s).Tempbuf = s.Tempbuf ∧
    (ISRfxn num u s).SAbuf = s.SAbuf := by
  have a := signalAverager_idle ((num : ℚ) / 2048) (detected num u s) hd
  have g := detected_frame num u s
  have hf : (detected num u s).flag = s.flag := (detected_flag num u s).resolve_left hd
  rw [ISRfxn_eq]
  exact ⟨a.1.trans hf, a.2.1.trans g.1, a.2.2.1.trans g.2.1, a.2.2.2.1.trans g.2.2.1,
    a.2.2.2.2.1.trans g.2.2.2.1⟩

/-- An inside-beat tick that does not end the epoch. -/
theorem ISRfxn_beat (num : Int) (u : Indeterminate) (s : ISR)
    (hd : (detected num u s).flag = 1) (hc : ¬ s.counter_SA - 1 ≤ 0) :
    (ISRfxn num u s).flag = 1 ∧ (ISRfxn num u s).counter_SA = s.counter_SA - 1 ∧
    (ISRfxn num u s).c_epochs = s.c_epochs ∧
    (ISRfxn num u s).Tempbuf = tempAfterWrites num s ∧
    (ISRfxn num u s).SAbuf = s.SAbuf := by
  have g := detected_frame num u s
  have a := signalAverager_beat ((num : ℚ) / 2048) (detected num u s) hd (by rw [g.1]; exact hc)
  rw [g.1, g.2.1, g.2.2.1, g.2.2.2.1, g.2.2.2.2.1] at a
  rw [ISRfxn_eq]
  exact ⟨a.1, a.2.1, a.2.2.1, a.2.2.2.1, a.2.2.2.2.1⟩

/-- An inside-beat tick that ends the epoch without promotion. -/
theorem ISRfxn_end (num : Int) (u : Indeterminate) (s : ISR)
    (hd : (detected num u s).flag = 1) (hc : s.counter_SA - 1 ≤ 0) (he : s.c_epochs < 31) :
    (ISRfxn num u s).flag = 0 ∧ (ISRfxn num u s).counter_SA = 144 ∧
    (ISRfxn num u s).c_epochs = s.c_epochs + 1 ∧
    (ISRfxn num u s).Tempbuf = tempAfterWrites num s ∧
    (ISRfxn num u s).SAbuf = s.SAbuf := by
  have g := detected_frame num u s
  have a := signalAverager_end ((num : ℚ) / 2048) (detected num u s) hd (by rw [g.1]; exact hc)
    (by rw [g.2.1]; unfold max_epochs; omega)
  rw [g.1, g.2.1, g.2.2.1, g.2.2.2.1, g.2.2.2.2.1] at a
  rw [ISRfxn_eq]
  exact ⟨a.1, a.2.1, a.2.2.1, a.2.2.2.1, a.2.2.2.2.1⟩

/-- An inside-beat tick that ends the epoch and promotes the accumulator. -/
theorem ISRfxn_promote (num : Int) (u : Indeterminate) (s : ISR)
    (hd : (detected num u s).flag = 1) (hc : s.counter_SA - 1 ≤ 0) (he : 31 ≤ s.c_epochs) :
    (ISRfxn num u s).flag = 0 ∧ (ISRfxn num u s).counter_SA = 144 ∧
    (ISRfxn num u s).c_epochs = 0 ∧
    (ISRfxn num u s).Tempbuf = forUp (fun i T => T.wr i 0) 0 200 (tempAfterWrites num s) ∧
    (ISRfxn num u s).SAbuf =
      forDown 0 (fun i A => A.wr i ((tempAfterWrites num s).rd i)) 199 s.SAbuf := by
  have g := detected_frame num u s
  have a := signalAverager_promote ((num : ℚ) / 2048) (detected num u s) hd
    (by rw [g.1]; exact hc) (by rw [g.2.1]; unfold max_epochs; omega)
  rw [g.1, g.2.2.1, g.2.2.2.1, g.2.2.2.2.1] at a
  rw [ISRfxn_eq]
  exact ⟨a.1, a.2.1, a.2.2.1, a.2.2.2.1, a.2.2.2.2.1⟩

/-- Entry 0 of the accumulator is not among the entries written by lines 313-317 when the
countdown is in 1..144. -/
theorem tempAfterWrites_rd_zero (num : Int) (s : ISR) (h1 : 1 ≤ s.counter_SA)
    (h2 : s.counter_SA ≤ 144) : (tempAfterWrites num s).rd 0 = s.Tempbuf.rd 0 := by
  obtain ⟨c, hc⟩ := Int.eq_ofNat_of_zero_le (by omega : 0 ≤ s.counter_SA)
  unfold tempAfterWrites
  rw [hc, tempWrites_rd _ c (by omega), if_neg (by omega), if_neg (by omega), add_zero]

theorem AvgInv_init : AvgInv ISR.init :=
  ⟨Or.inl ⟨rfl, rfl⟩, by decide, by decide, Arr.rd_zero 200 0, Arr.rd_zero 200 0⟩

theorem AvgInv_step (num : Int) (u : Indeterminate) (s : ISR) (h : AvgInv s) :
    AvgInv (ISRfxn num u s) := by
  obtain ⟨hfc, he0, he1, hT, hS⟩ := h
  have hrange : 1 ≤ s.counter_SA ∧ s.counter_SA ≤ 144 := by
    rcases hfc with h | h <;> omega
  by_cases hd : (detected num u s).flag = 1
  · by_cases hc : s.counter_SA - 1 ≤ 0
    · by_cases he : s.c_epochs < 31
      · have a := ISRfxn_end num u s hd hc he
        refine ⟨Or.inl ⟨a.1, a.2.1⟩, by rw [a.2.2.1]; omega, by rw [a.2.2.1]; omega, ?_, ?_⟩
        · rw [a.2.2.2.1, tempAfterWrites_rd_zero num s hrange.1 hrange.2, hT]
        · rw [a.2.2.2.2, hS]
      · have a := ISRfxn_promote num u s hd hc (by omega)
        refine ⟨Or.inl ⟨a.1, a.2.1⟩, by rw [a.2.2.1], by rw [a.2.2.1]; decide, ?_, ?_⟩
        · rw [a.2.2.2.1, zeroLoop_rd]
        · rw [a.2.2.2.2, copyLoop_rd, if_neg (by omega), hS]
    · have a := ISRfxn_beat num u s hd hc
      refine ⟨Or.inr ⟨a.1, by rw [a.2.1]; omega, by rw [a.2.1]; omega⟩, by rw [a.2.2.1]; exact he0,
        by rw [a.2.2.1]; exact he1, ?_, ?_⟩
      · rw [a.2.2.2.1, tempAfterWrites_rd_zero num s hrange.1 hrange.2, hT]
      · rw [a.2.2.2.2, hS]
  · have a := ISRfxn_idle num u s hd
    have hf : s.flag = 0 := by
      rcases hfc with h | h
      · exact h.1
      · exact absurd ((detected_flag num u s).elim id (fun e => e.trans h.1)) hd
    refine ⟨Or.inl ⟨a.1.trans hf, ?_⟩, by rw [a.2.2.1]; exact he0, by rw [a.2.2.1]; exact he1,
      by rw [a.2.2.2.1]; exact hT, by rw [a.2.2.2.2]; exact hS⟩
    rw [a.2.1]
    rcases hfc with h | h
    · exact h.2
    · rw [h.1] at hf; exact absurd hf (by decide)

/-- The averager invariant holds before every tick of every run. -/
theorem AvgInv_run (inp : Nat → Int × Indeterminate) (t : Nat) : AvgInv (ISRrun inp t) := by
  induction t with
  | zero => exact AvgInv_init
  | succ t ih => exact AvgInv_step _ _ _ ih

theorem promotions_succ (inp : Nat → Int × Indeterminate) (t : Nat) :
    promotions inp (t + 1) = promotions inp t + (if promotionAt inp t then 1 else 0) := rfl

theorem promotion_effect (inp : Nat → Int × Indeterminate) (t : Nat)
    (hc : completesEpoch (inp t).1 (inp t).2 (ISRrun inp t))
    (he : (ISRrun inp t).c_epochs = 31) :
    (ISRrun inp (t + 1)).SAbuf = tempAfterWrites (inp t).1 (ISRrun inp t) ∧
    (ISRrun inp (t + 1)).Tempbuf = Arr.zero 200 ∧
    (ISRrun inp (t + 1)).c_epochs = 0 := by
  have inv := AvgInv_run inp t
  have hrange : 1 ≤ (ISRrun inp t).counter_SA ∧ (ISRrun inp t).counter_SA ≤ 144 := by
    rcases inv.1 with h | h <;> omega
  have a := ISRfxn_promote (inp t).1 (inp t).2 (ISRrun inp t) hc.1 hc.2 (by omega)
  refine ⟨?_, ?_, a.2.2.1⟩
  · apply Arr.ext_rd
    intro j _
    show (ISRfxn (inp t).1 (inp t).2 (ISRrun inp t)).SAbuf.rd j = _
    rw [a.2.2.2.2, copyLoop_rd]
    by_cases h0 : 0 < j ∧ j ≤ 199
    · rw [if_pos h0]
    · rw [if_neg h0]
      have : j = 0 := by omega
      subst this
      rw [tempAfterWrites_rd_zero _ _ hrange.1 hrange.2, inv.2.2.2.1, inv.2.2.2.2]
  · apply Arr.ext_rd
    intro j _
    show (ISRfxn (inp t).1 (inp t).2 (ISRrun inp t)).Tempbuf.rd j = _
    rw [a.2.2.2.1, zeroLoop_rd, Arr.rd_zero]

/-- The stable buffer changes on promotion ticks only. -/
theorem SAbuf_unchanged (inp : Nat → Int × Indeterminate) (t : Nat)
    (h : ¬ promotionAt inp t) : (ISRrun inp (t + 1)).SAbuf = (ISRrun inp t).SAbuf := by
  have inv := AvgInv_run inp t
  show (ISRfxn (inp t).1 (inp t).2 (ISRrun inp t)).SAbuf = _
  by_cases hd : (detected (inp t).1 (inp t).2 (ISRrun inp t)).flag = 1
  · by_cases hc : (ISRrun inp t).counter_SA - 1 ≤ 0
    · have he : (ISRrun inp t).c_epochs < 31 := by
        have : (ISRrun inp t).c_epochs ≠ 31 := fun e => h ⟨⟨hd, hc⟩, e⟩
        have := inv.2.2.1
        omega
      exact (ISRfxn_end _ _ _ hd hc he).2.2.2.2
    · exact (ISRfxn_beat _ _ _ hd hc).2.2.2.2
  · exact (ISRfxn_idle _ _ _ hd).2.2.2.2

/-- The epoch counter counts the epochs completed since the last promotion. -/
theorem epoch_count (inp : Nat → Int × Indeterminate) (t : Nat) :
    (epochsCompleted inp t : Int) = 32 * (promotions inp t : Int) + (ISRrun inp t).c_epochs := by
  induction t with
  | zero => rfl
  | succ t ih =>
    have inv := AvgInv_run inp t
    simp only [epochsCompleted, promotions]
    show _ = _ + (ISRfxn (inp t).1 (inp t).2 (ISRrun inp t)).c_epochs
    by_cases hce : completesEpoch (inp t).1 (inp t).2 (ISRrun inp t)
    · by_cases he : (ISRrun inp t).c_epochs = 31
      · rw [if_pos hce, if_pos ⟨hce, he⟩,
          (ISRfxn_promote _ _ _ hce.1 hce.2 (by omega)).2.2.1]
        push_cast
        omega
      · have hlt : (ISRrun inp t).c_epochs < 31 := by have := inv.2.2.1; omega
        rw [if_pos hce, if_neg (fun h : promotionAt inp t => he h.2), (ISRfxn_end _ _ _ hce.1 hce.2 hlt).2.2.1]
        push_cast
        omega
    · rw [if_neg hce, if_neg (fun h : promotionAt inp t => hce h.1)]
      have hsame : (ISRfxn (inp t).1 (inp t).2 (ISRrun inp t)).c_epochs =
          (ISRrun inp t).c_epochs := by
        by_cases hd : (detected (inp t).1 (inp t).2 (ISRrun inp t)).flag = 1
        · exact (ISRfxn_beat _ _ _ hd (fun hc => hce ⟨hd, hc⟩)).2.2.1
        · exact (ISRfxn_idle _ _ _ hd).2.2.1
      rw [hsame]
      push_cast
      omega

/-- C9. Epoch promotion copies the whole accumulator: in every run from the initial state,
on a tick that completes a beat epoch with the epoch counter at 31 (the 32nd epoch since the
last promotion), the stable buffer afterwards equals, at each of the indices 0..199, the temp
accumulator as it stood after that tick's own additions and before its reset; the temp
accumulator is then 0 at each of the indices 0..199; and the epoch counter is 0. -/
theorem epoch_promotion_copies_accumulator (inp : Nat → Int × Indeterminate) (t : Nat)
    (hc : completesEpoch (inp t).1 (inp t).2 (ISRrun inp t))
    (he : (ISRrun inp t).c_epochs = 31) :
    (∀ j, j < 200 →
      (ISRrun inp (t + 1)).SAbuf.rd j = (tempAfterWrites (inp t).1 (ISRrun inp t)).rd j) ∧
    (∀ j, j < 200 → (ISRrun inp (t + 1)).Tempbuf.rd j = 0) ∧
    (ISRrun inp (t + 1)).c_epochs = 0 := by
  have p := promotion_effect inp t hc he
  refine ⟨fun j _ => by rw [p.1], fun j _ => by rw [p.2.1, Arr.rd_zero], p.2.2⟩

/-- C10. The stable template updates once per 32 beats and never more often: in every run
from the initial state, a tick leaves `SAbuf` unchanged unless it completes a beat epoch with
the epoch counter at 31; the number of epochs completed so far is 32 times the number of
such ticks so far plus the epoch counter (so exactly 32 epochs complete from one such tick to
the next); and the epoch counter is in 0..31 before and after every tick. -/
theorem stable_template_once_per_32_beats (inp : Nat → Int × Indeterminate) (t : Nat) :
    (¬ promotionAt inp t → (ISRrun inp (t + 1)).SAbuf = (ISRrun inp t).SAbuf) ∧
    (epochsCompleted inp t : Int) = 32 * (promotions inp t : Int) + (ISRrun inp t).c_epochs ∧
    (∀ t2, t < t2 → promotionAt inp t → promotionAt inp t2 →
      (∀ i, t < i → i < t2 → ¬ promotionAt inp i) →
      epochsCompleted inp (t2 + 1) = epochsCompleted inp (t + 1) + 32) ∧
    0 ≤ (ISRrun inp t).c_epochs ∧ (ISRrun inp t).c_epochs ≤ 31 := by
  have inv := AvgInv_run inp t
  refine ⟨SAbuf_unchanged inp t, epoch_count inp t, ?_, inv.2.1, inv.2.2.1⟩
  intro t2 hlt hp1 hp2 hno
  have hconst : ∀ k, t + 1 + k ≤ t2 → promotions inp (t + 1 + k) = promotions inp (t + 1) := by
    intro k
    induction k with
    | zero => intro _; rfl
    | succ k ih =>
      intro hk
      have hn : ¬ promotionAt inp (t + 1 + k) := hno _ (by omega) (by omega)
      rw [show t + 1 + (k + 1) = (t + 1 + k) + 1 from rfl, promotions_succ, if_neg hn,
        ih (by omega), add_zero]
  have h2 := hconst (t2 - (t + 1)) (by omega)
  have e : t + 1 + (t2 - (t + 1)) = t2 := by omega
  rw [e] at h2
  have c1 := epoch_count inp (t + 1)
  have c2 := epoch_count inp (t2 + 1)
  have z1 : (ISRrun inp (t + 1)).c_epochs = 0 := (promotion_effect inp t hp1.1 hp1.2).2.2
  have z2 : (ISRrun inp (t2 + 1)).c_epochs = 0 := (promotion_effect inp t2 hp2.1 hp2.2).2.2
  have p2 : promotions inp (t2 + 1) = promotions inp t2 + 1 := by
    rw [promotions_succ, if_pos hp2]
  rw [z1] at c1
  rw [z2, p2, h2] at c2
  push_cast at c1 c2
  omega

/-! ## One beat epoch -/

/-- Inside a beat the detector leaves the flag raised. -/
theorem detected_flag_of_flag (num : Int) (u : Indeterminate) (s : ISR) (h : s.flag = 1) :
    (detected num u s).flag = 1 :=
  (detected_flag num u s).elim id (fun e => e.trans h)

/-- The ticks of a beat epoch whose onset is tick `t0`: at its tick number `j` (from 0) the
countdown stands at `144 - j` and the inside-beat branch runs. -/
theorem epoch_ticks (inp : Nat → Int × Indeterminate) (t0 : Nat)
    (h0 : (ISRrun inp t0).flag = 0)
    (h1 : (detected (inp t0).1 (inp t0).2 (ISRrun inp t0)).flag = 1) (j : Nat) (hj : j < 144) :
    (ISRrun inp (t0 + j)).counter_SA = 144 - (j : Int) ∧
    (detected (inp (t0 + j)).1 (inp (t0 + j)).2 (ISRrun inp (t0 + j))).flag = 1 ∧
    (ISRrun inp (t0 + j)).c_epochs = (ISRrun inp t0).c_epochs := by
  induction j with
  | zero =>
    have inv := AvgInv_run inp t0
    refine ⟨?_, h1, rfl⟩
    rcases inv.1 with h | h
    · simpa using h.2
    · rw [h.1] at h0; exact absurd h0 (by decide)
  | succ j ih =>
    have p := ih (by omega)
    have a := ISRfxn_beat _ _ _ p.2.1 (by rw [p.1]; omega)
    have e : ISRrun inp (t0 + (j + 1)) =
        ISRfxn (inp (t0 + j)).1 (inp (t0 + j)).2 (ISRrun inp (t0 + j)) := rfl
    rw [e]
    refine ⟨?_, ?_, a.2.2.1.trans p.2.2⟩
    · rw [a.2.1, p.1]; push_cast; ring
    · rw [← e]; exact detected_flag_of_flag _ _ _ (by rw [e]; exact a.1)

/-- The flag stays raised through the first 143 ticks of an epoch, each of which leaves in
`Tempbuf` the result of its additions. -/
theorem epoch_inside (inp : Nat → Int × Indeterminate) (t0 : Nat)
    (h0 : (ISRrun inp t0).flag = 0)
    (h1 : (detected (inp t0).1 (inp t0).2 (ISRrun inp t0)).flag = 1) (j : Nat) (hj : j < 143) :
    (ISRrun inp (t0 + j + 1)).flag = 1 ∧
    (ISRrun inp (t0 + j + 1)).Tempbuf =
      tempAfterWrites (inp (t0 + j)).1 (ISRrun inp (t0 + j)) := by
  have p := epoch_ticks inp t0 h0 h1 j (by omega)
  have a := ISRfxn_beat _ _ _ p.2.1 (by rw [p.1]; omega)
  exact ⟨a.1, a.2.2.2.1⟩

/-- The 144th tick of an epoch lowers the flag and resets the countdown. -/
theorem epoch_last (inp : Nat → Int × Indeterminate) (t0 : Nat)
    (h0 : (ISRrun inp t0).flag = 0)
    (h1 : (detected (inp t0).1 (inp t0).2 (ISRrun inp t0)).flag = 1) :
    (ISRrun inp (t0 + 144)).flag = 0 ∧ (ISRrun inp (t0 + 144)).counter_SA = 144 ∧
    completesEpoch (inp (t0 + 143)).1 (inp (t0 + 143)).2 (ISRrun inp (t0 + 143)) := by
  have p := epoch_ticks inp t0 h0 h1 143 (by omega)
  have inv := AvgInv_run inp (t0 + 143)
  have hc : (ISRrun inp (t0 + 143)).counter_SA - 1 ≤ 0 := by rw [p.1]; decide
  have e : ISRrun inp (t0 + 144) =
      ISRfxn (inp (t0 + 143)).1 (inp (t0 + 143)).2 (ISRrun inp (t0 + 143)) := rfl
  rw [e]
  by_cases he : (ISRrun inp (t0 + 143)).c_epochs < 31
  · have a := ISRfxn_end _ _ _ p.2.1 hc he
    exact ⟨a.1, a.2.1, p.2.1, hc⟩
  · have a := ISRfxn_promote _ _ _ p.2.1 hc (by omega)
    exact ⟨a.1, a.2.1, p.2.1, hc⟩

/-- Among the entries 0..144, a tick's additions change the entry under the countdown only,
by the raw sample. -/
theorem tempAfterWrites_low (num : Int) (s : ISR) (c : Nat) (hc : s.counter_SA = c)
    (hc2 : c ≤ 144) (p : Nat) (hp : p ≤ 144) :
    (tempAfterWrites num s).rd p =
      s.Tempbuf.rd p + (if p = c then (num : ℚ) / 2048 else 0) := by
  unfold tempAfterWrites
  rw [hc, tempWrites_rd _ c hc2, if_neg (by omega)]

theorem fullScale_onset : (detected 2047 Indeterminate.zero ISR.init).flag = 1 := by decide!

/-- What the countdown writes have accumulated by tick number `j` of an epoch: the
positions above `144 - j` have each received the raw sample of their own tick. -/
theorem epoch_accumulated (inp : Nat → Int × Indeterminate) (t0 : Nat)
    (h0 : (ISRrun inp t0).flag = 0)
    (h1 : (detected (inp t0).1 (inp t0).2 (ISRrun inp t0)).flag = 1) (j : Nat) (hj : j ≤ 143)
    (p : Nat) (hp : p ≤ 144) :
    (ISRrun inp (t0 + j)).Tempbuf.rd p = (ISRrun inp t0).Tempbuf.rd p +
      (if 144 - j < p then ((inp (t0 + (144 - p))).1 : ℚ) / 2048 else 0) := by
  induction j with
  | zero => rw [if_neg (by omega)]; simp
  | succ j ih =>
    have a := epoch_inside inp t0 h0 h1 j (by omega)
    have q := epoch_ticks inp t0 h0 h1 j (by omega)
    have hc : (ISRrun inp (t0 + j)).counter_SA = ((144 - j : Nat) : Int) := by
      rw [q.1]; omega
    rw [show t0 + (j + 1) = t0 + j + 1 from rfl, a.2,
      tempAfterWrites_low _ _ (144 - j) hc (by omega) p hp, ih (by omega)]
    by_cases e : p = 144 - j
    · rw [if_pos e, if_neg (by omega), if_pos (by omega)]
      have : t0 + (144 - p) = t0 + j := by omega
      rw [this]; ring
    · rw [if_neg e]
      by_cases e2 : 144 - j < p
      · rw [if_pos e2, if_pos (by omega)]; ring
      · rw [if_neg e2, if_neg (by omega)]; ring

/-- C8, amended. During every beat epoch (onset at tick `t0`: the flag is 0 before the tick
and raised by its detector) the inside-beat branch runs on exactly the 144 ticks
`t0 .. t0+143`; on the tick number `j` the raw sample is added at position `144 - j`, and at
no other position of 0..144, so the positions are 144, 143, ..., 1 in that order; the flag is
raised after each of the first 143 ticks and lowered, with the countdown back at 144, after
the last; position 0 of the accumulator is never written and holds 0 throughout every run. -/
theorem write_countdown_144_down_to_1 (inp : Nat → Int × Indeterminate) (t0 : Nat)
    (h0 : (ISRrun inp t0).flag = 0)
    (h1 : (detected (inp t0).1 (inp t0).2 (ISRrun inp t0)).flag = 1) :
    (∀ j, j < 144 →
      writePos (inp (t0 + j)).1 (inp (t0 + j)).2 (ISRrun inp (t0 + j)) =
        some (144 - (j : Int)) ∧
      ∀ p, p ≤ 144 →
        (tempAfterWrites (inp (t0 + j)).1 (ISRrun inp (t0 + j))).rd p =
          (ISRrun inp (t0 + j)).Tempbuf.rd p +
            (if p = 144 - j then ((inp (t0 + j)).1 : ℚ) / 2048 else 0)) ∧
    (∀ j, j < 143 → (ISRrun inp (t0 + j + 1)).flag = 1 ∧
      (ISRrun inp (t0 + j + 1)).Tempbuf =
        tempAfterWrites (inp (t0 + j)).1 (ISRrun inp (t0 + j))) ∧
    (ISRrun inp (t0 + 144)).flag = 0 ∧ (ISRrun inp (t0 + 144)).counter_SA = 144 ∧
    (∀ t, (ISRrun inp t).Tempbuf.rd 0 = 0) := by
  refine ⟨?_, epoch_inside inp t0 h0 h1, (epoch_last inp t0 h0 h1).1,
    (epoch_last inp t0 h0 h1).2.1, fun t => (AvgInv_run inp t).2.2.2.1⟩
  intro j hj
  have p := epoch_ticks inp t0 h0 h1 j hj
  constructor
  · unfold writePos
    rw [if_pos p.2.1, p.1]
  · intro q hq
    have hc : (ISRrun inp (t0 + j)).counter_SA = ((144 - j : Nat) : Int) := by
      rw [p.1]; omega
    exact tempAfterWrites_low _ _ (144 - j) hc (by omega) q hq

/-- Witness for C8 (amended): the epoch that starts on the first tick of the full-scale run. -/
theorem write_countdown_144_down_to_1_witness :
    (∀ j, j < 144 →
      writePos (fullScale (0 + j)).1 (fullScale (0 + j)).2 (ISRrun fullScale (0 + j)) =
        some (144 - (j : Int)) ∧
      ∀ p, p ≤ 144 →
        (tempAfterWrites (fullScale (0 + j)).1 (ISRrun fullScale (0 + j))).rd p =
          (ISRrun fullScale (0 + j)).Tempbuf.rd p +
            (if p = 144 - j then ((fullScale (0 + j)).1 : ℚ) / 2048 else 0)) ∧
    (∀ j, j < 143 → (ISRrun fullScale (0 + j + 1)).flag = 1 ∧
      (ISRrun fullScale (0 + j + 1)).Tempbuf =
        tempAfterWrites (fullScale (0 + j)).1 (ISRrun fullScale (0 + j))) ∧
    (ISRrun fullScale (0 + 144)).flag = 0 ∧ (ISRrun fullScale (0 + 144)).counter_SA = 144 ∧
    (∀ t, (ISRrun fullScale t).Tempbuf.rd 0 = 0) :=
  write_countdown_144_down_to_1 fullScale 0 rfl fullScale_onset

/-- C8 as stated fails: in the full-scale run the flag is raised by tick 0 and lowered by the
averager at the end of tick 143; over this whole epoch the write position is `144 - j` at
tick `j`, so no tick writes position 0, and entry 0 of the accumulator is still 0 afterwards
although every raw sample was 2047/2048. -/
theorem write_countdown_skips_position_0 :
    (ISRrun fullScale 0).flag = 0 ∧ (ISRrun fullScale 1).flag = 1 ∧
    (ISRrun fullScale 144).flag = 0 ∧
    (∀ j, j < 144 → writePos (fullScale j).1 (fullScale j).2 (ISRrun fullScale j) =
      some (144 - (j : Int))) ∧
    ¬ (∃ j, j < 144 ∧ writePos (fullScale j).1 (fullScale j).2 (ISRrun fullScale j) = some 0) ∧
    (ISRrun fullScale 144).Tempbuf.rd 0 = 0 ∧ (ISRrun fullScale 144).Tempbuf.rd 1 = 2047 / 2048 := by
  have hw : ∀ j, j < 144 → writePos (fullScale j).1 (fullScale j).2 (ISRrun fullScale j) =
      some (144 - (j : Int)) := by
    intro j hj
    have p := epoch_ticks fullScale 0 rfl fullScale_onset j hj
    rw [Nat.zero_add] at p
    unfold writePos
    rw [if_pos p.2.1, p.1]
  refine ⟨rfl, ?_, ?_, hw, ?_, (AvgInv_run fullScale 144).2.2.2.1, ?_⟩
  · exact (epoch_inside fullScale 0 rfl fullScale_onset 0 (by decide)).1
  · exact (epoch_last fullScale 0 rfl fullScale_onset).1
  · rintro ⟨j, hj, hz⟩
    rw [hw j hj] at hz
    have := Option.some.inj hz
    omega
  · have p := epoch_ticks fullScale 0 rfl fullScale_onset 143 (by decide)
    have acc := epoch_accumulated fullScale 0 rfl fullScale_onset 143 (le_refl _) 1 (by decide)
    rw [if_neg (by decide)] at acc
    have a := ISRfxn_end _ _ _ p.2.1 (by rw [p.1]; decide) (by rw [p.2.2]; decide)
    have hc : (ISRrun fullScale (0 + 143)).counter_SA = ((1 : Nat) : Int) := by rw [p.1]; rfl
    show (ISRfxn (fullScale (0 + 143)).1 (fullScale (0 + 143)).2
      (ISRrun fullScale (0 + 143))).Tempbuf.rd 1 = _
    rw [a.2.2.2.1, tempAfterWrites_low _ _ 1 hc (by decide) 1 (by decide), acc, if_pos rfl]
    show (Arr.zero 200).rd 1 + 0 + ((2047 : Int) : ℚ) / 2048 = _
    rw [Arr.rd_zero]
    norm_num

theorem shifted_rd {n : Nat} (a : Arr n) (j : Nat) :
    (shifted a).rd j = if 1 ≤ j ∧ j < n then a.rd (j - 1) else a.rd j := by
  obtain ⟨l, hl⟩ := a
  subst hl
  simp only [shifted, Arr.rd, List.getD_eq_getElem?_getD, List.getElem?_take]
  by_cases h : j < l.length
  · rw [if_pos h]
    cases j with
    | zero => cases l <;> simp
    | succ j => simp [h]
  · rw [if_neg h, if_neg (by omega), List.getElem?_eq_none (by omega)]

theorem shiftBuf_eq_shifted {n : Nat} (a : Arr n) : shiftBuf n a = shifted a := by
  apply Arr.ext_rd
  intro j _
  rw [shiftBuf_rd n (le_refl n), shifted_rd]

/-! ## Closed forms of the filter stages -/

theorem lpf_numerator (X : Arr 13) (o : ℚ) :
    forUp (fun i acc => acc + (1/20) * X.rd i * FiltCoeff_LPF_a.rd i) 0 13 o =
      o + (1/20) * (X.rd 0 - 2 * X.rd 6 + X.rd 12) := by
  simp only [forUp, FiltCoeff_LPF_a, Arr.rd, List.getD_cons_zero, List.getD_cons_succ]
  ring

theorem lpf_denominator (Y : Arr 3) (o : ℚ) :
    forUp (fun i acc => acc + -1 * Y.rd i * FiltCoeff_LPF_b.rd i) 1 2 o =
      o + 2 * Y.rd 1 - Y.rd 2 := by
  simp only [forUp, FiltCoeff_LPF_b, Arr.rd, List.getD_cons_zero, List.getD_cons_succ]
  ring

theorem hpf_numerator (X : Arr 33) (o : ℚ) :
    forUp (fun i acc => acc + Gain_HPF * X.rd i * FiltCoeff_HPF_a.rd i) 0 33 o =
      o + Gain_HPF * (-(1/32) * X.rd 0 + X.rd 16 - X.rd 17 + (1/32) * X.rd 32) := by
  simp only [forUp, FiltCoeff_HPF_a, Arr.rd, List.getD_cons_zero, List.getD_cons_succ]
  ring

theorem hpf_denominator (Y : Arr 2) (o : ℚ) :
    forUp (fun i acc => acc + -1 * Y.rd i * FiltCoeff_HPF_b.rd i) 1 1 o = o + Y.rd 1 := by
  simp only [forUp, FiltCoeff_HPF_b, Arr.rd, List.getD_cons_zero, List.getD_cons_succ]
  ring

theorem deriv_sum (X : Arr 5) (o : ℚ) :
    forUp (fun i acc => acc + Gain_deriv * X.rd i * FiltCoeff_deriv.rd i) 0 5 o =
      o + (1/4) * (2 * X.rd 0 + X.rd 1 - X.rd 3 - 2 * X.rd 4) := by
  simp only [forUp, FiltCoeff_deriv, Gain_deriv, Arr.rd, List.getD_cons_zero,
    List.getD_cons_succ]
  ring

/-- The integrator loop adds the entries of the window to the accumulator, first to last. -/
theorem mwi_sum {n : Nat} (Y : Arr n) (o : ℚ) :
    forUp (fun i acc => acc + Y.rd i) 0 n o = Y.1.foldl (fun acc y => acc + y) o := by
  obtain ⟨l, hl⟩ := Y
  subst hl
  have key : ∀ (l1 l2 : List ℚ) (o : ℚ),
      forUp (fun i acc => acc + (l1 ++ l2).getD i 0) l1.length l2.length o =
        l2.foldl (fun acc y => acc + y) o := by
    intro l1 l2
    induction l2 generalizing l1 with
    | nil => intro o; rfl
    | cons y l2 ih =>
      intro o
      simp only [List.length_cons, forUp, List.foldl_cons]
      have e : (l1 ++ y :: l2).getD l1.length 0 = y := by
        rw [List.getD_eq_getElem?_getD, List.getElem?_append_right (le_refl _)]
        simp
      rw [e]
      have := ih (l1 ++ [y]) (o + y)
      simp only [List.append_assoc, List.singleton_append, List.length_append,
        List.length_singleton] at this
      exact this
  exact key [] l o

theorem wr0_rd0 {n : Nat} (a : Arr (n + 1)) (v : ℚ) : (a.wr 0 v).rd 0 = v := by
  rw [Arr.rd_wr, if_pos ⟨rfl, Nat.succ_pos n⟩]

theorem wr0_rd_succ {n : Nat} (a : Arr n) (v : ℚ) (j : Nat) :
    (a.wr 0 v).rd (j + 1) = a.rd (j + 1) := by
  rw [Arr.rd_wr, if_neg (fun h => absurd h.1 (Nat.succ_ne_zero j).symm)]

theorem shifted_rd0 {n : Nat} (a : Arr n) : (shifted a).rd 0 = a.rd 0 := by
  rw [shifted_rd, if_neg (fun h => absurd h.1 (by decide))]

theorem lowPass_closed (f o : ℚ) (s : ISR) :
    lowPass f o s = { s with
      LPF_Xbuf := shifted (s.LPF_Xbuf.wr 0 (f - 1/2))
      LPF_Ybuf := shifted (s.LPF_Ybuf.wr 0 (lpfValue o (f - 1/2) s.LPF_Xbuf s.LPF_Ybuf)) } := by
  unfold lowPass lpfValue
  simp only [lpf_numerator, lpf_denominator, shiftBuf_eq_shifted, wr0_rd0, wr0_rd_succ]

theorem highPass_closed (o : ℚ) (s : ISR) :
    highPass o s = { s with
      HPF_Xbuf := shifted (s.HPF_Xbuf.wr 0 (s.LPF_Ybuf.rd 0))
      HPF_Ybuf := shifted (s.HPF_Ybuf.wr 0
        (hpfValue o (s.LPF_Ybuf.rd 0) s.HPF_Xbuf s.HPF_Ybuf)) } := by
  unfold highPass hpfValue
  simp only [hpf_numerator, hpf_denominator, shiftBuf_eq_shifted, wr0_rd0, wr0_rd_succ]

theorem derivative_closed (o : ℚ) (s : ISR) :
    derivative o s =
      ({ s with deriv_Xbuf := shifted (s.deriv_Xbuf.wr 0 (s.HPF_Ybuf.rd 0)) },
        derivValue o (s.HPF_Ybuf.rd 0) s.deriv_Xbuf) := by
  unfold derivative derivValue
  simp only [deriv_sum, shiftBuf_eq_shifted, wr0_rd0, wr0_rd_succ]

theorem movingWindow_closed (d o : ℚ) (s : ISR) :
    movingWindow d o s =
      ({ s with MWI_Ybuf := shifted (s.MWI_Ybuf.wr 0 (d * d)),
                Aout2 := mwiValue o (d * d) s.MWI_Ybuf },
        mwiValue o (d * d) s.MWI_Ybuf) := by
  unfold movingWindow mwiValue MWI_Size
  simp only [mwi_sum, shiftBuf_eq_shifted]

theorem filterStages_closed (num : Int) (u : Indeterminate) (s : ISR) :
    (filterStages num u s).1.LPF_Xbuf = shifted (s.LPF_Xbuf.wr 0 ((num : ℚ) / 2048 - 1/2)) ∧
    (filterStages num u s).1.LPF_Ybuf = shifted (s.LPF_Ybuf.wr 0 (coreLpf num u (coreOf s))) ∧
    (filterStages num u s).1.HPF_Xbuf = shifted (s.HPF_Xbuf.wr 0 (coreLpf num u (coreOf s))) ∧
    (filterStages num u s).1.HPF_Ybuf = shifted (s.HPF_Ybuf.wr 0 (coreHpf num u (coreOf s))) ∧
    (filterStages num u s).1.deriv_Xbuf =
      shifted (s.deriv_Xbuf.wr 0 (coreHpf num u (coreOf s))) ∧
    (filterStages num u s).1.MWI_Ybuf =
      shifted (s.MWI_Ybuf.wr 0 (coreDeriv num u (coreOf s) * coreDeriv num u (coreOf s))) ∧
    (filterStages num u s).2 = coreMwi num u (coreOf s) ∧
    (derivStages num u s).2 = coreDeriv num u (coreOf s) := by
  unfold filterStages derivStages coreMwi coreDeriv coreHpf coreLpf coreOf
  simp only [lowPass_closed, highPass_closed, derivative_closed, movingWindow_closed,
    shifted_rd0, wr0_rd0, and_self]

theorem pdTrack_filters (m : ℚ) (s : ISR) : SameFilters (pdTrack m s) s := by
  unfold pdTrack SameFilters
  simp only [x5_wr_rd0, x5_wr_rd2]
  split <;> simp

theorem pdOnset_filters (s : ISR) : SameFilters (pdOnset s) s := by
  unfold pdOnset SameFilters
  split <;> simp

theorem pdFinalize_filters (s : ISR) : SameFilters (pdFinalize s) s := by
  unfold pdFinalize SameFilters
  split
  · simp only []
    split <;> simp
  · simp

theorem SameFilters.trans {a b c : ISR} (h1 : SameFilters a b) (h2 : SameFilters b c) :
    SameFilters a c :=
  ⟨h1.1.trans h2.1, h1.2.1.trans h2.2.1, h1.2.2.1.trans h2.2.2.1,
    h1.2.2.2.1.trans h2.2.2.2.1, h1.2.2.2.2.1.trans h2.2.2.2.2.1,
    h1.2.2.2.2.2.trans h2.2.2.2.2.2⟩

theorem peakDetection_filters (m : ℚ) (s : ISR) : SameFilters (peakDetection m s) s := by
  have h := ((pdFinalize_filters _).trans (pdOnset_filters _)).trans (pdTrack_filters m s)
  unfold peakDetection
  exact h

set_option maxRecDepth 8000 in
theorem signalAverager_filters (f : ℚ) (s : ISR) : SameFilters (signalAverager f s) s := by
  unfold signalAverager epochEnd SameFilters
  simp only []
  split_ifs <;> simp

/-- The detector and the averager leave the filter buffers alone. -/
theorem detAvg_filter_frame (m f : ℚ) (s : ISR) : SameFilters (detAvg m f s) s := by
  unfold detAvg
  exact (signalAverager_filters f _).trans (peakDetection_filters m s)

theorem detAvg_x5_closed (m f : ℚ) (s : ISR) : (detAvg m f s).x5 = shifted (s.x5.wr 0 m) := by
  unfold detAvg
  rw [(signalAverager_det f _).1]
  unfold peakDetection
  simp only []
  rw [(pdFinalize_frame _).1, (pdOnset_frame _).1, pdTrack_x5, shiftBuf_eq_shifted]

/-- One tick of the routine acts on the core as the closed form says. -/
theorem coreOf_ISRfxn (num : Int) (u : Indeterminate) (s : ISR) :
    coreOf (ISRfxn num u s) = coreStep num u (coreOf s) := by
  have c := filterStages_closed num u s
  have g := filterStages_frame num u s
  have e : ISRfxn num u s =
      detAvg (filterStages num u s).2 ((num : ℚ) / 2048) (filterStages num u s).1 := rfl
  have hm := c.2.2.2.2.2.2.1
  have ff : SameFilters (ISRfxn num u s) (filterStages num u s).1 := by
    rw [e]; exact detAvg_filter_frame _ _ _
  unfold SameFilters at ff
  rw [c.1, c.2.1, c.2.2.1, c.2.2.2.1, c.2.2.2.2.1, c.2.2.2.2.2.1] at ff
  have hx : (ISRfxn num u s).x5 = shifted (s.x5.wr 0 (coreMwi num u (coreOf s))) := by
    rw [e, detAvg_x5_closed, g.1, hm]
  by_cases hfin : coreMwi num u (coreOf s) ≤ s.x5.rd 2 ∧
      coreMwi num u (coreOf s) < (1/2) * s.peakt
  · have p := detAvg_pos (filterStages num u s).2 ((num : ℚ) / 2048) (filterStages num u s).1
      (by rw [hm, g.1, g.2.1]; exact hfin)
    rw [← e, g.2.1, g.2.2.1, g.2.2.2.1, g.2.2.2.2.1] at p
    have hd : decide (coreMwi num u (coreOf s) ≤ (coreOf s).x5.rd 2 ∧
        coreMwi num u (coreOf s) < (1/2) * (coreOf s).peakt) = true := decide_eq_true hfin
    unfold coreStep coreStepWith
    simp only [hd, if_true]
    unfold coreOf at *
    simp only [Core.mk.injEq]
    refine ⟨ff.1, ff.2.1, ff.2.2.1, ff.2.2.2.1, ff.2.2.2.2.1, ff.2.2.2.2.2, p.2.1, ?_,
      p.2.2.1, p.2.2.2.1, hx⟩
    rw [p.2.2.2.2, p.2.2.1, p.2.2.2.1]
  · have p := detAvg_neg (filterStages num u s).2 ((num : ℚ) / 2048) (filterStages num u s).1
      (by rw [hm, g.1, g.2.1]; exact hfin)
    rw [← e, hm, g.1, g.2.1, g.2.2.1, g.2.2.2.1, g.2.2.2.2.1] at p
    have hd : decide (coreMwi num u (coreOf s) ≤ (coreOf s).x5.rd 2 ∧
        coreMwi num u (coreOf s) < (1/2) * (coreOf s).peakt) = false := decide_eq_false hfin
    unfold coreStep coreStepWith
    simp only [hd, Bool.false_eq_true, if_false]
    unfold coreOf at *
    simp only [Core.mk.injEq]
    exact ⟨ff.1, ff.2.1, ff.2.2.1, ff.2.2.2.1, ff.2.2.2.2.1, ff.2.2.2.2.2, p.2.1, p.2.2.2.2,
      p.2.2.1, p.2.2.2.1, hx⟩

theorem coreOf_ISRrun (inp : Nat → Int × Indeterminate) (t : Nat) :
    coreOf (ISRrun inp t) = coreRun inp t := by
  induction t with
  | zero => rfl
  | succ t ih =>
    show coreOf (ISRfxn (inp t).1 (inp t).2 (ISRrun inp t)) = _
    rw [coreOf_ISRfxn, ih]
    rfl

theorem CoreSame.eq {a b : Core} (h : CoreSame a b) : a = b := by
  obtain ⟨a1, a2, a3, a4, a5, a6, a7, a8, a9, a10, a11⟩ := a
  obtain ⟨b1, b2, b3, b4, b5, b6, b7, b8, b9, b10, b11⟩ := b
  obtain ⟨h1, h2, h3, h4, h5, h6, h7, h8, h9, h10, h11⟩ := h
  simp only at h1 h2 h3 h4 h5 h6 h7 h8 h9 h10 h11
  subst h1 h2 h3 h4 h5 h6 h7 h8 h9 h10 h11
  rfl

theorem detected_flag_eq (num : Int) (u : Indeterminate) (s : ISR) :
    (detected num u s).flag = if armed num u (coreOf s) ∧ s.flag ≠ 1 then 1 else s.flag := by
  have c := filterStages_closed num u s
  have g := filterStages_frame num u s
  unfold detected armed
  rw [peakDetection_flag, c.2.2.2.2.2.2.1, g.1, g.2.1, g.2.2.1, g.2.2.2.2.2.2.1]
  rfl

theorem cycle4_period (t : Nat) : cycle4 (t + 4) = cycle4 t := by
  unfold cycle4
  rw [Nat.add_mod_right]

theorem cycle4_of_mod (t : Nat) (h : t % 4 = 0) : cycle4 t = (1536, Indeterminate.zero) := by
  unfold cycle4
  rw [if_pos h]

theorem cycle4_core_80 : CoreSame (coreRun cycle4 84) (coreRun cycle4 80) := by decide!

theorem cycle4_armed_80 : armed 1536 Indeterminate.zero (coreRun cycle4 80) := by decide!

theorem cycle4_armed_0 : armed 1536 Indeterminate.zero (coreRun cycle4 0) := by decide!

/-- From tick 80 on the core of the cycle run repeats every four ticks. -/
theorem cycle4_core_shift (k : Nat) : coreRun cycle4 (84 + k) = coreRun cycle4 (80 + k) := by
  induction k with
  | zero => exact cycle4_core_80.eq
  | succ k ih =>
    show coreStep (cycle4 (84 + k)).1 (cycle4 (84 + k)).2 (coreRun cycle4 (84 + k)) =
      coreStep (cycle4 (80 + k)).1 (cycle4 (80 + k)).2 (coreRun cycle4 (80 + k))
    rw [ih, show 84 + k = (80 + k) + 4 by omega, cycle4_period]

theorem cycle4_core_periodic (m : Nat) : coreRun cycle4 (80 + 4 * m) = coreRun cycle4 80 := by
  induction m with
  | zero => rfl
  | succ m ih =>
    rw [show 80 + 4 * (m + 1) = 84 + 4 * m by omega, cycle4_core_shift, ih]

/-- In the cycle run the onset comparison succeeds at every tick that is a multiple of 144. -/
theorem cycle4_armed (j : Nat) :
    armed (cycle4 (144 * j)).1 (cycle4 (144 * j)).2 (coreOf (ISRrun cycle4 (144 * j))) := by
  rw [coreOf_ISRrun, cycle4_of_mod _ (by omega)]
  cases j with
  | zero => exact cycle4_armed_0
  | succ j =>
    rw [show 144 * (j + 1) = 80 + 4 * (36 * j + 16) by omega, cycle4_core_periodic]
    exact cycle4_armed_80

/-- The flag, the countdown and the epoch counter at every tick of the cycle run: beat epochs
follow one another without a gap. -/
theorem cycle4_state (t : Nat) :
    (ISRrun cycle4 t).flag = (if t % 144 = 0 then 0 else 1) ∧
    (ISRrun cycle4 t).counter_SA = 144 - ((t % 144 : Nat) : Int) ∧
    (ISRrun cycle4 t).c_epochs = ((t / 144 % 32 : Nat) : Int) ∧
    (detected (cycle4 t).1 (cycle4 t).2 (ISRrun cycle4 t)).flag = 1 := by
  have hdet : ∀ t, (ISRrun cycle4 t).flag = (if t % 144 = 0 then 0 else 1) →
      (detected (cycle4 t).1 (cycle4 t).2 (ISRrun cycle4 t)).flag = 1 := by
    intro t hf
    by_cases h0 : t % 144 = 0
    · rw [if_pos h0] at hf
      have ha := cycle4_armed (t / 144)
      rw [show 144 * (t / 144) = t by omega] at ha
      rw [detected_flag_eq, if_pos ⟨ha, by rw [hf]; decide⟩]
    · rw [if_neg h0] at hf
      exact detected_flag_of_flag _ _ _ hf
  induction t with
  | zero => exact ⟨rfl, rfl, rfl, hdet 0 rfl⟩
  | succ t ih =>
    obtain ⟨hf, hc, he, hd⟩ := ih
    have key : (ISRrun cycle4 (t + 1)).flag = (if (t + 1) % 144 = 0 then 0 else 1) ∧
        (ISRrun cycle4 (t + 1)).counter_SA = 144 - (((t + 1) % 144 : Nat) : Int) ∧
        (ISRrun cycle4 (t + 1)).c_epochs = (((t + 1) / 144 % 32 : Nat) : Int) := by
      show (ISRfxn (cycle4 t).1 (cycle4 t).2 (ISRrun cycle4 t)).flag = _ ∧
        (ISRfxn (cycle4 t).1 (cycle4 t).2 (ISRrun cycle4 t)).counter_SA = _ ∧
        (ISRfxn (cycle4 t).1 (cycle4 t).2 (ISRrun cycle4 t)).c_epochs = _
      by_cases h143 : t % 144 = 143
      · have hc1 : (ISRrun cycle4 t).counter_SA - 1 ≤ 0 := by rw [hc]; omega
        by_cases h31 : t / 144 % 32 = 31
        · have a := ISRfxn_promote _ _ _ hd hc1 (by rw [he]; omega)
          rw [a.1, a.2.1, a.2.2.1, if_pos (by omega)]
          refine ⟨rfl, by omega, by omega⟩
        · have a := ISRfxn_end _ _ _ hd hc1 (by rw [he]; omega)
          rw [a.1, a.2.1, a.2.2.1, if_pos (by omega), he]
          refine ⟨rfl, by omega, by omega⟩
      · have a := ISRfxn_beat _ _ _ hd (by rw [hc]; omega)
        rw [a.1, a.2.1, a.2.2.1, if_neg (by omega), hc, he]
        refine ⟨rfl, by omega, by omega⟩
    exact ⟨key.1, key.2.1, key.2.2, hdet (t + 1) key.1⟩

/-! ## Buffer histories -/

/-- A buffer that starts at zero and on every tick takes a new value at index 0 and is
shifted holds at index `j` (for `1 ≤ j < n`) the value stored `j` ticks earlier. -/
theorem history {n : Nat} (B : Nat → Arr n) (v : Nat → ℚ) (h0 : B 0 = Arr.zero n)
    (hs : ∀ t, B (t + 1) = shifted ((B t).wr 0 (v t))) (t j : Nat) (h1 : 1 ≤ j) (h2 : j < n) :
    (B t).rd j = past v t j := by
  induction t generalizing j with
  | zero =>
    rw [h0, Arr.rd_zero]
    unfold past
    rw [if_neg (by omega)]
  | succ t ih =>
    rw [hs, shifted_rd, if_pos ⟨h1, h2⟩, Arr.rd_wr]
    unfold past
    by_cases hj : j = 1
    · subst hj
      rw [if_pos ⟨rfl, by omega⟩, if_pos (by omega)]
      rfl
    · rw [if_neg (by omega), ih (j - 1) (by omega) (by omega)]
      unfold past
      by_cases hle : j ≤ t + 1
      · rw [if_pos (by omega), if_pos hle]
        congr 1
        omega
      · rw [if_neg (by omega), if_neg hle]

theorem shifted_wr_rd0 {n : Nat} (a : Arr (n + 1)) (v : ℚ) : (shifted (a.wr 0 v)).rd 0 = v := by
  rw [shifted_rd0, wr0_rd0]

theorem coreOf_LY (s : ISR) : (coreOf s).LY = s.LPF_Ybuf := rfl

theorem coreOf_HY (s : ISR) : (coreOf s).HY = s.HPF_Ybuf := rfl

theorem lpfOut_eq (inp : Nat → Int × Indeterminate) (t : Nat) :
    lpfOut inp t = coreLpf (inp t).1 (inp t).2 (coreRun inp t) := by
  unfold lpfOut
  rw [← coreOf_LY, coreOf_ISRrun]
  exact shifted_wr_rd0 _ _

theorem hpfOut_eq (inp : Nat → Int × Indeterminate) (t : Nat) :
    hpfOut inp t = coreHpf (inp t).1 (inp t).2 (coreRun inp t) := by
  unfold hpfOut
  rw [← coreOf_HY, coreOf_ISRrun]
  exact shifted_wr_rd0 _ _

theorem derivOut_eq (inp : Nat → Int × Indeterminate) (t : Nat) :
    derivOut inp t = coreDeriv (inp t).1 (inp t).2 (coreRun inp t) := by
  unfold derivOut
  rw [(filterStages_closed _ _ _).2.2.2.2.2.2.2, coreOf_ISRrun]

theorem mwiOut_eq (inp : Nat → Int × Indeterminate) (t : Nat) :
    mwiOut inp t = coreMwi (inp t).1 (inp t).2 (coreRun inp t) := by
  unfold mwiOut
  rw [(filterStages_closed _ _ _).2.2.2.2.2.2.1, coreOf_ISRrun]

/-- History of `LPF_Xbuf`: the centred samples. -/
theorem LX_history (inp : Nat → Int × Indeterminate) (t j : Nat) (h1 : 1 ≤ j) (h2 : j < 13) :
    (coreRun inp t).LX.rd j = past (centred inp) t j :=
  history (fun t => (coreRun inp t).LX) (centred inp) rfl (fun _ => rfl) t j h1 h2

/-- History of `LPF_Ybuf`: the low-pass outputs. -/
theorem LY_history (inp : Nat → Int × Indeterminate) (t j : Nat) (h1 : 1 ≤ j) (h2 : j < 3) :
    (coreRun inp t).LY.rd j = past (lpfOut inp) t j :=
  history (fun t => (coreRun inp t).LY) (lpfOut inp) rfl
    (fun t => by rw [lpfOut_eq]; rfl) t j h1 h2

/-- History of `HPF_Xbuf`: the low-pass outputs. -/
theorem HX_history (inp : Nat → Int × Indeterminate) (t j : Nat) (h1 : 1 ≤ j) (h2 : j < 33) :
    (coreRun inp t).HX.rd j = past (lpfOut inp) t j :=
  history (fun t => (coreRun inp t).HX) (lpfOut inp) rfl
    (fun t => by rw [lpfOut_eq]; rfl) t j h1 h2

/-- History of `HPF_Ybuf`: the high-pass outputs. -/
theorem HY_history (inp : Nat → Int × Indeterminate) (t j : Nat) (h1 : 1 ≤ j) (h2 : j < 2) :
    (coreRun inp t).HY.rd j = past (hpfOut inp) t j :=
  history (fun t => (coreRun inp t).HY) (hpfOut inp) rfl
    (fun t => by rw [hpfOut_eq]; rfl) t j h1 h2

/-- History of `deriv_Xbuf`: the high-pass outputs. -/
theorem DX_history (inp : Nat → Int × Indeterminate) (t j : Nat) (h1 : 1 ≤ j) (h2 : j < 5) :
    (coreRun inp t).DX.rd j = past (hpfOut inp) t j :=
  history (fun t => (coreRun inp t).DX) (hpfOut inp) rfl
    (fun t => by rw [hpfOut_eq]; rfl) t j h1 h2

/-- History of `MWI_Ybuf`: the squared differentiator outputs. -/
theorem MY_history (inp : Nat → Int × Indeterminate) (t j : Nat) (h1 : 1 ≤ j) (h2 : j < 32) :
    (coreRun inp t).MY.rd j = past (fun i => derivOut inp i * derivOut inp i) t j :=
  history (fun t => (coreRun inp t).MY) (fun i => derivOut inp i * derivOut inp i) rfl
    (fun t => by simp only [derivOut_eq]; rfl) t j h1 h2

/-! ## What the filter stages compute over a run -/

/-- The low-pass output of every tick: the entry value of the uninitialised accumulator
plus the direct-form recursion on the centred samples. -/
theorem lpf_recursion (inp : Nat → Int × Indeterminate) (n : Nat) :
    lpfOut inp n = (inp n).2.Output_LPF +
      (1/20) * (centred inp n - 2 * past (centred inp) n 6 + past (centred inp) n 12) +
      2 * past (lpfOut inp) n 1 - past (lpfOut inp) n 2 := by
  rw [lpfOut_eq]
  unfold coreLpf lpfValue
  rw [LX_history inp n 6 (by decide) (by decide), LX_history inp n 12 (by decide) (by decide),
    LY_history inp n 1 (by decide) (by decide), LY_history inp n 2 (by decide) (by decide)]
  rfl

/-- The low-pass difference equation holds whenever the accumulator happens to start at 0. -/
theorem lpf_recursion_of_zero_entry (inp : Nat → Int × Indeterminate)
    (h : ∀ t, (inp t).2.Output_LPF = 0) (n : Nat) :
    lpfOut inp n =
      (1/20) * (centred inp n - 2 * past (centred inp) n 6 + past (centred inp) n 12) +
      2 * past (lpfOut inp) n 1 - past (lpfOut inp) n 2 := by
  rw [lpf_recursion inp n, h n, zero_add]

/-- C2 fails on the code: `Output_LPF` is accumulated into without having been initialised.
In the run `lpfJunk` (sample 1024, so centred sample 0, and `Output_LPF` holding 1 on entry)
the low-pass output of tick 0 is 1, while the difference equation of the claim gives 0. -/
theorem lpf_output_includes_entry_value :
    lpfOut lpfJunk 0 = 1 ∧
    (1/20) * (centred lpfJunk 0 - 2 * past (centred lpfJunk) 0 6 + past (centred lpfJunk) 0 12) +
      2 * past (lpfOut lpfJunk) 0 1 - past (lpfOut lpfJunk) 0 2 = 0 := by
  have h : (1/20 : ℚ) * (centred lpfJunk 0 - 2 * past (centred lpfJunk) 0 6 +
      past (centred lpfJunk) 0 12) + 2 * past (lpfOut lpfJunk) 0 1 -
      past (lpfOut lpfJunk) 0 2 = 0 := by
    simp only [past, centred, lpfJunk]
    norm_num
  refine ⟨?_, h⟩
  have r := lpf_recursion lpfJunk 0
  have hu : (lpfJunk 0).2.Output_LPF = 1 := rfl
  rw [hu] at r
  linarith

theorem Gain_HPF_eq : Gain_HPF = 5 / 6 := by
  unfold Gain_HPF
  norm_num

/-- The high-pass output of every tick: the entry value of the uninitialised accumulator
plus the direct-form recursion on the low-pass outputs. -/
theorem hpf_recursion (inp : Nat → Int × Indeterminate) (n : Nat) :
    hpfOut inp n = (inp n).2.Output_HPF +
      (5/6) * (-(lpfOut inp n) / 32 + past (lpfOut inp) n 16 - past (lpfOut inp) n 17 +
        past (lpfOut inp) n 32 / 32) + past (hpfOut inp) n 1 := by
  rw [hpfOut_eq]
  unfold coreHpf hpfValue
  rw [HX_history inp n 16 (by decide) (by decide), HX_history inp n 17 (by decide) (by decide),
    HX_history inp n 32 (by decide) (by decide), HY_history inp n 1 (by decide) (by decide),
    ← lpfOut_eq, Gain_HPF_eq]
  ring

/-- The high-pass difference equation holds whenever the accumulator happens to start at 0. -/
theorem hpf_recursion_of_zero_entry (inp : Nat → Int × Indeterminate)
    (h : ∀ t, (inp t).2.Output_HPF = 0) (n : Nat) :
    hpfOut inp n =
      (5/6) * (-(lpfOut inp n) / 32 + past (lpfOut inp) n 16 - past (lpfOut inp) n 17 +
        past (lpfOut inp) n 32 / 32) + past (hpfOut inp) n 1 := by
  rw [hpf_recursion inp n, h n, zero_add]

theorem lpfOut_hpfJunk (n : Nat) : lpfOut hpfJunk n = 0 := by
  induction n using Nat.strong_induction_on with
  | _ n ih =>
    have hp : ∀ k, 1 ≤ k → past (lpfOut hpfJunk) n k = 0 := by
      intro k hk
      unfold past
      split
      · exact ih _ (by omega)
      · rfl
    have hc : ∀ k, past (centred hpfJunk) n k = 0 := by
      intro k
      unfold past centred hpfJunk
      split <;> norm_num
    have hx : centred hpfJunk n = 0 := by
      unfold centred hpfJunk
      norm_num
    have hu : (hpfJunk n).2.Output_LPF = 0 := rfl
    rw [lpf_recursion, hp 1 (le_refl 1), hp 2 (by decide), hc, hc, hx, hu]
    norm_num

/-- C3 fails on the code: `Output_HPF` is accumulated into without having been initialised.
In the run `hpfJunk` (every low-pass output 0, `Output_HPF` holding 1 on entry) the high-pass
output of tick 0 is 1, while the difference equation of the claim gives 0. -/
theorem hpf_output_includes_entry_value :
    hpfOut hpfJunk 0 = 1 ∧
    (5/6 : ℚ) * (-(lpfOut hpfJunk 0) / 32 + past (lpfOut hpfJunk) 0 16 -
        past (lpfOut hpfJunk) 0 17 + past (lpfOut hpfJunk) 0 32 / 32) +
      past (hpfOut hpfJunk) 0 1 = 0 := by
  have h : (5/6 : ℚ) * (-(lpfOut hpfJunk 0) / 32 + past (lpfOut hpfJunk) 0 16 -
        past (lpfOut hpfJunk) 0 17 + past (lpfOut hpfJunk) 0 32 / 32) +
      past (hpfOut hpfJunk) 0 1 = 0 := by
    simp only [past, lpfOut_hpfJunk]
    norm_num
  refine ⟨?_, h⟩
  have r := hpf_recursion hpfJunk 0
  have hu : (hpfJunk 0).2.Output_HPF = 1 := rfl
  rw [hu] at r
  linarith

/-- An accumulating loop adds up the terms it visits. -/
theorem forUp_sum (g : Nat → ℚ) (lo cnt : Nat) (o : ℚ) :
    forUp (fun i acc => acc + g i) lo cnt o = o + ∑ k in Finset.range cnt, g (lo + k) := by
  induction cnt generalizing lo o with
  | zero => simp [forUp]
  | succ cnt ih =>
    simp only [forUp]
    rw [ih, Finset.sum_range_succ']
    have e : ∀ k, g (lo + 1 + k) = g (lo + (k + 1)) := fun k => by congr 1; omega
    simp only [e, Nat.add_zero]
    ring

/-- The integrator value of every tick: the entry value of the uninitialised accumulator
plus the plain sum (no 1/32 factor) of the last 32 squared differentiator outputs. -/
theorem mwi_window_sum (inp : Nat → Int × Indeterminate) (n : Nat) :
    mwiOut inp n = (inp n).2.Output_MWI +
      ∑ k in Finset.range 32, past (fun i => derivOut inp i * derivOut inp i) n k := by
  rw [mwiOut_eq]
  unfold coreMwi mwiValue
  rw [← mwi_sum, forUp_sum]
  congr 1
  apply Finset.sum_congr rfl
  intro k hk
  rw [Finset.mem_range] at hk
  rw [Nat.zero_add]
  cases k with
  | zero =>
    rw [wr0_rd0, ← derivOut_eq]
    unfold past
    rw [if_pos (Nat.zero_le n)]
    rfl
  | succ k =>
    rw [wr0_rd_succ, MY_history inp n (k + 1) (by omega) hk]

/-- C4 fails on the code: in the run `zeroSample` (sample 0, uninitialised locals holding 0)
the differentiator output of tick 0 is 1/3072 and the integrator hands its square,
1/9437184, to the detector: the sum of the window, not 1/32 of it. -/
theorem mwi_output_is_unscaled_sum :
    derivOut zeroSample 0 = 1 / 3072 ∧ mwiOut zeroSample 0 = 1 / 9437184 ∧
    (1/32 : ℚ) * ∑ k in Finset.range 32,
      past (fun i => derivOut zeroSample i * derivOut zeroSample i) 0 k = 1 / 301989888 ∧
    mwiOut zeroSample 0 ≠ (1/32 : ℚ) * ∑ k in Finset.range 32,
      past (fun i => derivOut zeroSample i * derivOut zeroSample i) 0 k := by
  have hd : derivOut zeroSample 0 = 1 / 3072 := by
    rw [derivOut_eq]
    decide!
  have hs : ∑ k in Finset.range 32,
      past (fun i => derivOut zeroSample i * derivOut zeroSample i) 0 k = 1 / 9437184 := by
    rw [Finset.sum_range_succ']
    have hz : ∀ k, past (fun i => derivOut zeroSample i * derivOut zeroSample i) 0 (k + 1) = 0 := by
      intro k
      unfold past
      rw [if_neg (by omega)]
    simp only [hz, Finset.sum_const_zero, zero_add]
    unfold past
    rw [if_pos (le_refl 0)]
    simp only [Nat.sub_self, hd]
    norm_num
  have hm : mwiOut zeroSample 0 = 1 / 9437184 := by
    rw [mwi_window_sum, hs]
    show (0 : ℚ) + _ = _
    rw [zero_add]
  refine ⟨hd, hm, ?_, ?_⟩
  · rw [hs]; norm_num
  · rw [hs, hm]; norm_num

/-- In the cycle run the promoting ticks are the ticks 4607, 9215, ...: one every 32 epochs
of 144 ticks. -/
theorem cycle4_promotionAt (t : Nat) : promotionAt cycle4 t ↔ t % 4608 = 4607 := by
  have s := cycle4_state t
  unfold promotionAt completesEpoch
  rw [s.2.2.2, s.2.1, s.2.2.1]
  constructor
  · rintro ⟨⟨_, h1⟩, h2⟩
    omega
  · intro h
    refine ⟨⟨rfl, ?_⟩, ?_⟩ <;> omega

/-- Witness for C9: tick 4607 of the cycle run, the last tick of its 32nd epoch. -/
theorem epoch_promotion_copies_accumulator_witness :
    completesEpoch (cycle4 4607).1 (cycle4 4607).2 (ISRrun cycle4 4607) ∧
    (ISRrun cycle4 4607).c_epochs = 31 ∧
    (∀ j, j < 200 → (ISRrun cycle4 (4607 + 1)).SAbuf.rd j =
      (tempAfterWrites (cycle4 4607).1 (ISRrun cycle4 4607)).rd j) ∧
    (∀ j, j < 200 → (ISRrun cycle4 (4607 + 1)).Tempbuf.rd j = 0) ∧
    (ISRrun cycle4 (4607 + 1)).c_epochs = 0 :=
  have h : promotionAt cycle4 4607 := (cycle4_promotionAt 4607).mpr (by decide)
  ⟨h.1, h.2, epoch_promotion_copies_accumulator cycle4 4607 h.1 h.2⟩

/-- Witness for C10: in the cycle run tick 0 does not promote and leaves `SAbuf` unchanged;
ticks 4607 and 9215 are consecutive promoting ticks, and 32 epochs complete from one to
the other. -/
theorem stable_template_once_per_32_beats_witness :
    ¬ promotionAt cycle4 0 ∧ (ISRrun cycle4 (0 + 1)).SAbuf = (ISRrun cycle4 0).SAbuf ∧
    promotionAt cycle4 4607 ∧ promotionAt cycle4 9215 ∧
    (∀ i, 4607 < i → i < 9215 → ¬ promotionAt cycle4 i) ∧
    epochsCompleted cycle4 (9215 + 1) = epochsCompleted cycle4 (4607 + 1) + 32 :=
  have h0 : ¬ promotionAt cycle4 0 := fun h => absurd ((cycle4_promotionAt 0).mp h) (by decide)
  have h1 : promotionAt cycle4 4607 := (cycle4_promotionAt 4607).mpr (by decide)
  have h2 : promotionAt cycle4 9215 := (cycle4_promotionAt 9215).mpr (by decide)
  have hno : ∀ i, 4607 < i → i < 9215 → ¬ promotionAt cycle4 i := fun i a b h => by
    have := (cycle4_promotionAt i).mp h
    omega
  ⟨h0, (stable_template_once_per_32_beats cycle4 0).1 h0, h1, h2, hno,
    (stable_template_once_per_32_beats cycle4 4607).2.2.1 9215 (by decide) h1 h2 hno⟩

theorem zeroSample_finalize_54 :
    coreMwi 0 Indeterminate.zero (coreRun zeroSample 54) ≤ (coreRun zeroSample 54).x5.rd 2 ∧
    coreMwi 0 Indeterminate.zero (coreRun zeroSample 54) <
      (1/2) * (coreRun zeroSample 54).peakt ∧
    (coreRun zeroSample 54).peakt > (coreRun zeroSample 54).thresholdi1 := by decide!

theorem zeroSample_no_finalize_0 :
    ¬ (coreMwi 0 Indeterminate.zero (coreRun zeroSample 0) ≤ (coreRun zeroSample 0).x5.rd 2 ∧
    coreMwi 0 Indeterminate.zero (coreRun zeroSample 0) <
      (1/2) * (coreRun zeroSample 0).peakt) := by decide!

theorem coreOf_fields (s : ISR) :
    (coreOf s).x5 = s.x5 ∧ (coreOf s).peakt = s.peakt ∧ (coreOf s).thresholdi1 = s.thresholdi1 :=
  ⟨rfl, rfl, rfl⟩

/-- An instance in exact arithmetic: in the run with sample 0 on every tick, tick 54 is a
finalize tick on
which the running peak exceeds the threshold (a signal peak), and tick 0 is not a finalize
tick. -/
theorem peak_finalize_rule_witness :
    ((filterStages 0 Indeterminate.zero (ISRrun zeroSample 54)).2 ≤
        (ISRrun zeroSample 54).x5.rd 2 ∧
      (filterStages 0 Indeterminate.zero (ISRrun zeroSample 54)).2 <
        (1/2) * (ISRrun zeroSample 54).peakt) ∧
    (ISRrun zeroSample 54).peakt > (ISRrun zeroSample 54).thresholdi1 ∧
    (ISRfxn 0 Indeterminate.zero (ISRrun zeroSample 54)).peaki = (ISRrun zeroSample 54).peakt ∧
    (ISRfxn 0 Indeterminate.zero (ISRrun zeroSample 54)).spki =
      (ISRrun zeroSample 54).peakt / 8 + 7 * (ISRrun zeroSample 54).spki / 8 ∧
    (ISRfxn 0 Indeterminate.zero (ISRrun zeroSample 54)).peakt = 0 ∧
    ¬ ((filterStages 0 Indeterminate.zero (ISRrun zeroSample 0)).2 ≤
        (ISRrun zeroSample 0).x5.rd 2 ∧
      (filterStages 0 Indeterminate.zero (ISRrun zeroSample 0)).2 <
        (1/2) * (ISRrun zeroSample 0).peakt) ∧
    (ISRfxn 0 Indeterminate.zero (ISRrun zeroSample 0)).thresholdi1 =
      (ISRrun zeroSample 0).thresholdi1 := by
  have k := zeroSample_finalize_54
  have k0 := zeroSample_no_finalize_0
  rw [← coreOf_ISRrun, (coreOf_fields _).1, (coreOf_fields _).2.1, (coreOf_fields _).2.2,
    ← (filterStages_closed _ _ _).2.2.2.2.2.2.1] at k
  rw [← coreOf_ISRrun, (coreOf_fields _).1, (coreOf_fields _).2.1,
    ← (filterStages_closed _ _ _).2.2.2.2.2.2.1] at k0
  have r := (peak_finalize_rule 0 Indeterminate.zero (ISRrun zeroSample 54)).1 ⟨k.1, k.2.1⟩
  exact ⟨⟨k.1, k.2.1⟩, k.2.2, r.1, (r.2.1 k.2.2).1, r.2.2.2.2, k0,
    ((peak_finalize_rule 0 Indeterminate.zero (ISRrun zeroSample 0)).2 k0).2.2.1⟩

/-! ## Decoder bounds and resynchronisation -/

theorem decodeByte_i_range (be : Bool) (d : Nat) (s : Decoder) (h : 0 ≤ s.i ∧ s.i ≤ 2) :
    0 ≤ (decodeByte be d s).i ∧ (decodeByte be d s).i ≤ 2 := by
  unfold decodeByte asUnsigned
  split_ifs <;> simp_all
  all_goals omega

theorem decode_i_range (be : Bool) (bytes : List Nat) (s : Decoder) (h : 0 ≤ s.i ∧ s.i ≤ 2) :
    0 ≤ (decode be bytes s).i ∧ (decode be bytes s).i ≤ 2 := by
  induction bytes generalizing s with
  | nil => exact h
  | cons d rest ih => exact ih _ (decodeByte_i_range be d s h)

theorem decode_append (be : Bool) (a b : List Nat) (s : Decoder) :
    decode be (a ++ b) s = decode be b (decode be a s) := by
  unfold decode
  rw [List.foldl_append]

/-- A frame with two non-zero payload bytes brings the decoder back to `i = 0`. -/
theorem decode_resync (be : Bool) (b0 b1 : Nat) (h0 : b0 % 256 ≠ 0) (h1 : b1 % 256 ≠ 0)
    (s : Decoder) (hs : s.i = 0 ∨ s.i = 1 ∨ s.i = 2) :
    (decode be [b0, b1, 0] s).i = 0 := by
  rcases hs with h | h | h <;>
    simp [decode, decodeByte, asUnsigned, h, h0, h1]

/-- C20. Decoder bounds and resynchronisation: from any decoder state with byte count in
0..2 (the initial state in particular) and for every byte stream, the byte count stays in
0..2 and a byte is stored in `data.h[i]` only with `i` equal to 0 or 1; and from every state
with `i` equal to 0, 1 or 2 and any accumulator contents, a frame of two non-zero payload
bytes and the terminator leaves the decoder at `i = 0`, so that the frame `send_sp` emits
next for any 16-bit value `v` is decoded exactly. -/
theorem decoder_bounds_and_resync (bigEndian : Bool) (s : Decoder)
    (hs : s.i = 0 ∨ s.i = 1 ∨ s.i = 2) :
    (∀ bytes, 0 ≤ (decode bigEndian bytes s).i ∧ (decode bigEndian bytes s).i ≤ 2) ∧
    (∀ bytes d, storesByte d (decode bigEndian bytes s) →
      (decode bigEndian bytes s).i = 0 ∨ (decode bigEndian bytes s).i = 1) ∧
    (∀ b0 b1, b0 % 256 ≠ 0 → b1 % 256 ≠ 0 →
      (decode bigEndian [b0, b1, 0] s).i = 0 ∧
      ∀ v : Int, -32768 ≤ v → v ≤ 32767 →
        (decode bigEndian ([b0, b1, 0] ++ send_sp bigEndian v) s).num = v ∧
        (decode bigEndian ([b0, b1, 0] ++ send_sp bigEndian v) s).i = 0) := by
  have hr : 0 ≤ s.i ∧ s.i ≤ 2 := by omega
  refine ⟨fun bytes => decode_i_range bigEndian bytes s hr, ?_, ?_⟩
  · intro bytes d hst
    have r := decode_i_range bigEndian bytes s hr
    unfold storesByte asUnsigned at hst
    omega
  · intro b0 b1 h0 h1
    have z := decode_resync bigEndian b0 b1 h0 h1 s hs
    refine ⟨z, ?_⟩
    intro v hlo hhi
    rw [decode_append, decode_send_sp bigEndian v _ z]
    exact ⟨shortOfBytes_bytesOfShort bigEndian v hlo hhi, rfl⟩

/-- Witness for C20: the decoder out of step at `i = 1`, the frame 1, 2, 0, then the frame
of -2. -/
theorem decoder_bounds_and_resync_witness :
    (∀ bytes, 0 ≤ (decode false bytes ⟨9, 9, 4, 1⟩).i ∧ (decode false bytes ⟨9, 9, 4, 1⟩).i ≤ 2) ∧
    (decode false [1, 2, 0] ⟨9, 9, 4, 1⟩).i = 0 ∧
    (decode false ([1, 2, 0] ++ send_sp false (-2)) ⟨9, 9, 4, 1⟩).num = -2 ∧
    (decode false ([1, 2, 0] ++ send_sp false (-2)) ⟨9, 9, 4, 1⟩).i = 0 :=
  have h := decoder_bounds_and_resync false ⟨9, 9, 4, 1⟩ (Or.inr (Or.inl rfl))
  ⟨h.1, (h.2.2 1 2 (by decide) (by decide)).1,
    (h.2.2 1 2 (by decide) (by decide)).2 (-2) (by decide) (by decide)⟩

/-! ## The threshold between the estimates -/

theorem DetInv_init : DetInv ISR.init := by
  unfold DetInv ISR.init
  norm_num

theorem DetInv_detAvg (m f : ℚ) (s : ISR) (h : DetInv s) : DetInv (detAvg m f s) := by
  obtain ⟨hp, hn, hnt, hts, ht⟩ := h
  unfold DetInv
  by_cases hfin : m ≤ s.x5.rd 2 ∧ m < (1/2) * s.peakt
  · have p := detAvg_pos m f s hfin
    rw [p.2.1, p.2.2.2.2, p.2.2.1, p.2.2.2.1]
    by_cases hgt : s.peakt > s.thresholdi1
    · rw [if_pos hgt, if_pos hgt]
      refine ⟨le_refl 0, hn, ?_, ?_, ?_⟩ <;> linarith
    · rw [if_neg hgt, if_neg hgt]
      have hle := not_lt.mp hgt
      refine ⟨le_refl 0, ?_, ?_, ?_, ?_⟩ <;> linarith
  · have p := detAvg_neg m f s hfin
    rw [p.2.1, p.2.2.1, p.2.2.2.1, p.2.2.2.2]
    refine ⟨?_, hn, hnt, hts, ht⟩
    split
    · rename_i hc
      exact le_of_lt (lt_of_le_of_lt hp hc.2)
    · exact hp

theorem DetInv_run (mwi raw : Nat → ℚ) (t : Nat) : DetInv (detAvgRun ISR.init mwi raw t) := by
  induction t with
  | zero => exact DetInv_init
  | succ t ih => exact DetInv_detAvg _ _ _ ih

/-- The same bounds hold before every tick of every run of the full routine. -/
theorem DetInv_ISRrun (inp : Nat → Int × Indeterminate) (t : Nat) : DetInv (ISRrun inp t) := by
  induction t with
  | zero => exact DetInv_init
  | succ t ih =>
    have g := filterStages_frame (inp t).1 (inp t).2 (ISRrun inp t)
    have h1 : DetInv (filterStages (inp t).1 (inp t).2 (ISRrun inp t)).1 := by
      unfold DetInv at ih ⊢
      rw [g.2.1, g.2.2.1, g.2.2.2.1, g.2.2.2.2.1]
      exact ih
    exact DetInv_detAvg _ _ _ h1

/-- C18. The threshold stays between the noise and the signal estimate: for every sequence
of integrator values (of any sign) and raw samples fed to the detector and the averager
from the initial globals, before and after every tick `0 ≤ peakt`,
`0 ≤ npki ≤ thresholdi1 ≤ spki` and `thresholdi1 = npki + (spki - npki)/4`. -/
theorem threshold_between_estimates (mwi raw : Nat → ℚ) (t : Nat) :
    0 ≤ (detAvgRun ISR.init mwi raw t).peakt ∧
    0 ≤ (detAvgRun ISR.init mwi raw t).npki ∧
    (detAvgRun ISR.init mwi raw t).npki ≤ (detAvgRun ISR.init mwi raw t).thresholdi1 ∧
    (detAvgRun ISR.init mwi raw t).thresholdi1 ≤ (detAvgRun ISR.init mwi raw t).spki ∧
    (detAvgRun ISR.init mwi raw t).thresholdi1 =
      (detAvgRun ISR.init mwi raw t).npki +
        ((detAvgRun ISR.init mwi raw t).spki - (detAvgRun ISR.init mwi raw t).npki) / 4 :=
  DetInv_run mwi raw t

/-! ## The read counter and the published average -/

theorem pdOnset_counter_out (s : ISR) :
    (pdOnset s).counter_out =
      if s.peakt > s.thresholdi1 ∧ s.flag ≠ 1 then 199 else s.counter_out := by
  unfold pdOnset onsetCond
  split <;> rfl

theorem peakDetection_counter_out (m : ℚ) (s : ISR) :
    (peakDetection m s).counter_out =
      if (if m > s.x5.rd 2 ∧ m > s.peakt then m else s.peakt) > s.thresholdi1 ∧ s.flag ≠ 1
      then 199 else s.counter_out := by
  unfold peakDetection
  simp only []
  rw [(pdFinalize_frame _).2.2.2.2.2.2.2.1, pdOnset_counter_out, pdTrack_peakt,
    (pdTrack_frame m s).1, (pdTrack_frame m s).2.2.2.2.1, (pdTrack_frame m s).2.2.2.2.2.2.2.2.2.2.1]

/-- The read counter entering the averager: 199 on an onset, the stored one otherwise. -/
theorem detected_counter_out (num : Int) (u : Indeterminate) (s : ISR) :
    (s.flag ≠ 1 → (detected num u s).flag = 1 → (detected num u s).counter_out = 199) ∧
    (s.flag = 1 → (detected num u s).counter_out = s.counter_out) := by
  have g := filterStages_frame num u s
  have hf : (detected num u s).flag = _ := peakDetection_flag _ _
  have hc : (detected num u s).counter_out = _ := peakDetection_counter_out _ _
  rw [g.2.2.2.2.2.2.1] at hf hc
  rw [g.2.2.2.2.2.2.2.2.2.2.2.2.1] at hc
  constructor
  · intro h0 h1
    by_cases hcond : (if (filterStages num u s).2 > (filterStages num u s).1.x5.rd 2 ∧
        (filterStages num u s).2 > (filterStages num u s).1.peakt then (filterStages num u s).2
        else (filterStages num u s).1.peakt) > (filterStages num u s).1.thresholdi1 ∧ s.flag ≠ 1
    · rw [hc, if_pos hcond]
    · rw [hf, if_neg hcond] at h1
      exact absurd h1 h0
  · intro h1
    rw [hc, if_neg (fun h => h.2 h1)]

set_option maxRecDepth 8000 in
/-- The read counter after an inside-beat tick: wrapped from 0 to 200 if need be, then
decremented. -/
theorem signalAverager_counter_out (f : ℚ) (s : ISR) (h : s.flag = 1) :
    (signalAverager f s).counter_out =
      (if s.counter_out = 0 then 200 else s.counter_out) - 1 := by
  unfold signalAverager epochEnd
  simp only [h, if_true]
  split_ifs <;> simp_all

/-- The value published on an inside-beat tick. -/
theorem signalAverager_Aout3 (f : ℚ) (s : ISR) (h : s.flag = 1) :
    (signalAverager f s).Aout3 = s.SAbuf.rdI s.counter_out / max_epochs := by
  by_cases hc : s.counter_SA - 1 ≤ 0
  · by_cases he : s.c_epochs + 1 ≥ max_epochs
    · exact (signalAverager_promote f s h hc he).2.2.2.2.2
    · exact (signalAverager_end f s h hc he).2.2.2.2.2
  · exact (signalAverager_beat f s h hc).2.2.2.2.2

theorem detected_counters (num : Int) (u : Indeterminate) (s : ISR) (ha : AvgInv s)
    (ho : OutInv s) (hd : (detected num u s).flag = 1) :
    1 ≤ s.counter_SA ∧ s.counter_SA ≤ 144 ∧
    (detected num u s).counter_out = s.counter_SA + 55 := by
  have hrange : 1 ≤ s.counter_SA ∧ s.counter_SA ≤ 144 := by
    rcases ha.1 with h | h <;> omega
  refine ⟨hrange.1, hrange.2, ?_⟩
  rcases ha.1 with h | h
  · rw [(detected_counter_out num u s).1 (by rw [h.1]; decide) hd, h.2]
    rfl
  · rw [(detected_counter_out num u s).2 h.1, ho h.1]

theorem OutInv_step (num : Int) (u : Indeterminate) (s : ISR) (ha : AvgInv s) (ho : OutInv s) :
    OutInv (ISRfxn num u s) := by
  intro hf
  by_cases hd : (detected num u s).flag = 1
  · have c := detected_counters num u s ha ho hd
    by_cases hc : s.counter_SA - 1 ≤ 0
    · by_cases he : s.c_epochs < 31
      · rw [(ISRfxn_end num u s hd hc he).1] at hf
        exact absurd hf (by decide)
      · rw [(ISRfxn_promote num u s hd hc (by have := ha.2.2.1; omega)).1] at hf
        exact absurd hf (by decide)
    · rw [(ISRfxn_beat num u s hd hc).2.1, ISRfxn_eq, signalAverager_counter_out _ _ hd, c.2.2,
        if_neg (by omega)]
      ring
  · have a := ISRfxn_idle num u s hd
    rw [a.1] at hf
    exact absurd ((detected_flag num u s).elim id (fun e => e.trans hf)) hd

theorem OutInv_run (inp : Nat → Int × Indeterminate) (t : Nat) : OutInv (ISRrun inp t) := by
  induction t with
  | zero =>
    intro h
    have h0 : (0 : Int) = 1 := h
    exact absurd h0 (by decide)
  | succ t ih => exact OutInv_step _ _ _ (AvgInv_run inp t) ih

theorem detected_counter_out_eq (num : Int) (u : Indeterminate) (s : ISR) :
    (detected num u s).counter_out =
      if armed num u (coreOf s) ∧ s.flag ≠ 1 then 199 else s.counter_out := by
  have c := filterStages_closed num u s
  have g := filterStages_frame num u s
  unfold detected armed
  rw [peakDetection_counter_out, c.2.2.2.2.2.2.1, g.1, g.2.1, g.2.2.1, g.2.2.2.2.2.2.1,
    g.2.2.2.2.2.2.2.2.2.2.2.2.1]
  rfl

/-- The published average after a tick: the stable buffer at the read counter over
`max_epochs` if the inside-beat branch ran, the value held before otherwise. -/
theorem ISRfxn_Aout3 (num : Int) (u : Indeterminate) (s : ISR) :
    (ISRfxn num u s).Aout3 =
      if (detected num u s).flag = 1 then s.SAbuf.rdI (detected num u s).counter_out / 32
      else s.Aout3 := by
  have g := detected_frame num u s
  rw [ISRfxn_eq]
  by_cases hd : (detected num u s).flag = 1
  · rw [if_pos hd, signalAverager_Aout3 _ _ hd, g.2.2.2.1]
    rfl
  · rw [if_neg hd, (signalAverager_idle _ _ hd).2.2.2.2.2.2, g.2.2.2.2.2]

/-- The published average of a tick is the same whatever the temp accumulator holds. -/
theorem Aout3_independent_of_Tempbuf (num : Int) (u : Indeterminate) (s : ISR) (T : Arr 200) :
    (ISRfxn num u { s with Tempbuf := T }).Aout3 = (ISRfxn num u s).Aout3 := by
  have hf : (detected num u { s with Tempbuf := T }).flag = (detected num u s).flag := by
    rw [detected_flag_eq, detected_flag_eq]
    rfl
  have hc : (detected num u { s with Tempbuf := T }).counter_out =
      (detected num u s).counter_out := by
    rw [detected_counter_out_eq, detected_counter_out_eq]
    rfl
  rw [ISRfxn_Aout3, ISRfxn_Aout3, hf, hc]

/-- Until the first promotion the stable buffer is all zero and the published average is 0. -/
theorem before_first_promotion (inp : Nat → Int × Indeterminate) (t : Nat)
    (h : promotions inp t = 0) :
    (ISRrun inp t).SAbuf = Arr.zero 200 ∧ (ISRrun inp t).Aout3 = 0 ∧
    (ISRrun inp (t + 1)).Aout3 = 0 := by
  have key : ∀ t, promotions inp t = 0 →
      (ISRrun inp t).SAbuf = Arr.zero 200 ∧ (ISRrun inp t).Aout3 = 0 := by
    intro t
    induction t with
    | zero => intro _; exact ⟨rfl, rfl⟩
    | succ t ih =>
      intro h
      rw [promotions_succ] at h
      have h0 : promotions inp t = 0 := by omega
      have hn : ¬ promotionAt inp t := by
        intro hp
        rw [if_pos hp] at h
        omega
      have p := ih h0
      refine ⟨(SAbuf_unchanged inp t hn).trans p.1, ?_⟩
      show (ISRfxn (inp t).1 (inp t).2 (ISRrun inp t)).Aout3 = 0
      rw [ISRfxn_Aout3, p.1, p.2]
      split
      · unfold Arr.rdI
        split
        · rw [Arr.rd_zero]; norm_num
        · norm_num
      · rfl
  have p := key t h
  refine ⟨p.1, p.2, ?_⟩
  show (ISRfxn (inp t).1 (inp t).2 (ISRrun inp t)).Aout3 = 0
  rw [ISRfxn_Aout3, p.1, p.2]
  split
  · unfold Arr.rdI
    split
    · rw [Arr.rd_zero]; norm_num
    · norm_num
  · rfl

/-- C19. Averager indices are always in bounds: in every run from the initial state, on
every tick on which the averager's inside-beat branch runs, the write countdown it sees is in
1..144 and the read counter it sees is the countdown plus 55, hence in 56..199 and never 0
(the wrap branch is not taken); so the indices of `SAbuf[counter_out]` and
`Tempbuf[counter_SA]` are below 200, as are the indices 145..199 of the catch-up loop, whose
`GDbuf` indices are below 55. -/
theorem averager_indices_in_bounds (inp : Nat → Int × Indeterminate) (t : Nat)
    (hd : (detected (inp t).1 (inp t).2 (ISRrun inp t)).flag = 1) :
    1 ≤ (detected (inp t).1 (inp t).2 (ISRrun inp t)).counter_SA ∧
    (detected (inp t).1 (inp t).2 (ISRrun inp t)).counter_SA ≤ 144 ∧
    (detected (inp t).1 (inp t).2 (ISRrun inp t)).counter_out =
      (detected (inp t).1 (inp t).2 (ISRrun inp t)).counter_SA + 55 ∧
    56 ≤ (detected (inp t).1 (inp t).2 (ISRrun inp t)).counter_out ∧
    (detected (inp t).1 (inp t).2 (ISRrun inp t)).counter_out ≤ 199 ∧
    (detected (inp t).1 (inp t).2 (ISRrun inp t)).counter_out ≠ 0 ∧
    (detected (inp t).1 (inp t).2 (ISRrun inp t)).counter_out.toNat < 200 ∧
    (detected (inp t).1 (inp t).2 (ISRrun inp t)).counter_SA.toNat < 200 ∧
    (∀ i : Nat, 144 < i → i ≤ 199 → i < 200 ∧ i - 145 < 55) := by
  have c := detected_counters _ _ _ (AvgInv_run inp t) (OutInv_run inp t) hd
  rw [(detected_frame _ _ _).1]
  refine ⟨c.1, c.2.1, c.2.2, ?_, ?_, ?_, ?_, ?_, ?_⟩ <;> omega

/-- Witness for C19: the first tick of the full-scale run, an onset. -/
theorem averager_indices_in_bounds_witness :
    (detected (fullScale 0).1 (fullScale 0).2 (ISRrun fullScale 0)).flag = 1 ∧
    (detected (fullScale 0).1 (fullScale 0).2 (ISRrun fullScale 0)).counter_out =
      (detected (fullScale 0).1 (fullScale 0).2 (ISRrun fullScale 0)).counter_SA + 55 ∧
    (detected (fullScale 0).1 (fullScale 0).2 (ISRrun fullScale 0)).counter_out ≠ 0 :=
  have h := averager_indices_in_bounds fullScale 0 fullScale_onset
  ⟨fullScale_onset, h.2.2.1, h.2.2.2.2.2.1⟩

/-- C15. The live output serves only stabilised data: in every run from the initial state,
on a tick on which the inside-beat branch runs the value published on `Aout3` is
`SAbuf[r]/32`, with `SAbuf` as it stood before the tick and `r` the read counter the branch
sees (before its decrement); the value published by a tick is the same whatever `Tempbuf`
holds; and as long as no earlier tick has promoted, `SAbuf` is all zero and the published
value is 0. -/
theorem live_output_serves_stable_buffer (inp : Nat → Int × Indeterminate) (t : Nat) :
    ((detected (inp t).1 (inp t).2 (ISRrun inp t)).flag = 1 →
      (ISRrun inp (t + 1)).Aout3 =
        (ISRrun inp t).SAbuf.rd
          (detected (inp t).1 (inp t).2 (ISRrun inp t)).counter_out.toNat / 32) ∧
    (∀ T : Arr 200, (ISRfxn (inp t).1 (inp t).2 { ISRrun inp t with Tempbuf := T }).Aout3 =
      (ISRrun inp (t + 1)).Aout3) ∧
    (promotions inp t = 0 →
      (ISRrun inp t).SAbuf = Arr.zero 200 ∧ (ISRrun inp (t + 1)).Aout3 = 0) := by
  refine ⟨?_, fun T => Aout3_independent_of_Tempbuf _ _ _ T, ?_⟩
  · intro hd
    have c := detected_counters _ _ _ (AvgInv_run inp t) (OutInv_run inp t) hd
    show (ISRfxn (inp t).1 (inp t).2 (ISRrun inp t)).Aout3 = _
    rw [ISRfxn_Aout3, if_pos hd]
    unfold Arr.rdI
    rw [if_pos (by omega)]
  · intro h
    have p := before_first_promotion inp t h
    exact ⟨p.1, p.2.2⟩

/-! ## The end of the inside-beat state -/

/-- The epoch counter after the last tick of an epoch: one more, or 0 after a promotion. -/
theorem epoch_last_count (inp : Nat → Int × Indeterminate) (t0 : Nat)
    (h0 : (ISRrun inp t0).flag = 0)
    (h1 : (detected (inp t0).1 (inp t0).2 (ISRrun inp t0)).flag = 1) :
    (ISRrun inp (t0 + 144)).c_epochs =
      if (ISRrun inp t0).c_epochs = 31 then 0 else (ISRrun inp t0).c_epochs + 1 := by
  have p := epoch_ticks inp t0 h0 h1 143 (by omega)
  have inv := AvgInv_run inp (t0 + 143)
  have hc : (ISRrun inp (t0 + 143)).counter_SA - 1 ≤ 0 := by rw [p.1]; decide
  have e : ISRrun inp (t0 + 144) =
      ISRfxn (inp (t0 + 143)).1 (inp (t0 + 143)).2 (ISRrun inp (t0 + 143)) := rfl
  rw [e, ← p.2.2]
  by_cases he : (ISRrun inp (t0 + 143)).c_epochs < 31
  · have a := ISRfxn_end _ _ _ p.2.1 hc he
    rw [a.2.2.1, if_neg (by omega)]
  · have a := ISRfxn_promote _ _ _ p.2.1 hc (by omega)
    have h31 : (ISRrun inp (t0 + 143)).c_epochs = 31 := by
      have := inv.2.2.1
      omega
    rw [a.2.2.1, if_pos h31]

/-- C14. The inside-beat state ends only on the write countdown: the finalize branch of the
peak detector never changes the flag; in every run from the initial state, a tick entered
with the flag at 1 runs the averager's inside-beat branch, and leaves the flag at 0 exactly
when its write countdown reaches 0 (otherwise at 1); and a beat epoch with onset at tick
`t0` consists of the 144 consecutive ticks `t0 .. t0+143`, on each of which the inside-beat
branch runs, whatever the input; the flag is 1 after each of the first 143 and 0 after the
last, when the write countdown is back at 144 and the epoch counter has advanced by one, or
wrapped to 0 on promotion. -/
theorem flag_ends_only_on_countdown (inp : Nat → Int × Indeterminate) :
    (∀ s : ISR, (pdFinalize s).flag = s.flag) ∧
    (∀ t, (ISRrun inp t).flag = 1 →
      (detected (inp t).1 (inp t).2 (ISRrun inp t)).flag = 1 ∧
      ((ISRrun inp (t + 1)).flag = 0 ↔ (ISRrun inp t).counter_SA - 1 ≤ 0) ∧
      ((ISRrun inp (t + 1)).flag = 1 ↔ ¬ (ISRrun inp t).counter_SA - 1 ≤ 0)) ∧
    (∀ t0, (ISRrun inp t0).flag = 0 →
      (detected (inp t0).1 (inp t0).2 (ISRrun inp t0)).flag = 1 →
      (∀ j, j < 144 →
        (detected (inp (t0 + j)).1 (inp (t0 + j)).2 (ISRrun inp (t0 + j))).flag = 1) ∧
      (∀ j, j < 143 → (ISRrun inp (t0 + j + 1)).flag = 1) ∧
      (ISRrun inp (t0 + 144)).flag = 0 ∧ (ISRrun inp (t0 + 144)).counter_SA = 144 ∧
      (ISRrun inp (t0 + 144)).c_epochs =
        if (ISRrun inp t0).c_epochs = 31 then 0 else (ISRrun inp t0).c_epochs + 1) := by
  refine ⟨fun s => (pdFinalize_frame s).2.1, ?_, ?_⟩
  · intro t h
    have hd := detected_flag_of_flag (inp t).1 (inp t).2 (ISRrun inp t) h
    have inv := AvgInv_run inp t
    have e : ISRrun inp (t + 1) = ISRfxn (inp t).1 (inp t).2 (ISRrun inp t) := rfl
    refine ⟨hd, ?_⟩
    rw [e]
    by_cases hc : (ISRrun inp t).counter_SA - 1 ≤ 0
    · have hf : (ISRfxn (inp t).1 (inp t).2 (ISRrun inp t)).flag = 0 := by
        by_cases he : (ISRrun inp t).c_epochs < 31
        · exact (ISRfxn_end _ _ _ hd hc he).1
        · exact (ISRfxn_promote _ _ _ hd hc (by omega)).1
      rw [hf]
      exact ⟨⟨fun _ => hc, fun _ => rfl⟩, ⟨fun x => absurd x (by decide), fun x => absurd hc x⟩⟩
    · have hf := (ISRfxn_beat _ _ _ hd hc).1
      rw [hf]
      exact ⟨⟨fun x => absurd x (by decide), fun x => absurd x hc⟩, ⟨fun _ => hc, fun _ => rfl⟩⟩
  · intro t0 h0 h1
    exact ⟨fun j hj => (epoch_ticks inp t0 h0 h1 j hj).2.1,
      fun j hj => (epoch_inside inp t0 h0 h1 j hj).1,
      (epoch_last inp t0 h0 h1).1, (epoch_last inp t0 h0 h1).2.1, epoch_last_count inp t0 h0 h1⟩

/-- Witness for C14: the full-scale run, whose first tick is an onset. -/
theorem flag_ends_only_on_countdown_witness :
    (ISRrun fullScale 0).flag = 0 ∧
    (detected (fullScale 0).1 (fullScale 0).2 (ISRrun fullScale 0)).flag = 1 ∧
    (ISRrun fullScale (0 + 0 + 1)).flag = 1 ∧
    (ISRrun fullScale (0 + 144)).flag = 0 ∧ (ISRrun fullScale (0 + 144)).counter_SA = 144 ∧
    (ISRrun fullScale (0 + 144)).c_epochs = 1 ∧
    ((ISRrun fullScale (0 + 0 + 1 + 1)).flag = 1 ↔
      ¬ (ISRrun fullScale (0 + 0 + 1)).counter_SA - 1 ≤ 0) :=
  have h := (flag_ends_only_on_countdown fullScale).2.2 0 rfl fullScale_onset
  have f1 := h.2.1 0 (by decide)
  ⟨rfl, fullScale_onset, f1, h.2.2.1, h.2.2.2.1, h.2.2.2.2,
    ((flag_ends_only_on_countdown fullScale).2.1 (0 + 0 + 1) f1).2.2⟩

/-! ## Filter buffers after the shift -/

theorem past_zero (v : Nat → ℚ) (t : Nat) : past v t 0 = v t := by
  unfold past
  rw [if_pos (Nat.zero_le t)]
  rfl

theorem past_succ (v : Nat → ℚ) (t i : Nat) (h : 1 ≤ i) : past v (t + 1) i = past v t (i - 1) := by
  unfold past
  by_cases hle : i ≤ t + 1
  · rw [if_pos hle, if_pos (by omega)]
    congr 1
    omega
  · rw [if_neg hle, if_neg (by omega)]

/-- After the store at index 0 and before the shift, a buffer holds at every index `i` the
value of `i` ticks earlier. -/
theorem history_at_use {n : Nat} (B : Nat → Arr (n + 1)) (v : Nat → ℚ)
    (h0 : B 0 = Arr.zero (n + 1)) (hs : ∀ t, B (t + 1) = shifted ((B t).wr 0 (v t)))
    (t i : Nat) (hi : i < n + 1) : ((B t).wr 0 (v t)).rd i = past v t i := by
  cases i with
  | zero => rw [wr0_rd0, past_zero]
  | succ i => rw [wr0_rd_succ, history B v h0 hs t (i + 1) (by omega) hi]

/-- After the shift, a buffer holds the newest value at index 0 and again at index 1, and
at every index `i ≥ 1` the value of `i - 1` ticks earlier. -/
theorem history_after_shift {n : Nat} (B : Nat → Arr (n + 1)) (v : Nat → ℚ)
    (h0 : B 0 = Arr.zero (n + 1)) (hs : ∀ t, B (t + 1) = shifted ((B t).wr 0 (v t)))
    (t : Nat) :
    (B (t + 1)).rd 0 = v t ∧
    ∀ i, 1 ≤ i → i < n + 1 → (B (t + 1)).rd i = past v t (i - 1) := by
  constructor
  · rw [hs, shifted_wr_rd0]
  · intro i h1 h2
    rw [history B v h0 hs (t + 1) i h1 h2, past_succ v t i h1]

theorem coreOf_LX (s : ISR) : (coreOf s).LX = s.LPF_Xbuf := rfl

theorem LPF_Xbuf_step (inp : Nat → Int × Indeterminate) (t : Nat) :
    (ISRrun inp (t + 1)).LPF_Xbuf = shifted ((ISRrun inp t).LPF_Xbuf.wr 0 (centred inp t)) := by
  rw [← coreOf_LX (ISRrun inp (t + 1)), ← coreOf_LX (ISRrun inp t), coreOf_ISRrun, coreOf_ISRrun]
  rfl

theorem LPF_Ybuf_step (inp : Nat → Int × Indeterminate) (t : Nat) :
    (ISRrun inp (t + 1)).LPF_Ybuf = shifted ((ISRrun inp t).LPF_Ybuf.wr 0 (lpfOut inp t)) := by
  rw [← coreOf_LY (ISRrun inp (t + 1)), ← coreOf_LY (ISRrun inp t), coreOf_ISRrun, coreOf_ISRrun, lpfOut_eq]
  rfl

theorem coreOf_HX (s : ISR) : (coreOf s).HX = s.HPF_Xbuf := rfl

theorem HPF_Xbuf_step (inp : Nat → Int × Indeterminate) (t : Nat) :
    (ISRrun inp (t + 1)).HPF_Xbuf = shifted ((ISRrun inp t).HPF_Xbuf.wr 0 (lpfOut inp t)) := by
  rw [← coreOf_HX (ISRrun inp (t + 1)), ← coreOf_HX (ISRrun inp t), coreOf_ISRrun, coreOf_ISRrun, lpfOut_eq]
  rfl

theorem HPF_Ybuf_step (inp : Nat → Int × Indeterminate) (t : Nat) :
    (ISRrun inp (t + 1)).HPF_Ybuf = shifted ((ISRrun inp t).HPF_Ybuf.wr 0 (hpfOut inp t)) := by
  rw [← coreOf_HY (ISRrun inp (t + 1)), ← coreOf_HY (ISRrun inp t), coreOf_ISRrun, coreOf_ISRrun, hpfOut_eq]
  rfl

theorem coreOf_DX (s : ISR) : (coreOf s).DX = s.deriv_Xbuf := rfl

theorem deriv_Xbuf_step (inp : Nat → Int × Indeterminate) (t : Nat) :
    (ISRrun inp (t + 1)).deriv_Xbuf = shifted ((ISRrun inp t).deriv_Xbuf.wr 0 (hpfOut inp t)) := by
  rw [← coreOf_DX (ISRrun inp (t + 1)), ← coreOf_DX (ISRrun inp t), coreOf_ISRrun, coreOf_ISRrun, hpfOut_eq]
  rfl

theorem centred_cycle4 (t : Nat) :
    centred cycle4 t = if t % 4 = 0 then 1/4 else if t % 4 = 2 then -1/4 else 0 := by
  unfold centred cycle4
  split
  · norm_num
  · split <;> norm_num

/-- C13 as stated fails. In the cycle run (centred inputs 1/4, 0, -1/4, 0, ...) the low-pass
input buffer at the end of tick 1 holds at index 1 the input of tick 1 itself (0), not the
input of one tick earlier (1/4), and at index 12 the input of 11 ticks earlier; counted from
the tick that follows, index 0 does not hold that tick's input (-1/4) either. The newest
input sits at both index 0 and index 1. -/
theorem shifted_buffer_duplicates_newest :
    (ISRrun cycle4 2).LPF_Xbuf.rd 0 = centred cycle4 1 ∧
    (ISRrun cycle4 2).LPF_Xbuf.rd 1 = centred cycle4 1 ∧
    (ISRrun cycle4 2).LPF_Xbuf.rd 1 = 0 ∧ past (centred cycle4) 1 1 = 1/4 ∧
    (ISRrun cycle4 2).LPF_Xbuf.rd 1 ≠ past (centred cycle4) 1 1 ∧
    (ISRrun cycle4 2).LPF_Xbuf.rd 0 ≠ past (centred cycle4) 2 0 := by
  have a := history_after_shift (fun t => (ISRrun cycle4 t).LPF_Xbuf) (centred cycle4) rfl
    (LPF_Xbuf_step cycle4) 1
  have a1 := a.2 1 (by decide) (by decide)
  have a0 := a.1
  simp only [past_zero, Nat.sub_self] at a1
  have c1 : centred cycle4 1 = 0 := by rw [centred_cycle4]; norm_num
  have c0 : past (centred cycle4) 1 1 = 1/4 := by
    unfold past
    rw [if_pos (le_refl 1), centred_cycle4]
    norm_num
  have c2 : past (centred cycle4) 2 0 = -1/4 := by
    rw [past_zero, centred_cycle4]
    norm_num
  refine ⟨a0, a1, a1.trans c1, c0, ?_, ?_⟩
  · rw [a1, c1, c0]; norm_num
  · rw [a0, c1, c2]; norm_num

/-- C13, amended. In every run from the initial state, at the end of every tick `t` (after
the shift) each filter buffer of length N holds the value its stage stored on tick `t` at
index 0 and again at index 1, and at every index `i` with `1 ≤ i < N` the value stored
`i - 1` ticks before `t` (0 before tick 0): the last N-1 values, the oldest at index N-1.
The values are the centred samples for `LPF_Xbuf` (N = 13), the low-pass outputs for
`LPF_Ybuf` (N = 3) and `HPF_Xbuf` (N = 33), the high-pass outputs for `HPF_Ybuf` (N = 2) and
`deriv_Xbuf` (N = 5). The buffer holds the last N values, entry `i` that of `i` ticks
earlier for every `0 ≤ i < N`, at the point where the stage uses it: after the store at index
0 and before the shift. -/
theorem filter_buffers_history (inp : Nat → Int × Indeterminate) (t : Nat) :
    ((ISRrun inp (t + 1)).LPF_Xbuf.rd 0 = centred inp t ∧
      (∀ i, 1 ≤ i → i < 13 → (ISRrun inp (t + 1)).LPF_Xbuf.rd i = past (centred inp) t (i - 1)) ∧
      (∀ i, i < 13 →
        ((ISRrun inp t).LPF_Xbuf.wr 0 (centred inp t)).rd i = past (centred inp) t i)) ∧
    ((ISRrun inp (t + 1)).LPF_Ybuf.rd 0 = lpfOut inp t ∧
      (∀ i, 1 ≤ i → i < 3 → (ISRrun inp (t + 1)).LPF_Ybuf.rd i = past (lpfOut inp) t (i - 1)) ∧
      (∀ i, i < 3 →
        ((ISRrun inp t).LPF_Ybuf.wr 0 (lpfOut inp t)).rd i = past (lpfOut inp) t i)) ∧
    ((ISRrun inp (t + 1)).HPF_Xbuf.rd 0 = lpfOut inp t ∧
      (∀ i, 1 ≤ i → i < 33 → (ISRrun inp (t + 1)).HPF_Xbuf.rd i = past (lpfOut inp) t (i - 1)) ∧
      (∀ i, i < 33 →
        ((ISRrun inp t).HPF_Xbuf.wr 0 (lpfOut inp t)).rd i = past (lpfOut inp) t i)) ∧
    ((ISRrun inp (t + 1)).HPF_Ybuf.rd 0 = hpfOut inp t ∧
      (∀ i, 1 ≤ i → i < 2 → (ISRrun inp (t + 1)).HPF_Ybuf.rd i = past (hpfOut inp) t (i - 1)) ∧
      (∀ i, i < 2 →
        ((ISRrun inp t).HPF_Ybuf.wr 0 (hpfOut inp t)).rd i = past (hpfOut inp) t i)) ∧
    ((ISRrun inp (t + 1)).deriv_Xbuf.rd 0 = hpfOut inp t ∧
      (∀ i, 1 ≤ i → i < 5 → (ISRrun inp (t + 1)).deriv_Xbuf.rd i = past (hpfOut inp) t (i - 1)) ∧
      (∀ i, i < 5 →
        ((ISRrun inp t).deriv_Xbuf.wr 0 (hpfOut inp t)).rd i = past (hpfOut inp) t i)) := by
  have a1 := history_after_shift (fun t => (ISRrun inp t).LPF_Xbuf) (centred inp) rfl
    (LPF_Xbuf_step inp) t
  have b1 := history_at_use (fun t => (ISRrun inp t).LPF_Xbuf) (centred inp) rfl
    (LPF_Xbuf_step inp) t
  have a2 := history_after_shift (fun t => (ISRrun inp t).LPF_Ybuf) (lpfOut inp) rfl
    (LPF_Ybuf_step inp) t
  have b2 := history_at_use (fun t => (ISRrun inp t).LPF_Ybuf) (lpfOut inp) rfl
    (LPF_Ybuf_step inp) t
  have a3 := history_after_shift (fun t => (ISRrun inp t).HPF_Xbuf) (lpfOut inp) rfl
    (HPF_Xbuf_step inp) t
  have b3 := history_at_use (fun t => (ISRrun inp t).HPF_Xbuf) (lpfOut inp) rfl
    (HPF_Xbuf_step inp) t
  have a4 := history_after_shift (fun t => (ISRrun inp t).HPF_Ybuf) (hpfOut inp) rfl
    (HPF_Ybuf_step inp) t
  have b4 := history_at_use (fun t => (ISRrun inp t).HPF_Ybuf) (hpfOut inp) rfl
    (HPF_Ybuf_step inp) t
  have a5 := history_after_shift (fun t => (ISRrun inp t).deriv_Xbuf) (hpfOut inp) rfl
    (deriv_Xbuf_step inp) t
  have b5 := history_at_use (fun t => (ISRrun inp t).deriv_Xbuf) (hpfOut inp) rfl
    (deriv_Xbuf_step inp) t
  exact ⟨⟨a1.1, a1.2, b1⟩, ⟨a2.1, a2.2, b2⟩, ⟨a3.1, a3.2, b3⟩, ⟨a4.1, a4.2, b4⟩,
    ⟨a5.1, a5.2, b5⟩⟩

/-- Witness for the amended C13: the low-pass input buffer at the end of tick 1 of the cycle
run. -/
theorem filter_buffers_history_witness :
    (ISRrun cycle4 (1 + 1)).LPF_Xbuf.rd 2 = past (centred cycle4) 1 (2 - 1) ∧
    ((ISRrun cycle4 1).LPF_Xbuf.wr 0 (centred cycle4 1)).rd 1 = past (centred cycle4) 1 1 :=
  ⟨(filter_buffers_history cycle4 1).1.2.1 2 (by decide) (by decide),
    (filter_buffers_history cycle4 1).1.2.2 1 (by decide)⟩

/-! ## The delay line and the template of one epoch -/

set_option maxRecDepth 8000 in
/-- The averager stores the raw sample at the front of the delay line and shifts it, on
every tick. -/
theorem signalAverager_GDbuf (f : ℚ) (s : ISR) :
    (signalAverager f s).GDbuf = shiftBuf 55 (s.GDbuf.wr 0 f) := by
  unfold signalAverager epochEnd
  simp only []
  split_ifs <;> rfl

theorem GDbuf_step (inp : Nat → Int × Indeterminate) (t : Nat) :
    (ISRrun inp (t + 1)).GDbuf = shifted ((ISRrun inp t).GDbuf.wr 0 (rawAt inp t)) := by
  show (ISRfxn (inp t).1 (inp t).2 (ISRrun inp t)).GDbuf = _
  rw [ISRfxn_eq, signalAverager_GDbuf, (detected_frame _ _ _).2.2.2.2.1, shiftBuf_eq_shifted]
  rfl

/-- The delay line as the catch-up loop reads it on tick `t`: entry `i` is the raw sample
of `i` ticks earlier. -/
theorem GDbuf_at_use (inp : Nat → Int × Indeterminate) (t i : Nat) (hi : i < 55) :
    ((ISRrun inp t).GDbuf.wr 0 (rawAt inp t)).rd i = past (rawAt inp) t i :=
  history_at_use (fun t => (ISRrun inp t).GDbuf) (rawAt inp) rfl (GDbuf_step inp) t i hi

/-- Among the entries 145..199, a tick's additions are those of the catch-up loop, which
runs when the countdown stands at 144. -/
theorem tempAfterWrites_high (num : Int) (s : ISR) (c : Nat) (hc : s.counter_SA = c)
    (hc2 : c ≤ 144) (p : Nat) (hp1 : 145 ≤ p) (hp2 : p ≤ 199) :
    (tempAfterWrites num s).rd p =
      s.Tempbuf.rd p +
        (if c = 144 then (s.GDbuf.wr 0 ((num : ℚ) / 2048)).rd (p - 145) else 0) := by
  unfold tempAfterWrites
  have hpc : ¬ p = c := by omega
  rw [hc, tempWrites_rd _ c hc2, if_neg hpc, add_zero]
  by_cases h : c = 144
  · have hl : 144 ≤ c ∧ 145 ≤ p ∧ p ≤ 199 := ⟨by omega, hp1, hp2⟩
    rw [if_pos hl, if_pos h]
  · have hl : ¬ (144 ≤ c ∧ 145 ≤ p ∧ p ≤ 199) := by omega
    rw [if_neg hl, if_neg h, add_zero]

/-- What the catch-up loop has left in the entries 145..199 from the second tick of an
epoch on. -/
theorem epoch_caught_up (inp : Nat → Int × Indeterminate) (t0 : Nat)
    (h0 : (ISRrun inp t0).flag = 0)
    (h1 : (detected (inp t0).1 (inp t0).2 (ISRrun inp t0)).flag = 1) (j : Nat) (hj : j < 143)
    (p : Nat) (hp1 : 145 ≤ p) (hp2 : p ≤ 199) :
    (ISRrun inp (t0 + j + 1)).Tempbuf.rd p =
      (ISRrun inp t0).Tempbuf.rd p + past (rawAt inp) t0 (p - 145) := by
  induction j with
  | zero =>
    have a := epoch_inside inp t0 h0 h1 0 (by omega)
    have q := epoch_ticks inp t0 h0 h1 0 (by omega)
    have hc : (ISRrun inp (t0 + 0)).counter_SA = ((144 : Nat) : Int) := by
      rw [q.1]; rfl
    rw [a.2, tempAfterWrites_high _ _ 144 hc (le_refl 144) p hp1 hp2, if_pos rfl]
    have g := GDbuf_at_use inp (t0 + 0) (p - 145) (by omega)
    unfold rawAt at g
    rw [g]
    rfl
  | succ j ih =>
    have a := epoch_inside inp t0 h0 h1 (j + 1) hj
    have q := epoch_ticks inp t0 h0 h1 (j + 1) (by omega)
    have hc : (ISRrun inp (t0 + (j + 1))).counter_SA = ((144 - (j + 1) : Nat) : Int) := by
      rw [q.1]; omega
    rw [show t0 + (j + 1) + 1 = t0 + (j + 1) + 1 from rfl, a.2,
      tempAfterWrites_high _ _ (144 - (j + 1)) hc (by omega) p hp1 hp2, if_neg (by omega),
      add_zero]
    exact ih (by omega)

/-- The accumulator after the last additions of a beat epoch with onset at tick `t0`:
every position holds what it held at the onset plus the contribution of the epoch. -/
theorem epoch_template (inp : Nat → Int × Indeterminate) (t0 : Nat)
    (h0 : (ISRrun inp t0).flag = 0)
    (h1 : (detected (inp t0).1 (inp t0).2 (ISRrun inp t0)).flag = 1) (p : Nat) :
    (tempAfterWrites (inp (t0 + 143)).1 (ISRrun inp (t0 + 143))).rd p =
      (ISRrun inp t0).Tempbuf.rd p + epochContribution inp t0 p := by
  have q := epoch_ticks inp t0 h0 h1 143 (by omega)
  have hc : (ISRrun inp (t0 + 143)).counter_SA = ((1 : Nat) : Int) := by
    rw [q.1]; rfl
  unfold epochContribution
  by_cases hp : p ≤ 144
  · rw [tempAfterWrites_low _ _ 1 hc (by omega) p hp,
      epoch_accumulated inp t0 h0 h1 143 (le_refl 143) p hp]
    by_cases e0 : p = 0
    · subst e0
      rw [if_neg (by omega), if_neg (by omega), if_neg (by omega), if_neg (by omega)]
      ring
    · by_cases e1 : p = 1
      · subst e1
        rw [if_neg (by omega), if_pos rfl, if_pos (by omega)]
        unfold rawAt
        ring
      · rw [if_pos (by omega), if_neg e1, if_pos (by omega)]
        unfold rawAt
        ring
  · by_cases hp2 : p ≤ 199
    · rw [tempAfterWrites_high _ _ 1 hc (by omega) p (by omega) hp2, if_neg (by omega),
        add_zero, if_neg (by omega), if_pos ⟨by omega, hp2⟩]
      exact epoch_caught_up inp t0 h0 h1 142 (by omega) p (by omega) hp2
    · rw [if_neg (by omega), if_neg (by omega), add_zero,
        Arr.rd_of_le _ p (by omega), Arr.rd_of_le _ p (by omega)]

theorem rawAt_cycle4 (t : Nat) :
    rawAt cycle4 t = if t % 4 = 0 then 3/4 else if t % 4 = 2 then 1/4 else 1/2 := by
  unfold rawAt cycle4
  split
  · norm_num
  · split <;> norm_num

/-- Tick 4608 of the cycle run is the onset of a beat epoch into an empty accumulator. -/
theorem cycle4_onset_4608 :
    (ISRrun cycle4 4608).flag = 0 ∧
    (detected (cycle4 4608).1 (cycle4 4608).2 (ISRrun cycle4 4608)).flag = 1 ∧
    (ISRrun cycle4 4608).Tempbuf = Arr.zero 200 ∧ (ISRrun cycle4 4608).c_epochs = 0 := by
  have s := cycle4_state 4608
  have s7 := cycle4_state 4607
  have hc : completesEpoch (cycle4 4607).1 (cycle4 4607).2 (ISRrun cycle4 4607) := by
    refine ⟨s7.2.2.2, ?_⟩
    rw [s7.2.1]
    decide
  have he : (ISRrun cycle4 4607).c_epochs = 31 := by
    rw [s7.2.2.1]
    decide
  have p := promotion_effect cycle4 4607 hc he
  exact ⟨s.1.trans (if_pos (by decide)), s.2.2.2, p.2.1, p.2.2⟩

/-- C12 as stated fails. In the cycle run (raw samples 3/4, 1/2, 1/4, 1/2, ...) the beat
epoch with onset at tick 4608 starts from a zero accumulator. Once it is complete, the
template position 0 (index 199) holds 1/4, the raw sample of tick 4554 = 4608 - 54, while the
raw sample of tick 4553 = 4608 + 0 - 55 is 1/2; and the template position 199 (index 0)
holds 0, while the raw sample of tick 4752 = 4608 + 199 - 55 is 3/4. -/
theorem template_start_is_54_ticks_back :
    (ISRrun cycle4 4608).flag = 0 ∧
    (detected (cycle4 4608).1 (cycle4 4608).2 (ISRrun cycle4 4608)).flag = 1 ∧
    (ISRrun cycle4 4608).Tempbuf = Arr.zero 200 ∧
    (tempAfterWrites (cycle4 (4608 + 143)).1 (ISRrun cycle4 (4608 + 143))).rd (199 - 0) = 1/4 ∧
    rawAt cycle4 4554 = 1/4 ∧ rawAt cycle4 4553 = 1/2 ∧
    (tempAfterWrites (cycle4 (4608 + 143)).1 (ISRrun cycle4 (4608 + 143))).rd (199 - 199) = 0 ∧
    rawAt cycle4 4752 = 3/4 := by
  have o := cycle4_onset_4608
  have e := epoch_template cycle4 4608 o.1 o.2.1
  have r4 : rawAt cycle4 4554 = 1/4 := by rw [rawAt_cycle4]; norm_num
  have r3 : rawAt cycle4 4553 = 1/2 := by rw [rawAt_cycle4]; norm_num
  have r2 : rawAt cycle4 4752 = 3/4 := by rw [rawAt_cycle4]; norm_num
  refine ⟨o.1, o.2.1, o.2.2.1, ?_, r4, r3, ?_, r2⟩
  · rw [e, o.2.2.1, Arr.rd_zero, zero_add]
    unfold epochContribution past
    norm_num
    exact r4
  · rw [e, o.2.2.1, Arr.rd_zero, zero_add]
    unfold epochContribution
    norm_num

/-- C12, amended. After one complete beat epoch with onset at tick `t0` into a zero temp
accumulator, the template is the raw signal shifted back by 55 ticks only on the positions
55..198: the template position `k` (index `199 - k`) holds the raw sample of tick
`t0 + k - 55` for `55 ≤ k ≤ 198`; for `k ≤ 54` it holds the raw sample of `54 - k` ticks before
the onset, that is of tick `t0 + k - 54` (0 if the run had not started), so that the onset
sample is held by both positions 54 and 55; position 199 (index 0) is never written and
holds 0. The template is the accumulator as the last tick `t0 + 143` of the epoch leaves its
additions; it is what `Tempbuf` holds after that tick, or `SAbuf` if the epoch promotes. -/
theorem template_alignment (inp : Nat → Int × Indeterminate) (t0 : Nat)
    (h0 : (ISRrun inp t0).flag = 0)
    (h1 : (detected (inp t0).1 (inp t0).2 (ISRrun inp t0)).flag = 1)
    (hz : (ISRrun inp t0).Tempbuf = Arr.zero 200) :
    (∀ k, 55 ≤ k → k ≤ 198 →
      (tempAfterWrites (inp (t0 + 143)).1 (ISRrun inp (t0 + 143))).rd (199 - k) =
        rawAt inp (t0 + (k - 55))) ∧
    (∀ k, k ≤ 54 →
      (tempAfterWrites (inp (t0 + 143)).1 (ISRrun inp (t0 + 143))).rd (199 - k) =
        past (rawAt inp) t0 (54 - k)) ∧
    (tempAfterWrites (inp (t0 + 143)).1 (ISRrun inp (t0 + 143))).rd (199 - 199) = 0 ∧
    ((ISRrun inp t0).c_epochs < 31 →
      (ISRrun inp (t0 + 144)).Tempbuf =
        tempAfterWrites (inp (t0 + 143)).1 (ISRrun inp (t0 + 143))) ∧
    ((ISRrun inp t0).c_epochs = 31 →
      (ISRrun inp (t0 + 144)).SAbuf =
        tempAfterWrites (inp (t0 + 143)).1 (ISRrun inp (t0 + 143))) := by
  have e := epoch_template inp t0 h0 h1
  have q := epoch_ticks inp t0 h0 h1 143 (by omega)
  have l := epoch_last inp t0 h0 h1
  refine ⟨?_, ?_, ?_, ?_, ?_⟩
  · intro k k1 k2
    have c1 : 1 ≤ 199 - k ∧ 199 - k ≤ 144 := by omega
    rw [e, hz, Arr.rd_zero, zero_add]
    unfold epochContribution
    have c3 : t0 + (144 - (199 - k)) = t0 + (k - 55) := by omega
    rw [if_pos c1, c3]
  · intro k k1
    have c1 : ¬ (1 ≤ 199 - k ∧ 199 - k ≤ 144) := by omega
    have c2 : 145 ≤ 199 - k ∧ 199 - k ≤ 199 := by omega
    rw [e, hz, Arr.rd_zero, zero_add]
    unfold epochContribution
    have c3 : 199 - k - 145 = 54 - k := by omega
    rw [if_neg c1, if_pos c2, c3]
  · rw [e, hz, Arr.rd_zero, zero_add]
    unfold epochContribution
    norm_num
  · intro he
    have a := ISRfxn_end _ _ _ l.2.2.1 l.2.2.2 (by rw [q.2.2]; exact he)
    exact a.2.2.2.1
  · intro he
    exact (promotion_effect inp (t0 + 143) l.2.2 (by rw [q.2.2]; exact he)).1

/-- Witness for the amended C12: the epoch of the cycle run with onset at tick 4608. -/
theorem template_alignment_witness :
    (ISRrun cycle4 4608).flag = 0 ∧
    (detected (cycle4 4608).1 (cycle4 4608).2 (ISRrun cycle4 4608)).flag = 1 ∧
    (ISRrun cycle4 4608).Tempbuf = Arr.zero 200 ∧
    (tempAfterWrites (cycle4 (4608 + 143)).1 (ISRrun cycle4 (4608 + 143))).rd (199 - 55) =
      rawAt cycle4 (4608 + (55 - 55)) ∧
    (tempAfterWrites (cycle4 (4608 + 143)).1 (ISRrun cycle4 (4608 + 143))).rd (199 - 54) =
      past (rawAt cycle4) 4608 (54 - 54) ∧
    (ISRrun cycle4 (4608 + 144)).Tempbuf =
      tempAfterWrites (cycle4 (4608 + 143)).1 (ISRrun cycle4 (4608 + 143)) :=
  have h := template_alignment cycle4 4608 cycle4_onset_4608.1 cycle4_onset_4608.2.1
    cycle4_onset_4608.2.2.1
  ⟨cycle4_onset_4608.1, cycle4_onset_4608.2.1, cycle4_onset_4608.2.2.1,
    h.1 55 (by decide) (by decide), h.2.1 54 (by decide),
    h.2.2.2.1 (by rw [cycle4_onset_4608.2.2.2]; decide)⟩

/-! ## Thirty-two identical epochs -/

/-- A stretch of ticks on none of which the inside-beat branch runs leaves the averager's
globals as they were. -/
theorem idle_stretch (inp : Nat → Int × Indeterminate) (a : Nat)
    (hf : (ISRrun inp a).flag = 0) (d : Nat)
    (hidle : ∀ t, a ≤ t → t < a + d →
      (detected (inp t).1 (inp t).2 (ISRrun inp t)).flag ≠ 1) :
    (ISRrun inp (a + d)).flag = 0 ∧ (ISRrun inp (a + d)).c_epochs = (ISRrun inp a).c_epochs ∧
    (ISRrun inp (a + d)).Tempbuf = (ISRrun inp a).Tempbuf ∧
    (ISRrun inp (a + d)).SAbuf = (ISRrun inp a).SAbuf := by
  induction d with
  | zero => exact ⟨hf, rfl, rfl, rfl⟩
  | succ d ih =>
    have p := ih (fun t h1 h2 => hidle t h1 (by omega))
    have i := ISRfxn_idle _ _ _ (hidle (a + d) (by omega) (by omega))
    have e : ISRrun inp (a + (d + 1)) =
        ISRfxn (inp (a + d)).1 (inp (a + d)).2 (ISRrun inp (a + d)) := rfl
    rw [e]
    exact ⟨i.1.trans p.1, i.2.2.1.trans p.2.1, i.2.2.2.1.trans p.2.2.1,
      i.2.2.2.2.trans p.2.2.2⟩

/-- An epoch whose raw samples follow the waveform `r` contributes `waveformAt r`. -/
theorem epochContribution_of_waveform (inp : Nat → Int × Indeterminate) (t0 : Nat)
    (r : Int → ℚ) (hm : ∀ m, m ≤ 143 → rawAt inp (t0 + m) = r m)
    (hj : ∀ j, j ≤ 54 → past (rawAt inp) t0 j = r (-(j : Int))) (p : Nat) :
    epochContribution inp t0 p = waveformAt r p := by
  unfold epochContribution waveformAt
  by_cases c1 : 1 ≤ p ∧ p ≤ 144
  · have e : ((144 - p : Nat) : Int) = 144 - (p : Int) := by omega
    rw [if_pos c1, if_pos c1, hm (144 - p) (by omega), e]
  · rw [if_neg c1, if_neg c1]
    by_cases c2 : 145 ≤ p ∧ p ≤ 199
    · have e : -((p - 145 : Nat) : Int) = -((p : Int) - 145) := by omega
      rw [if_pos c2, if_pos c2, hj (p - 145) (by omega), e]
    · rw [if_neg c2, if_neg c2]

/-- Before the onset of the `k`-th of a series of consecutive epochs that each see the
waveform `r`, started from an empty accumulator, the accumulator holds `k` times the
waveform and the epoch counter is `k`. -/
theorem epochs_accumulate (inp : Nat → Int × Indeterminate) (ons : Nat → Nat) (r : Int → ℚ)
    (hT : (ISRrun inp (ons 0)).Tempbuf = Arr.zero 200)
    (hE : (ISRrun inp (ons 0)).c_epochs = 0)
    (hon : ∀ k, k < 32 → (ISRrun inp (ons k)).flag = 0 ∧
      (detected (inp (ons k)).1 (inp (ons k)).2 (ISRrun inp (ons k))).flag = 1)
    (hnext : ∀ k, k < 31 → ons k + 144 ≤ ons (k + 1) ∧
      ∀ t, ons k + 144 ≤ t → t < ons (k + 1) →
        (detected (inp t).1 (inp t).2 (ISRrun inp t)).flag ≠ 1)
    (hr : ∀ k, k < 32 → (∀ m, m ≤ 143 → rawAt inp (ons k + m) = r m) ∧
      (∀ j, j ≤ 54 → past (rawAt inp) (ons k) j = r (-(j : Int))))
    (k : Nat) (hk : k < 32) :
    (ISRrun inp (ons k)).c_epochs = (k : Int) ∧
    ∀ p, (ISRrun inp (ons k)).Tempbuf.rd p = (k : ℚ) * waveformAt r p := by
  induction k with
  | zero =>
    refine ⟨hE, fun p => ?_⟩
    rw [hT, Arr.rd_zero]
    simp
  | succ k ih =>
    have p := ih (by omega)
    have o := hon k (by omega)
    have n := hnext k (by omega)
    have w := hr k (by omega)
    have q := epoch_ticks inp (ons k) o.1 o.2 143 (by omega)
    have l := epoch_last inp (ons k) o.1 o.2
    have a := ISRfxn_end _ _ _ l.2.2.1 l.2.2.2 (by rw [q.2.2, p.1]; omega)
    have e : ISRrun inp (ons k + 144) = ISRfxn (inp (ons k + 143)).1 (inp (ons k + 143)).2
      (ISRrun inp (ons k + 143)) := rfl
    obtain ⟨d, hd⟩ : ∃ d, ons (k + 1) = ons k + 144 + d := ⟨ons (k + 1) - (ons k + 144), by omega⟩
    have i := idle_stretch inp (ons k + 144) l.1 d (fun t h1 h2 => n.2 t h1 (by omega))
    rw [hd]
    constructor
    · rw [i.2.1, e, a.2.2.1, q.2.2, p.1]
      push_cast
      ring
    · intro j
      rw [i.2.2.1, e, a.2.2.2.1, epoch_template inp (ons k) o.1 o.2, p.2,
        epochContribution_of_waveform inp (ons k) r w.1 w.2]
      push_cast
      ring

/-- The stable buffer after 32 consecutive epochs that each see the waveform `r`, started
from an empty accumulator with the epoch counter at 0: 32 times the waveform. -/
theorem template_of_identical_epochs (inp : Nat → Int × Indeterminate) (ons : Nat → Nat)
    (r : Int → ℚ)
    (hT : (ISRrun inp (ons 0)).Tempbuf = Arr.zero 200)
    (hE : (ISRrun inp (ons 0)).c_epochs = 0)
    (hon : ∀ k, k < 32 → (ISRrun inp (ons k)).flag = 0 ∧
      (detected (inp (ons k)).1 (inp (ons k)).2 (ISRrun inp (ons k))).flag = 1)
    (hnext : ∀ k, k < 31 → ons k + 144 ≤ ons (k + 1) ∧
      ∀ t, ons k + 144 ≤ t → t < ons (k + 1) →
        (detected (inp t).1 (inp t).2 (ISRrun inp t)).flag ≠ 1)
    (hr : ∀ k, k < 32 → (∀ m, m ≤ 143 → rawAt inp (ons k + m) = r m) ∧
      (∀ j, j ≤ 54 → past (rawAt inp) (ons k) j = r (-(j : Int))))
    (p : Nat) :
    (ISRrun inp (ons 31 + 144)).SAbuf.rd p = 32 * waveformAt r p := by
  have s := epochs_accumulate inp ons r hT hE hon hnext hr 31 (by decide)
  have o := hon 31 (by decide)
  have w := hr 31 (by decide)
  have q := epoch_ticks inp (ons 31) o.1 o.2 143 (by omega)
  have l := epoch_last inp (ons 31) o.1 o.2
  have pe := promotion_effect inp (ons 31 + 143) l.2.2 (by rw [q.2.2, s.1]; rfl)
  rw [show ons 31 + 144 = ons 31 + 143 + 1 from rfl, pe.1, epoch_template inp (ons 31) o.1 o.2,
    s.2, epochContribution_of_waveform inp (ons 31) r w.1 w.2]
  push_cast
  ring

/-- C11. Averaging identical beats reproduces the beat. In a run from the initial state let
`ons 0, ..., ons 31` be the onset ticks of 32 consecutive beat epochs (each an onset: flag 0
before the tick, raised by its detector; no inside-beat tick between the end of one epoch and
the next onset), the first entered with a zero temp accumulator and the epoch counter at 0.
If each epoch sees the same raw waveform `r` relative to its onset (raw sample `r m` at the
tick `m` after the onset for `m` in 0..143, raw sample `r (-j)` at `j` ticks before it for
`j` in 0..54, samples before the start of the run counted as 0), then after the 32nd epoch
completes `SAbuf[145+j]/32 = r (-j)` for every `j` in 0..54 and `SAbuf[144-m]/32 = r m` for
every `m` in 0..143. -/
theorem identical_beats_average (inp : Nat → Int × Indeterminate) (ons : Nat → Nat)
    (r : Int → ℚ)
    (hT : (ISRrun inp (ons 0)).Tempbuf = Arr.zero 200)
    (hE : (ISRrun inp (ons 0)).c_epochs = 0)
    (hon : ∀ k, k < 32 → (ISRrun inp (ons k)).flag = 0 ∧
      (detected (inp (ons k)).1 (inp (ons k)).2 (ISRrun inp (ons k))).flag = 1)
    (hnext : ∀ k, k < 31 → ons k + 144 ≤ ons (k + 1) ∧
      ∀ t, ons k + 144 ≤ t → t < ons (k + 1) →
        (detected (inp t).1 (inp t).2 (ISRrun inp t)).flag ≠ 1)
    (hr : ∀ k, k < 32 → (∀ m, m ≤ 143 → rawAt inp (ons k + m) = r m) ∧
      (∀ j, j ≤ 54 → past (rawAt inp) (ons k) j = r (-(j : Int)))) :
    (∀ j, j ≤ 54 → (ISRrun inp (ons 31 + 144)).SAbuf.rd (145 + j) / 32 = r (-(j : Int))) ∧
    (∀ m, m ≤ 143 → (ISRrun inp (ons 31 + 144)).SAbuf.rd (144 - m) / 32 = r m) := by
  have s := template_of_identical_epochs inp ons r hT hE hon hnext hr
  constructor
  · intro j hj
    have c1 : ¬ (1 ≤ 145 + j ∧ 145 + j ≤ 144) := by omega
    have c2 : 145 ≤ 145 + j ∧ 145 + j ≤ 199 := by omega
    have e : -(((145 + j : Nat) : Int) - 145) = -(j : Int) := by omega
    rw [s]
    unfold waveformAt
    rw [if_neg c1, if_pos c2, e]
    ring
  · intro m hm
    have c1 : 1 ≤ 144 - m ∧ 144 - m ≤ 144 := by omega
    have e : (144 : Int) - ((144 - m : Nat) : Int) = (m : Int) := by omega
    rw [s]
    unfold waveformAt
    rw [if_pos c1, e]
    ring

theorem cycle4_wave_after (k m : Nat) : rawAt cycle4 (4608 + 144 * k + m) = cycle4Wave m := by
  rw [rawAt_cycle4]
  unfold cycle4Wave
  by_cases h0 : m % 4 = 0
  · have a : (4608 + 144 * k + m) % 4 = 0 := by omega
    have b : (m : Int) % 4 = 0 := by omega
    rw [if_pos a, if_pos b]
  · by_cases h2 : m % 4 = 2
    · have a : ¬ (4608 + 144 * k + m) % 4 = 0 := by omega
      have a2 : (4608 + 144 * k + m) % 4 = 2 := by omega
      have b : ¬ (m : Int) % 4 = 0 := by omega
      have b2 : (m : Int) % 4 = 2 := by omega
      rw [if_neg a, if_pos a2, if_neg b, if_pos b2]
    · have a : ¬ (4608 + 144 * k + m) % 4 = 0 := by omega
      have a2 : ¬ (4608 + 144 * k + m) % 4 = 2 := by omega
      have b : ¬ (m : Int) % 4 = 0 := by omega
      have b2 : ¬ (m : Int) % 4 = 2 := by omega
      rw [if_neg a, if_neg a2, if_neg b, if_neg b2]

theorem cycle4_wave_before (k j : Nat) (hj : j ≤ 54) :
    past (rawAt cycle4) (4608 + 144 * k) j = cycle4Wave (-(j : Int)) := by
  unfold past
  rw [if_pos (by omega), rawAt_cycle4]
  unfold cycle4Wave
  by_cases h0 : j % 4 = 0
  · have a : (4608 + 144 * k - j) % 4 = 0 := by omega
    have b : (-(j : Int)) % 4 = 0 := by omega
    rw [if_pos a, if_pos b]
  · by_cases h2 : j % 4 = 2
    · have a : ¬ (4608 + 144 * k - j) % 4 = 0 := by omega
      have a2 : (4608 + 144 * k - j) % 4 = 2 := by omega
      have b : ¬ (-(j : Int)) % 4 = 0 := by omega
      have b2 : (-(j : Int)) % 4 = 2 := by omega
      rw [if_neg a, if_pos a2, if_neg b, if_pos b2]
    · have a : ¬ (4608 + 144 * k - j) % 4 = 0 := by omega
      have a2 : ¬ (4608 + 144 * k - j) % 4 = 2 := by omega
      have b : ¬ (-(j : Int)) % 4 = 0 := by omega
      have b2 : ¬ (-(j : Int)) % 4 = 2 := by omega
      rw [if_neg a, if_neg a2, if_neg b, if_neg b2]

/-- Witness for C11: the 32 back-to-back epochs of the cycle run with onsets at the ticks
4608, 4752, ..., 9072; the stable buffer at tick 9216 holds 32 times the cycle. -/
theorem identical_beats_average_witness :
    (ISRrun cycle4 (4608 + 144 * 0)).Tempbuf = Arr.zero 200 ∧
    (ISRrun cycle4 (4608 + 144 * 0)).c_epochs = 0 ∧
    (ISRrun cycle4 (4608 + 144 * 31 + 144)).SAbuf.rd (145 + 2) / 32 = cycle4Wave (-((2 : Nat) : Int)) ∧
    (ISRrun cycle4 (4608 + 144 * 31 + 144)).SAbuf.rd (144 - 0) / 32 = cycle4Wave ((0 : Nat) : Int) :=
  have h := identical_beats_average cycle4 (fun k => 4608 + 144 * k) cycle4Wave
    cycle4_onset_4608.2.2.1 cycle4_onset_4608.2.2.2
    (fun k _ => ⟨(cycle4_state (4608 + 144 * k)).1.trans (if_pos (by omega)),
      (cycle4_state (4608 + 144 * k)).2.2.2⟩)
    (fun k _ => ⟨by beta_reduce; omega, fun t h1 h2 => by beta_reduce at h1 h2; omega⟩)
    (fun k _ => ⟨fun m _ => cycle4_wave_after k m, fun j hj => cycle4_wave_before k j hj⟩)
  ⟨cycle4_onset_4608.2.2.1, cycle4_onset_4608.2.2.2, h.1 2 (by decide), h.2 0 (by decide)⟩

/-! ## The low-pass stage as a triangular FIR filter -/

theorem past_past (x : Nat → ℚ) (n j k : Nat) :
    past (fun m => past x m j) n k = past x n (j + k) := by
  unfold past
  by_cases hk : k ≤ n
  · rw [if_pos hk]
    beta_reduce
    by_cases hj : j ≤ n - k
    · have e : n - k - j = n - (j + k) := by omega
      rw [if_pos hj, if_pos (by omega), e]
    · rw [if_neg hj, if_neg (by omega)]
  · rw [if_neg hk, if_neg (by omega)]

theorem triangle_weights :
    (6 - |((0 : Nat) : ℚ) - 5| = 1) ∧ (6 - |((1 : Nat) : ℚ) - 5| = 2) ∧
    (6 - |((2 : Nat) : ℚ) - 5| = 3) ∧ (6 - |((3 : Nat) : ℚ) - 5| = 4) ∧
    (6 - |((4 : Nat) : ℚ) - 5| = 5) ∧ (6 - |((5 : Nat) : ℚ) - 5| = 6) ∧
    (6 - |((6 : Nat) : ℚ) - 5| = 5) ∧ (6 - |((7 : Nat) : ℚ) - 5| = 4) ∧
    (6 - |((8 : Nat) : ℚ) - 5| = 3) ∧ (6 - |((9 : Nat) : ℚ) - 5| = 2) ∧
    (6 - |((10 : Nat) : ℚ) - 5| = 1) := by
  refine ⟨?_, ?_, ?_, ?_, ?_, ?_, ?_, ?_, ?_, ?_, ?_⟩ <;> norm_num [abs_of_nonpos, abs_of_nonneg]

/-- The triangular filter, expanded. -/
theorem firLPF_expand (x : Nat → ℚ) (n k : Nat) :
    past (firLPF x) n k = (1/20) * (past x n k + 2 * past x n (1 + k) + 3 * past x n (2 + k) +
      4 * past x n (3 + k) + 5 * past x n (4 + k) + 6 * past x n (5 + k) +
      5 * past x n (6 + k) + 4 * past x n (7 + k) + 3 * past x n (8 + k) +
      2 * past x n (9 + k) + past x n (10 + k)) := by
  have h : ∀ m, firLPF x m = (1/20) * (past x m 0 + 2 * past x m 1 + 3 * past x m 2 +
      4 * past x m 3 + 5 * past x m 4 + 6 * past x m 5 + 5 * past x m 6 + 4 * past x m 7 +
      3 * past x m 8 + 2 * past x m 9 + past x m 10) := by
    intro m
    have w := triangle_weights
    unfold firLPF
    simp only [Finset.sum_range_succ, Finset.sum_range_zero, zero_add]
    rw [w.1, w.2.1, w.2.2.1, w.2.2.2.1, w.2.2.2.2.1, w.2.2.2.2.2.1, w.2.2.2.2.2.2.1,
      w.2.2.2.2.2.2.2.1, w.2.2.2.2.2.2.2.2.1, w.2.2.2.2.2.2.2.2.2.1, w.2.2.2.2.2.2.2.2.2.2]
    ring
  have p : ∀ j, past x n (j + k) = past (fun m => past x m j) n k := fun j =>
    (past_past x n j k).symm
  have z : past x n k = past x n (0 + k) := by rw [Nat.zero_add]
  rw [z]
  simp only [p]
  unfold past
  by_cases hk : k ≤ n
  · simp only [if_pos hk]
    exact h (n - k)
  · simp only [if_neg hk]
    norm_num

/-- With `Output_LPF` holding 0 on entry to every tick, the recursive low-pass stage is the
triangular FIR filter of the specification on the centred samples. -/
theorem lpf_triangular_fir_of_zero_entry (inp : Nat → Int × Indeterminate)
    (h : ∀ t, (inp t).2.Output_LPF = 0) (n : Nat) :
    lpfOut inp n = firLPF (centred inp) n := by
  induction n using Nat.strong_induction_on with
  | _ n ih =>
    have hp : ∀ k, 1 ≤ k → past (lpfOut inp) n k = past (firLPF (centred inp)) n k := by
      intro k hk
      unfold past
      split
      · exact ih _ (by omega)
      · rfl
    have e0 := firLPF_expand (centred inp) n 0
    have e1 := firLPF_expand (centred inp) n 1
    have e2 := firLPF_expand (centred inp) n 2
    rw [past_zero] at e0
    rw [lpf_recursion_of_zero_entry inp h n, hp 1 (le_refl 1), hp 2 (by decide), e0, e1, e2]
    simp only [Nat.add_zero, Nat.reduceAdd, past_zero]
    ring

theorem lpfOut_lpfJunk (n : Nat) : lpfOut lpfJunk n = ((n : ℚ) + 1) * ((n : ℚ) + 2) / 2 := by
  induction n using Nat.strong_induction_on with
  | _ n ih =>
    have hc : ∀ k, past (centred lpfJunk) n k = 0 := by
      intro k
      unfold past centred lpfJunk
      split <;> norm_num
    have hx : centred lpfJunk n = 0 := by
      unfold centred lpfJunk
      norm_num
    have hu : (lpfJunk n).2.Output_LPF = 1 := rfl
    rw [lpf_recursion, hc, hc, hx, hu]
    unfold past
    match n with
    | 0 => norm_num
    | 1 =>
      rw [if_pos (le_refl 1), if_neg (by decide), ih 0 (by decide)]
      norm_num
    | m + 2 =>
      rw [if_pos (by omega), if_pos (by omega), ih (m + 2 - 1) (by omega),
        ih (m + 2 - 2) (by omega)]
      have a : ((m + 2 - 1 : Nat) : ℚ) = (m : ℚ) + 1 := by
        rw [show m + 2 - 1 = m + 1 from rfl]; push_cast; ring
      have b : ((m + 2 - 2 : Nat) : ℚ) = (m : ℚ) := by
        rw [show m + 2 - 2 = m from rfl]
      rw [a, b]
      push_cast
      ring

theorem firLPF_lpfJunk (n : Nat) : firLPF (centred lpfJunk) n = 0 := by
  have hc : ∀ k, past (centred lpfJunk) n k = 0 := by
    intro k
    unfold past centred lpfJunk
    split <;> norm_num
  unfold firLPF
  simp only [hc, mul_zero, Finset.sum_const_zero]

/-- C16 fails on the code, by the defect of C2: `Output_LPF` is accumulated into without
having been initialised. In the run `lpfJunk` (every centred sample 0, `Output_LPF` holding
1 on entry to every tick) the triangular FIR filter of the claim gives 0 on every tick,
while the low-pass stage puts out `(n+1)(n+2)/2` on tick `n`: the double pole at 1
integrates the entry values twice, and the output is 78 on tick 11, not 0. -/
theorem lpf_entry_value_breaks_fir :
    (∀ n, firLPF (centred lpfJunk) n = 0) ∧
    (∀ n : Nat, lpfOut lpfJunk n = ((n : ℚ) + 1) * ((n : ℚ) + 2) / 2) ∧
    lpfOut lpfJunk 11 = 78 ∧ lpfOut lpfJunk 11 ≠ firLPF (centred lpfJunk) 11 := by
  have a : lpfOut lpfJunk 11 = 78 := by
    rw [lpfOut_lpfJunk]
    norm_num
  refine ⟨firLPF_lpfJunk, lpfOut_lpfJunk, a, ?_⟩
  rw [a, firLPF_lpfJunk]
  norm_num

/-! ## The high-pass stage as delayed input minus moving average -/

theorem past_sub (x : Nat → ℚ) (n k j : Nat) (hk : k ≤ n) :
    past x (n - k) j = past x n (j + k) := by
  unfold past
  by_cases hj : j ≤ n - k
  · have e : n - k - j = n - (j + k) := by omega
    rw [if_pos hj, if_pos (by omega), e]
  · rw [if_neg hj, if_neg (by omega)]

theorem past_beyond (x : Nat → ℚ) (n k j : Nat) (hk : ¬ k ≤ n) : past x n (j + k) = 0 := by
  unfold past
  rw [if_neg (by omega)]

/-- The filter of the specification, `k` ticks earlier. -/
theorem delayMinusAverage_past (x : Nat → ℚ) (n k : Nat) :
    past (delayMinusAverage x) n k =
      (5/6) * (past x n (16 + k) - (1/32) * ∑ j in Finset.range 32, past x n (j + k)) := by
  by_cases hk : k ≤ n
  · have e : past (delayMinusAverage x) n k = delayMinusAverage x (n - k) := by
      unfold past
      rw [if_pos hk]
    rw [e]
    unfold delayMinusAverage
    simp only [past_sub x n k _ hk]
  · have e : past (delayMinusAverage x) n k = 0 := by
      unfold past
      rw [if_neg hk]
    rw [e]
    simp only [past_beyond x n k _ hk, Finset.sum_const_zero]
    norm_num

/-- With `Output_HPF` holding 0 on entry to every tick, the recursive high-pass stage is the
filter of the specification on the low-pass outputs: the input delayed by 16 ticks minus
the 32-point moving average, times 5/6. -/
theorem hpf_delay_minus_average_of_zero_entry (inp : Nat → Int × Indeterminate)
    (h : ∀ t, (inp t).2.Output_HPF = 0) (n : Nat) :
    hpfOut inp n = delayMinusAverage (lpfOut inp) n := by
  induction n using Nat.strong_induction_on with
  | _ n ih =>
    have hp : past (hpfOut inp) n 1 = past (delayMinusAverage (lpfOut inp)) n 1 := by
      unfold past
      split
      · exact ih _ (by omega)
      · rfl
    have s1 : ∑ j in Finset.range 32, past (lpfOut inp) n j =
        ∑ j in Finset.range 31, past (lpfOut inp) n (j + 1) + past (lpfOut inp) n 0 :=
      Finset.sum_range_succ' _ 31
    have s2 : ∑ j in Finset.range 32, past (lpfOut inp) n (j + 1) =
        ∑ j in Finset.range 31, past (lpfOut inp) n (j + 1) + past (lpfOut inp) n (31 + 1) :=
      Finset.sum_range_succ _ 31
    rw [hpf_recursion_of_zero_entry inp h n, hp, delayMinusAverage_past, s2]
    unfold delayMinusAverage
    rw [s1, past_zero]
    ring

theorem hpfOut_hpfJunk (n : Nat) : hpfOut hpfJunk n = (n : ℚ) + 1 := by
  induction n with
  | zero =>
    have hu : (hpfJunk 0).2.Output_HPF = 1 := rfl
    rw [hpf_recursion, hu]
    simp only [past, lpfOut_hpfJunk]
    norm_num
  | succ n ih =>
    have hu : (hpfJunk (n + 1)).2.Output_HPF = 1 := rfl
    have hp : past (hpfOut hpfJunk) (n + 1) 1 = (n : ℚ) + 1 := by
      unfold past
      rw [if_pos (by omega)]
      exact ih
    have hz : ∀ k, past (lpfOut hpfJunk) (n + 1) k = 0 := by
      intro k
      unfold past
      split
      · exact lpfOut_hpfJunk _
      · rfl
    rw [hpf_recursion, hu, hp, hz, hz, hz, lpfOut_hpfJunk]
    push_cast
    ring

theorem delayMinusAverage_hpfJunk (n : Nat) : delayMinusAverage (lpfOut hpfJunk) n = 0 := by
  have hz : ∀ k, past (lpfOut hpfJunk) n k = 0 := by
    intro k
    unfold past
    split
    · exact lpfOut_hpfJunk _
    · rfl
  unfold delayMinusAverage
  simp only [hz, Finset.sum_const_zero]
  norm_num

/-- C17 fails on the code, by the defect of C3: `Output_HPF` is accumulated into without
having been initialised. In the run `hpfJunk` the input of the high-pass stage is the
constant 0 and `Output_HPF` holds 1 on entry to every tick: the filter of the claim gives 0
on every tick, while the high-pass stage puts out `n + 1` on tick `n`, the pole at 1 summing
the entry values; the output is 33 on tick 32, not 0. -/
theorem hpf_entry_value_breaks_delay_minus_average :
    (∀ n, lpfOut hpfJunk n = 0) ∧
    (∀ n, delayMinusAverage (lpfOut hpfJunk) n = 0) ∧
    (∀ n : Nat, hpfOut hpfJunk n = (n : ℚ) + 1) ∧
    hpfOut hpfJunk 32 = 33 ∧ hpfOut hpfJunk 32 ≠ delayMinusAverage (lpfOut hpfJunk) 32 := by
  have a : hpfOut hpfJunk 32 = 33 := by
    rw [hpfOut_hpfJunk]
    norm_num
  refine ⟨lpfOut_hpfJunk, delayMinusAverage_hpfJunk, hpfOut_hpfJunk, a, ?_⟩
  rw [a, delayMinusAverage_hpfJunk]
  norm_num

/-! ## The detector and the averager in binary32 arithmetic -/

theorem fl_zero : fl 0 = 0 := by decide!

theorem pdFinalize32_frame (s : ISR) :
    (Binary32.pdFinalize s).x5 = s.x5 ∧ (Binary32.pdFinalize s).flag = s.flag ∧
    (Binary32.pdFinalize s).counter_SA = s.counter_SA ∧
    (Binary32.pdFinalize s).c_epochs = s.c_epochs := by
  unfold Binary32.pdFinalize
  split
  · simp only []
    split <;> simp
  · simp

theorem pdFinalize32_pos (s : ISR) (h : Binary32.finalizeCond s) :
    (Binary32.pdFinalize s).peaki = s.peakt ∧ (Binary32.pdFinalize s).peakt = 0 ∧
    (Binary32.pdFinalize s).spki =
      (if s.peakt > s.thresholdi1 then fl (fl ((1/8) * s.peakt) + fl ((7/8) * s.spki))
        else s.spki) ∧
    (Binary32.pdFinalize s).npki =
      (if s.peakt > s.thresholdi1 then s.npki
        else fl (fl ((1/8) * s.peakt) + fl ((7/8) * s.npki))) ∧
    (Binary32.pdFinalize s).thresholdi1 =
      fl ((Binary32.pdFinalize s).npki +
        fl ((1/4) * fl ((Binary32.pdFinalize s).spki - (Binary32.pdFinalize s).npki))) := by
  unfold Binary32.pdFinalize
  rw [if_pos h]
  simp only []
  split <;> simp

theorem pdFinalize32_neg (s : ISR) (h : ¬ Binary32.finalizeCond s) :
    Binary32.pdFinalize s = s := by
  unfold Binary32.pdFinalize
  rw [if_neg h]

theorem finalizeCond32_iff (m : ℚ) (s : ISR) :
    Binary32.finalizeCond (pdOnset (pdTrack m s)) ↔
      (m ≤ s.x5.rd 2 ∧ m < fl ((1/2) * s.peakt)) := by
  unfold Binary32.finalizeCond
  rw [(pdOnset_frame _).1, (pdOnset_frame _).2.1, pdTrack_x5, pdTrack_peakt, x5_wr_rd0,
    x5_wr_rd2]
  constructor
  · rintro ⟨h1, h2⟩
    rw [if_neg (fun h => absurd h.1 (not_lt.mpr h1))] at h2
    exact ⟨h1, h2⟩
  · rintro ⟨h1, h2⟩
    rw [if_neg (fun h => absurd h.1 (not_lt.mpr h1))]
    exact ⟨h1, h2⟩

theorem peakDetection32_flag (m : ℚ) (s : ISR) :
    (Binary32.peakDetection m s).flag =
      if (if m > s.x5.rd 2 ∧ m > s.peakt then m else s.peakt) > s.thresholdi1 ∧ s.flag ≠ 1
      then 1 else s.flag := by
  unfold Binary32.peakDetection
  simp only []
  rw [(pdFinalize32_frame _).2.1, pdOnset_flag, pdTrack_peakt, (pdTrack_frame m s).1,
    (pdTrack_frame m s).2.2.2.2.1]

theorem peakDetection32_frame (m : ℚ) (s : ISR) :
    (Binary32.peakDetection m s).counter_SA = s.counter_SA ∧
    (Binary32.peakDetection m s).c_epochs = s.c_epochs := by
  unfold Binary32.peakDetection
  have h1 := pdFinalize32_frame (pdOnset (pdTrack m s))
  have h2 := pdOnset_frame (pdTrack m s)
  have h3 := pdTrack_frame m s
  simp only []
  constructor
  · rw [h1.2.2.1, h2.2.2.2.2.2.2.1, h3.2.2.2.2.2.1]
  · rw [h1.2.2.2, h2.2.2.2.2.2.2.2.1, h3.2.2.2.2.2.2.1]

theorem peakDetection32_x5 (m : ℚ) (s : ISR) :
    (Binary32.peakDetection m s).x5.rd 0 = m ∧ (Binary32.peakDetection m s).x5.rd 1 = m ∧
    (Binary32.peakDetection m s).x5.rd 2 = s.x5.rd 1 := by
  unfold Binary32.peakDetection
  simp only []
  rw [(pdFinalize32_frame _).1, (pdOnset_frame _).1, pdTrack_x5]
  simp [shiftBuf_rd, Arr.rd_wr]

theorem peakDetection32_pos (m : ℚ) (s : ISR)
    (h : m ≤ s.x5.rd 2 ∧ m < fl ((1/2) * s.peakt)) :
    (Binary32.peakDetection m s).peaki = s.peakt ∧ (Binary32.peakDetection m s).peakt = 0 ∧
    (Binary32.peakDetection m s).spki =
      (if s.peakt > s.thresholdi1 then fl (fl ((1/8) * s.peakt) + fl ((7/8) * s.spki))
        else s.spki) ∧
    (Binary32.peakDetection m s).npki =
      (if s.peakt > s.thresholdi1 then s.npki
        else fl (fl ((1/8) * s.peakt) + fl ((7/8) * s.npki))) ∧
    (Binary32.peakDetection m s).thresholdi1 =
      fl ((Binary32.peakDetection m s).npki +
        fl ((1/4) * fl ((Binary32.peakDetection m s).spki -
          (Binary32.peakDetection m s).npki))) := by
  have hf := pdFinalize32_pos _ ((finalizeCond32_iff m s).mpr h)
  have hp : (pdOnset (pdTrack m s)).peakt = s.peakt := by
    rw [(pdOnset_frame _).2.1, pdTrack_peakt, if_neg (fun h' => absurd h'.1 (not_lt.mpr h.1))]
  have ht : (pdOnset (pdTrack m s)).thresholdi1 = s.thresholdi1 := by
    rw [(pdOnset_frame _).2.2.1, (pdTrack_frame m s).1]
  have hs : (pdOnset (pdTrack m s)).spki = s.spki := by
    rw [(pdOnset_frame _).2.2.2.1, (pdTrack_frame m s).2.1]
  have hn : (pdOnset (pdTrack m s)).npki = s.npki := by
    rw [(pdOnset_frame _).2.2.2.2.1, (pdTrack_frame m s).2.2.1]
  rw [hp, ht, hs, hn] at hf
  unfold Binary32.peakDetection
  exact hf

theorem peakDetection32_neg (m : ℚ) (s : ISR)
    (h : ¬ (m ≤ s.x5.rd 2 ∧ m < fl ((1/2) * s.peakt))) :
    (Binary32.peakDetection m s).peaki = s.peaki ∧
    (Binary32.peakDetection m s).peakt =
      (if m > s.x5.rd 2 ∧ m > s.peakt then m else s.peakt) ∧
    (Binary32.peakDetection m s).spki = s.spki ∧ (Binary32.peakDetection m s).npki = s.npki ∧
    (Binary32.peakDetection m s).thresholdi1 = s.thresholdi1 := by
  have hf := pdFinalize32_neg _ (fun hc => h ((finalizeCond32_iff m s).mp hc))
  unfold Binary32.peakDetection
  simp only [hf]
  have h2 := pdOnset_frame (pdTrack m s)
  have h3 := pdTrack_frame m s
  refine ⟨?_, ?_, ?_, ?_, ?_⟩
  · rw [h2.2.2.2.2.2.1, h3.2.2.2.1]
  · rw [h2.2.1, pdTrack_peakt]
  · rw [h2.2.2.2.1, h3.2.1]
  · rw [h2.2.2.2.2.1, h3.2.2.1]
  · rw [h2.2.2.1, h3.1]

set_option maxRecDepth 8000 in
/-- The averager never touches the detector's estimates. -/
theorem signalAverager32_det (f : ℚ) (s : ISR) :
    (Binary32.signalAverager f s).x5 = s.x5 ∧ (Binary32.signalAverager f s).peakt = s.peakt ∧
    (Binary32.signalAverager f s).thresholdi1 = s.thresholdi1 ∧
    (Binary32.signalAverager f s).spki = s.spki ∧
    (Binary32.signalAverager f s).npki = s.npki ∧
    (Binary32.signalAverager f s).peaki = s.peaki := by
  unfold Binary32.signalAverager epochEnd
  simp only []
  split_ifs <;> simp

set_option maxRecDepth 8000 in
theorem signalAverager32_idle (f : ℚ) (s : ISR) (h : s.flag ≠ 1) :
    (Binary32.signalAverager f s).flag = s.flag ∧
    (Binary32.signalAverager f s).counter_SA = s.counter_SA ∧
    (Binary32.signalAverager f s).c_epochs = s.c_epochs := by
  unfold Binary32.signalAverager
  simp only [h, if_false]
  simp

set_option maxRecDepth 8000 in
theorem signalAverager32_beat (f : ℚ) (s : ISR) (h : s.flag = 1)
    (hc : ¬ s.counter_SA - 1 ≤ 0) :
    (Binary32.signalAverager f s).flag = 1 ∧
    (Binary32.signalAverager f s).counter_SA = s.counter_SA - 1 ∧
    (Binary32.signalAverager f s).c_epochs = s.c_epochs := by
  unfold Binary32.signalAverager epochEnd
  simp only [h, if_true]
  split_ifs <;> simp_all

set_option maxRecDepth 8000 in
theorem signalAverager32_end (f : ℚ) (s : ISR) (h : s.flag = 1)
    (hc : s.counter_SA - 1 ≤ 0) :
    (Binary32.signalAverager f s).flag = 0 ∧ (Binary32.signalAverager f s).counter_SA = 144 := by
  unfold Binary32.signalAverager epochEnd
  simp only [h, if_true]
  split_ifs <;> simp_all

theorem detAvg32_x5 (m f : ℚ) (s : ISR) :
    (Binary32.detAvg m f s).x5.rd 1 = m ∧ (Binary32.detAvg m f s).x5.rd 2 = s.x5.rd 1 := by
  unfold Binary32.detAvg
  rw [(signalAverager32_det f _).1]
  exact (peakDetection32_x5 m s).2

theorem detAvg32_pos (m f : ℚ) (s : ISR) (h : m ≤ s.x5.rd 2 ∧ m < fl ((1/2) * s.peakt)) :
    (Binary32.detAvg m f s).peaki = s.peakt ∧ (Binary32.detAvg m f s).peakt = 0 ∧
    (Binary32.detAvg m f s).spki =
      (if s.peakt > s.thresholdi1 then fl (fl ((1/8) * s.peakt) + fl ((7/8) * s.spki))
        else s.spki) ∧
    (Binary32.detAvg m f s).npki =
      (if s.peakt > s.thresholdi1 then s.npki
        else fl (fl ((1/8) * s.peakt) + fl ((7/8) * s.npki))) ∧
    (Binary32.detAvg m f s).thresholdi1 =
      fl ((Binary32.detAvg m f s).npki +
        fl ((1/4) * fl ((Binary32.detAvg m f s).spki - (Binary32.detAvg m f s).npki))) := by
  have a := signalAverager32_det f (Binary32.peakDetection m s)
  unfold Binary32.detAvg
  rw [a.2.1, a.2.2.1, a.2.2.2.1, a.2.2.2.2.1, a.2.2.2.2.2]
  exact peakDetection32_pos m s h

theorem detAvg32_neg (m f : ℚ) (s : ISR) (h : ¬ (m ≤ s.x5.rd 2 ∧ m < fl ((1/2) * s.peakt))) :
    (Binary32.detAvg m f s).peaki = s.peaki ∧
    (Binary32.detAvg m f s).peakt = (if m > s.x5.rd 2 ∧ m > s.peakt then m else s.peakt) ∧
    (Binary32.detAvg m f s).spki = s.spki ∧ (Binary32.detAvg m f s).npki = s.npki ∧
    (Binary32.detAvg m f s).thresholdi1 = s.thresholdi1 := by
  have a := signalAverager32_det f (Binary32.peakDetection m s)
  unfold Binary32.detAvg
  rw [a.2.1, a.2.2.1, a.2.2.2.1, a.2.2.2.2.1, a.2.2.2.2.2]
  exact peakDetection32_neg m s h

/-- A tick on which the onset condition fails leaves a lowered flag lowered. -/
theorem detAvg32_flag_stays (m f : ℚ) (s : ISR) (hf : s.flag = 0)
    (h : ¬ (if m > s.x5.rd 2 ∧ m > s.peakt then m else s.peakt) > s.thresholdi1) :
    (Binary32.detAvg m f s).flag = 0 ∧ (Binary32.detAvg m f s).counter_SA = s.counter_SA := by
  have hd : (Binary32.peakDetection m s).flag = 0 := by
    rw [peakDetection32_flag, if_neg (fun hc => h hc.1), hf]
  have a := signalAverager32_idle f (Binary32.peakDetection m s) (by rw [hd]; decide)
  unfold Binary32.detAvg
  rw [a.1, a.2.1, hd, (peakDetection32_frame m s).1]
  exact ⟨rfl, rfl⟩

/-- A tick on which the onset condition holds with the countdown above 1 raises the flag. -/
theorem detAvg32_flag_onset (m f : ℚ) (s : ISR) (hf : s.flag ≠ 1) (hc : 1 < s.counter_SA)
    (h : (if m > s.x5.rd 2 ∧ m > s.peakt then m else s.peakt) > s.thresholdi1) :
    (Binary32.detAvg m f s).flag = 1 ∧
    (Binary32.detAvg m f s).counter_SA = s.counter_SA - 1 := by
  have hd : (Binary32.peakDetection m s).flag = 1 := by
    rw [peakDetection32_flag, if_pos ⟨h, hf⟩]
  have a := signalAverager32_beat f (Binary32.peakDetection m s) hd
    (by rw [(peakDetection32_frame m s).1]; omega)
  unfold Binary32.detAvg
  rw [a.1, a.2.1, (peakDetection32_frame m s).1]
  exact ⟨rfl, rfl⟩

/-- Inside a beat the flag stays raised while the countdown is above 1 and is lowered,
with the countdown back at 144, when it stands at 1. -/
theorem detAvg32_flag_inside (m f : ℚ) (s : ISR) (hf : s.flag = 1) :
    (1 < s.counter_SA → (Binary32.detAvg m f s).flag = 1 ∧
      (Binary32.detAvg m f s).counter_SA = s.counter_SA - 1) ∧
    (s.counter_SA ≤ 1 → (Binary32.detAvg m f s).flag = 0 ∧
      (Binary32.detAvg m f s).counter_SA = 144) := by
  have hd : (Binary32.peakDetection m s).flag = 1 := by
    rw [peakDetection32_flag, if_neg (fun hc => hc.2 hf), hf]
  have hc := (peakDetection32_frame m s).1
  constructor
  · intro h1
    have a := signalAverager32_beat f (Binary32.peakDetection m s) hd (by rw [hc]; omega)
    unfold Binary32.detAvg
    rw [a.1, a.2.1, hc]
    exact ⟨rfl, rfl⟩
  · intro h1
    have a := signalAverager32_end f (Binary32.peakDetection m s) hd (by rw [hc]; omega)
    unfold Binary32.detAvg
    exact a

theorem half_zero : fl ((1/2) * 0) = 0 := by
  rw [mul_zero, fl_zero]

theorem Quiet32_step (f : ℚ) (s : ISR) (h : Quiet s) :
    Quiet (Binary32.detAvg 0 f s) ∧ (Binary32.detAvg 0 f s).counter_SA = s.counter_SA := by
  obtain ⟨h1, h2, h3, h4, h5, h6, h7⟩ := h
  have hn : ¬ ((0 : ℚ) ≤ s.x5.rd 2 ∧ (0 : ℚ) < fl ((1/2) * s.peakt)) := by
    rw [h1, half_zero]; norm_num
  have n := detAvg32_neg 0 f s hn
  have x := detAvg32_x5 0 f s
  have hp : (if (0 : ℚ) > s.x5.rd 2 ∧ (0 : ℚ) > s.peakt then (0 : ℚ) else s.peakt) = 0 := by
    rw [h1]; simp
  have fs := detAvg32_flag_stays 0 f s h7 (by rw [hp, h4]; norm_num)
  refine ⟨⟨?_, ?_, ?_, ?_, x.1, ?_, fs.1⟩, fs.2⟩
  · rw [n.2.1, hp]
  · rw [n.2.2.1, h2]
  · rw [n.2.2.2.1, h3]
  · rw [n.2.2.2.2, h4]
  · rw [x.2, h5]

theorem Quiet32_run (s0 : ISR) (mwi raw : Nat → ℚ) (h : Quiet s0) (t : Nat)
    (hz : ∀ i, i < t → mwi i = 0) :
    Quiet (Binary32.detAvgRun s0 mwi raw t) ∧
      (Binary32.detAvgRun s0 mwi raw t).counter_SA = s0.counter_SA := by
  induction t with
  | zero => exact ⟨h, rfl⟩
  | succ t ih =>
    have ih' := ih (fun i hi => hz i (Nat.lt_succ_of_lt hi))
    have := Quiet32_step (raw t) _ ih'.1
    simp only [Binary32.detAvgRun, hz t (Nat.lt_succ_self t)]
    exact ⟨this.1, this.2.trans ih'.2⟩

theorem Quiet32_no_branch (s : ISR) (h : Quiet s) :
    ¬ onsetCond (pdTrack 0 s) ∧ ¬ Binary32.finalizeCond (pdOnset (pdTrack 0 s)) := by
  obtain ⟨h1, _, _, h4, _, _, _⟩ := h
  constructor
  · unfold onsetCond
    rw [pdTrack_peakt, (pdTrack_frame 0 s).1, h1, h4]
    simp
  · rw [finalizeCond32_iff, h1, half_zero]
    norm_num

/-- The pulse tick: the running peak takes the pulse height and the flag is raised. -/
theorem pulse32_tick (h f : ℚ) (hh : 0 < h) (s : ISR) (q : Quiet s) (hc : s.counter_SA = 144) :
    (Binary32.detAvg h f s).peakt = h ∧ (Binary32.detAvg h f s).spki = 0 ∧
    (Binary32.detAvg h f s).npki = 0 ∧ (Binary32.detAvg h f s).thresholdi1 = 0 ∧
    (Binary32.detAvg h f s).x5.rd 1 = h ∧ (Binary32.detAvg h f s).x5.rd 2 = 0 ∧
    (Binary32.detAvg h f s).flag = 1 ∧ (Binary32.detAvg h f s).counter_SA = 143 ∧
    ¬ Binary32.finalizeCond (pdOnset (pdTrack h s)) := by
  obtain ⟨h1, h2, h3, h4, h5, h6, h7⟩ := q
  have hn : ¬ (h ≤ s.x5.rd 2 ∧ h < fl ((1/2) * s.peakt)) := by
    rw [h6]; intro hc; exact absurd hc.1 (not_le.mpr hh)
  have n := detAvg32_neg h f s hn
  have x := detAvg32_x5 h f s
  have hp : (if h > s.x5.rd 2 ∧ h > s.peakt then h else s.peakt) = h := by
    rw [h1, h6, if_pos ⟨hh, hh⟩]
  have fs := detAvg32_flag_onset h f s (by rw [h7]; decide) (by rw [hc]; decide)
    (by rw [hp, h4]; exact hh)
  refine ⟨?_, ?_, ?_, ?_, x.1, ?_, fs.1, ?_, ?_⟩
  · rw [n.2.1, hp]
  · rw [n.2.2.1, h2]
  · rw [n.2.2.2.1, h3]
  · rw [n.2.2.2.2, h4]
  · rw [x.2, h5]
  · rw [fs.2, hc]; rfl
  · rw [finalizeCond32_iff]; exact hn

/-- The tick after the pulse, when half the pulse height does not round to 0 and its
eighth and its thirty-second are binary32 numbers: the finalize branch runs and classifies
a signal peak. -/
theorem after_pulse32_tick (h f : ℚ) (h2 : 0 < fl ((1/2) * h)) (h8 : fl (h / 8) = h / 8)
    (h32 : fl (h / 32) = h / 32) (hh : 0 < h) (s : ISR)
    (p : s.peakt = h ∧ s.spki = 0 ∧ s.npki = 0 ∧ s.thresholdi1 = 0 ∧ s.x5.rd 1 = h ∧
      s.x5.rd 2 = 0) :
    Settled h (Binary32.detAvg 0 f s) ∧ Binary32.finalizeCond (pdOnset (pdTrack 0 s)) := by
  obtain ⟨p1, p2, p3, p4, p5, p6⟩ := p
  have hc : (0 : ℚ) ≤ s.x5.rd 2 ∧ (0 : ℚ) < fl ((1/2) * s.peakt) := by
    rw [p6, p1]; exact ⟨le_refl 0, h2⟩
  have n := detAvg32_pos 0 f s hc
  have x := detAvg32_x5 0 f s
  have hgt : s.peakt > s.thresholdi1 := by rw [p1, p4]; exact hh
  have e8 : (1/8 : ℚ) * h = h / 8 := by ring
  have e32 : (1/4 : ℚ) * (h / 8) = h / 32 := by ring
  have hs : (Binary32.detAvg 0 f s).spki = h / 8 := by
    rw [n.2.2.1, if_pos hgt, p1, p2, mul_zero, fl_zero, add_zero, e8, h8, h8]
  have hn : (Binary32.detAvg 0 f s).npki = 0 := by
    rw [n.2.2.2.1, if_pos hgt, p3]
  refine ⟨⟨n.2.1, hs, hn, ?_, x.1, ?_⟩, (finalizeCond32_iff 0 s).mpr hc⟩
  · rw [n.2.2.2.2, hs, hn, sub_zero, h8, e32, h32, zero_add, h32]
  · rw [x.2, p5]; exact le_of_lt hh

/-- Once settled, a zero integrator value changes nothing and raises no flag. -/
theorem Settled32_step (h f : ℚ) (hh : 0 < h) (s : ISR) (p : Settled h s) :
    Settled h (Binary32.detAvg 0 f s) ∧ ¬ Binary32.finalizeCond (pdOnset (pdTrack 0 s)) ∧
      (s.flag = 0 → (Binary32.detAvg 0 f s).flag = 0) := by
  obtain ⟨h1, h2, h3, h4, h5, h6⟩ := p
  have hn : ¬ ((0 : ℚ) ≤ s.x5.rd 2 ∧ (0 : ℚ) < fl ((1/2) * s.peakt)) := by
    rw [h1, half_zero]; norm_num
  have n := detAvg32_neg 0 f s hn
  have x := detAvg32_x5 0 f s
  have hp : (if (0 : ℚ) > s.x5.rd 2 ∧ (0 : ℚ) > s.peakt then (0 : ℚ) else s.peakt) = 0 := by
    rw [h1]; simp
  refine ⟨⟨?_, ?_, ?_, ?_, x.1, ?_⟩, ?_, ?_⟩
  · rw [n.2.1, hp]
  · rw [n.2.2.1, h2]
  · rw [n.2.2.2.1, h3]
  · rw [n.2.2.2.2, h4]
  · rw [x.2, h5]
  · rw [finalizeCond32_iff]; exact hn
  · intro hf
    exact (detAvg32_flag_stays 0 f s hf (by rw [hp, h4]; linarith)).1

theorem pulse32_before (h : ℚ) (t0 : Nat) (raw : Nat → ℚ) (t : Nat) (ht : t ≤ t0) :
    Quiet (Binary32.detAvgRun ISR.init (pulse h t0) raw t) ∧
      (Binary32.detAvgRun ISR.init (pulse h t0) raw t).counter_SA = 144 := by
  have := Quiet32_run ISR.init (pulse h t0) raw Quiet_init t
    (fun i hi => by unfold pulse; rw [if_neg (by omega)])
  exact ⟨this.1, this.2⟩

theorem pulse32_at (h : ℚ) (hh : 0 < h) (t0 : Nat) (raw : Nat → ℚ) :
    (Binary32.detAvgRun ISR.init (pulse h t0) raw (t0 + 1)).peakt = h ∧
    (Binary32.detAvgRun ISR.init (pulse h t0) raw (t0 + 1)).spki = 0 ∧
    (Binary32.detAvgRun ISR.init (pulse h t0) raw (t0 + 1)).npki = 0 ∧
    (Binary32.detAvgRun ISR.init (pulse h t0) raw (t0 + 1)).thresholdi1 = 0 ∧
    (Binary32.detAvgRun ISR.init (pulse h t0) raw (t0 + 1)).x5.rd 1 = h ∧
    (Binary32.detAvgRun ISR.init (pulse h t0) raw (t0 + 1)).x5.rd 2 = 0 ∧
    (Binary32.detAvgRun ISR.init (pulse h t0) raw (t0 + 1)).flag = 1 ∧
    (Binary32.detAvgRun ISR.init (pulse h t0) raw (t0 + 1)).counter_SA = 143 ∧
    ¬ Binary32.finalizeCond
      (pdOnset (pdTrack h (Binary32.detAvgRun ISR.init (pulse h t0) raw t0))) := by
  have b := pulse32_before h t0 raw t0 (le_refl t0)
  have := pulse32_tick h (raw t0) hh _ b.1 b.2
  simp only [Binary32.detAvgRun, pulse, if_true]
  exact this

theorem pulse32_after (h : ℚ) (h2 : 0 < fl ((1/2) * h)) (h8 : fl (h / 8) = h / 8)
    (h32 : fl (h / 32) = h / 32) (hh : 0 < h) (t0 : Nat) (raw : Nat → ℚ) (k : Nat) :
    Settled h (Binary32.detAvgRun ISR.init (pulse h t0) raw (t0 + 2 + k)) := by
  induction k with
  | zero =>
    have a := pulse32_at h hh t0 raw
    have := (after_pulse32_tick h (raw (t0 + 1)) h2 h8 h32 hh _
      ⟨a.1, a.2.1, a.2.2.1, a.2.2.2.1, a.2.2.2.2.1, a.2.2.2.2.2.1⟩).1
    have e : pulse h t0 (t0 + 1) = 0 := by unfold pulse; rw [if_neg (by omega)]
    show Settled h (Binary32.detAvg (pulse h t0 (t0 + 1)) (raw (t0 + 1)) _)
    rw [e]
    exact this
  | succ k ih =>
    have := (Settled32_step h (raw (t0 + 2 + k)) hh _ ih).1
    have e : pulse h t0 (t0 + 2 + k) = 0 := by unfold pulse; rw [if_neg (by omega)]
    show Settled h (Binary32.detAvg (pulse h t0 (t0 + 2 + k)) (raw (t0 + 2 + k)) _)
    rw [e]
    exact this

/-! ## A single pulse in binary32 arithmetic -/

/-- When half the pulse height rounds to 0, a zero integrator value never finalizes the
peak, and the onset branch runs again as soon as the flag is down. -/
theorem Stuck32_step (h f : ℚ) (hh : 0 < h) (hz : fl ((1/2) * h) = 0) (s : ISR)
    (p : Stuck h s) :
    Stuck h (Binary32.detAvg 0 f s) ∧ ¬ Binary32.finalizeCond (pdOnset (pdTrack 0 s)) ∧
      (s.flag ≠ 1 → 1 < s.counter_SA → (Binary32.detAvg 0 f s).flag = 1) := by
  obtain ⟨h1, h2, h3, h4, h5, h6⟩ := p
  have hn : ¬ ((0 : ℚ) ≤ s.x5.rd 2 ∧ (0 : ℚ) < fl ((1/2) * s.peakt)) := by
    rw [h1, hz]; norm_num
  have n := detAvg32_neg 0 f s hn
  have x := detAvg32_x5 0 f s
  have hp : (if (0 : ℚ) > s.x5.rd 2 ∧ (0 : ℚ) > s.peakt then (0 : ℚ) else s.peakt) = h := by
    rw [if_neg (fun hc => absurd hc.1 (not_lt.mpr h6)), h1]
  refine ⟨⟨?_, ?_, ?_, ?_, ?_, ?_⟩, ?_, ?_⟩
  · rw [n.2.1, hp]
  · rw [n.2.2.1, h2]
  · rw [n.2.2.2.1, h3]
  · rw [n.2.2.2.2, h4]
  · rw [x.1]
  · rw [x.2]; exact h5
  · rw [finalizeCond32_iff]; exact hn
  · intro hf hc
    exact (detAvg32_flag_onset 0 f s hf hc (by rw [hp, h4]; exact hh)).1

theorem pulse32_zero (h : ℚ) (t0 t : Nat) (ht : t ≠ t0) : pulse h t0 t = 0 := by
  unfold pulse
  rw [if_neg ht]

/-- The run after a pulse whose half rounds to 0: the peak is never finalized. -/
theorem pulse32_stuck (h : ℚ) (hh : 0 < h) (hz : fl ((1/2) * h) = 0) (t0 : Nat)
    (raw : Nat → ℚ) (k : Nat) :
    Stuck h (Binary32.detAvgRun ISR.init (pulse h t0) raw (t0 + 1 + k)) := by
  induction k with
  | zero =>
    have a := pulse32_at h hh t0 raw
    exact ⟨a.1, a.2.1, a.2.2.1, a.2.2.2.1, by rw [a.2.2.2.2.1]; exact le_of_lt hh,
      by rw [a.2.2.2.2.2.1]⟩
  | succ k ih =>
    have := (Stuck32_step h (raw (t0 + 1 + k)) hh hz _ ih).1
    show Stuck h (Binary32.detAvg (pulse h t0 (t0 + 1 + k)) (raw (t0 + 1 + k)) _)
    rw [pulse32_zero h t0 (t0 + 1 + k) (by omega)]
    exact this

/-- The beat epoch that the pulse tick starts: the flag stays raised for 143 more ticks. -/
theorem pulse32_epoch (h : ℚ) (hh : 0 < h) (t0 : Nat) (raw : Nat → ℚ) (j : Nat)
    (hj : j ≤ 142) :
    (Binary32.detAvgRun ISR.init (pulse h t0) raw (t0 + 1 + j)).flag = 1 ∧
    (Binary32.detAvgRun ISR.init (pulse h t0) raw (t0 + 1 + j)).counter_SA =
      143 - (j : Int) := by
  induction j with
  | zero =>
    have a := pulse32_at h hh t0 raw
    exact ⟨a.2.2.2.2.2.2.1, by rw [a.2.2.2.2.2.2.2.1]; rfl⟩
  | succ j ih =>
    have p := ih (by omega)
    have i := (detAvg32_flag_inside (pulse h t0 (t0 + 1 + j)) (raw (t0 + 1 + j)) _ p.1).1
      (by rw [p.2]; omega)
    refine ⟨i.1, i.2.trans ?_⟩
    rw [p.2]
    push_cast
    ring

/-- The epoch ends 144 ticks after the pulse tick. -/
theorem pulse32_epoch_end (h : ℚ) (hh : 0 < h) (t0 : Nat) (raw : Nat → ℚ) :
    (Binary32.detAvgRun ISR.init (pulse h t0) raw (t0 + 144)).flag = 0 ∧
    (Binary32.detAvgRun ISR.init (pulse h t0) raw (t0 + 144)).counter_SA = 144 := by
  have p := pulse32_epoch h hh t0 raw 142 (le_refl 142)
  exact (detAvg32_flag_inside (pulse h t0 (t0 + 1 + 142)) (raw (t0 + 1 + 142)) _ p.1).2
    (by rw [p.2]; decide)

theorem half_tiny : fl ((1/2) * tiny) = 0 := by decide!

theorem tiny_pos : 0 < tiny := by
  unfold tiny
  positivity

/-- C6 as stated fails on the program. With the pulse height `2^-149`, the smallest positive
`float`, at tick 3 (raw samples 0): the flag rises on tick 3, but on tick 4 the product
`0.5f*peakt` of line 283 rounds to 0, so the finalize branch does not run, on tick 4 or on
any other tick; `spki` stays 0 on every tick although `h/8` is not 0; and once the
averager has lowered the flag, 144 ticks after the pulse, the flag rises a second time, on
tick 147. -/
theorem subnormal_pulse_is_never_finalized :
    0 < tiny ∧ fl ((1/2) * tiny) = 0 ∧
    ((Binary32.detAvgRun ISR.init (pulse tiny 3) (fun _ => 0) 3).flag = 0 ∧
      (Binary32.detAvgRun ISR.init (pulse tiny 3) (fun _ => 0) 4).flag = 1) ∧
    (∀ t, ¬ Binary32.finalizeCond (pdOnset (pdTrack (pulse tiny 3 t)
      (Binary32.detAvgRun ISR.init (pulse tiny 3) (fun _ => 0) t)))) ∧
    (∀ t, (Binary32.detAvgRun ISR.init (pulse tiny 3) (fun _ => 0) t).spki = 0) ∧
    tiny / 8 ≠ 0 ∧
    ((Binary32.detAvgRun ISR.init (pulse tiny 3) (fun _ => 0) 147).flag = 0 ∧
      (Binary32.detAvgRun ISR.init (pulse tiny 3) (fun _ => 0) 148).flag = 1) := by
  have hat := pulse32_at tiny tiny_pos 3 (fun _ => 0)
  have hst : ∀ t, 4 ≤ t →
      Stuck tiny (Binary32.detAvgRun ISR.init (pulse tiny 3) (fun _ => 0) t) := by
    intro t ht
    obtain ⟨k, rfl⟩ := Nat.exists_eq_add_of_le ht
    exact pulse32_stuck tiny tiny_pos half_tiny 3 (fun _ => 0) k
  have hend := pulse32_epoch_end tiny tiny_pos 3 (fun _ => 0)
  refine ⟨tiny_pos, half_tiny,
    ⟨(pulse32_before tiny 3 (fun _ => 0) 3 (le_refl 3)).1.2.2.2.2.2.2, hat.2.2.2.2.2.2.1⟩,
    ?_, ?_, ?_, ⟨hend.1, ?_⟩⟩
  · intro t
    by_cases h3 : t = 3
    · subst h3
      have e : pulse tiny 3 3 = tiny := by unfold pulse; rw [if_pos rfl]
      rw [e]
      exact hat.2.2.2.2.2.2.2.2
    · rw [pulse32_zero tiny 3 t h3]
      by_cases hlt : t < 3
      · exact (Quiet32_no_branch _ (pulse32_before tiny 3 (fun _ => 0) t (le_of_lt hlt)).1).2
      · exact (Stuck32_step tiny 0 tiny_pos half_tiny _ (hst t (by omega))).2.1
  · intro t
    by_cases hle : t ≤ 3
    · exact (pulse32_before tiny 3 (fun _ => 0) t hle).1.2.1
    · exact (hst t (by omega)).2.1
  · have := tiny_pos
    exact ne_of_gt (by linarith)
  · have s := (Stuck32_step tiny 0 tiny_pos half_tiny _ (hst 147 (by decide))).2.2
      (by rw [hend.1]; decide) (by rw [hend.2]; decide)
    have e : pulse tiny 3 147 = 0 := pulse32_zero tiny 3 147 (by decide)
    show (Binary32.detAvg (pulse tiny 3 147) 0 _).flag = 1
    rw [e]
    exact s

/-- C6, amended. Single pulse gives exactly one beat, in binary32 arithmetic: from the
initial globals, for every pulse height `h > 0` in the range of `float` whose half does not
round to 0 and whose eighth and thirty-second are binary32 numbers, every pulse tick `t0`
and all raw samples, when the integrator value is `h` at tick `t0` and 0 at every other
tick, the flag goes from 0 (before the tick) to 1 (after it) on tick `t0` and on no other
tick, the finalize branch runs on tick `t0 + 1` and on no other tick, from then on
`spki = h/8`, `npki = 0` and `thresholdi1 = h/32`, and `npki` is 0 throughout. -/
theorem single_pulse_one_beat_binary32 (h : ℚ) (hh : 0 < h) (_hmax : h < 2 ^ 128)
    (h2 : 0 < fl ((1/2) * h)) (h8 : fl (h / 8) = h / 8) (h32 : fl (h / 32) = h / 32)
    (t0 : Nat) (raw : Nat → ℚ) :
    (∀ t, ((Binary32.detAvgRun ISR.init (pulse h t0) raw t).flag = 0 ∧
        (Binary32.detAvgRun ISR.init (pulse h t0) raw (t + 1)).flag = 1) ↔ t = t0) ∧
    (∀ t, Binary32.finalizeCond (pdOnset (pdTrack (pulse h t0 t)
        (Binary32.detAvgRun ISR.init (pulse h t0) raw t))) ↔ t = t0 + 1) ∧
    (∀ t, t0 + 2 ≤ t → (Binary32.detAvgRun ISR.init (pulse h t0) raw t).spki = h / 8 ∧
        (Binary32.detAvgRun ISR.init (pulse h t0) raw t).npki = 0 ∧
        (Binary32.detAvgRun ISR.init (pulse h t0) raw t).thresholdi1 = h / 32) ∧
    (∀ t, (Binary32.detAvgRun ISR.init (pulse h t0) raw t).npki = 0) := by
  have hat := pulse32_at h hh t0 raw
  have hsettled : ∀ t, t0 + 2 ≤ t →
      Settled h (Binary32.detAvgRun ISR.init (pulse h t0) raw t) := by
    intro t ht
    obtain ⟨k, rfl⟩ := Nat.exists_eq_add_of_le ht
    exact pulse32_after h h2 h8 h32 hh t0 raw k
  have hzero : ∀ t, t ≠ t0 → pulse h t0 t = 0 := fun t ht => pulse32_zero h t0 t ht
  refine ⟨?_, ?_, ?_, ?_⟩
  · intro t
    constructor
    · rintro ⟨f0, f1⟩
      by_contra hne
      rcases Nat.lt_or_gt_of_ne hne with hlt | hgt
      · have q := (pulse32_before h t0 raw (t + 1) hlt).1
        rw [q.2.2.2.2.2.2] at f1
        exact absurd f1 (by decide)
      · by_cases h1 : t = t0 + 1
        · subst h1
          rw [hat.2.2.2.2.2.2.1] at f0
          exact absurd f0 (by decide)
        · have st := hsettled t (by omega)
          have := (Settled32_step h (raw t) hh _ st).2.2 f0
          have e : Binary32.detAvgRun ISR.init (pulse h t0) raw (t + 1) =
              Binary32.detAvg 0 (raw t) (Binary32.detAvgRun ISR.init (pulse h t0) raw t) := by
            simp only [Binary32.detAvgRun, hzero t hne]
          rw [e, this] at f1
          exact absurd f1 (by decide)
    · rintro rfl
      exact ⟨(pulse32_before h t raw t (le_refl t)).1.2.2.2.2.2.2, hat.2.2.2.2.2.2.1⟩
  · intro t
    constructor
    · intro hf
      by_contra hne
      by_cases h0 : t = t0
      · subst h0
        have e : pulse h t t = h := by unfold pulse; rw [if_pos rfl]
        rw [e] at hf
        exact hat.2.2.2.2.2.2.2.2 hf
      · rw [hzero t h0] at hf
        rcases Nat.lt_or_gt_of_ne h0 with hlt | hgt
        · exact (Quiet32_no_branch _ (pulse32_before h t0 raw t (le_of_lt hlt)).1).2 hf
        · exact (Settled32_step h (raw t) hh _ (hsettled t (by omega))).2.1 hf
    · rintro rfl
      rw [hzero (t0 + 1) (by omega)]
      exact (after_pulse32_tick h (raw (t0 + 1)) h2 h8 h32 hh _
        ⟨hat.1, hat.2.1, hat.2.2.1, hat.2.2.2.1, hat.2.2.2.2.1, hat.2.2.2.2.2.1⟩).2
  · intro t ht
    have st := hsettled t ht
    exact ⟨st.2.1, st.2.2.1, st.2.2.2.1⟩
  · intro t
    by_cases h1 : t ≤ t0
    · exact (pulse32_before h t0 raw t h1).1.2.2.1
    · by_cases h2 : t = t0 + 1
      · subst h2; exact hat.2.2.1
      · exact (hsettled t (by omega)).2.2.1

/-- Witness for the amended C6: unit height, pulse at tick 3, raw sample 1/2 on every
tick. -/
theorem single_pulse_one_beat_binary32_witness :
    (0 : ℚ) < 1 ∧ (1 : ℚ) < 2 ^ 128 ∧ 0 < fl ((1/2) * 1) ∧ fl (1 / 8) = 1 / 8 ∧
    fl (1 / 32) = 1 / 32 ∧
    (∀ t, ((Binary32.detAvgRun ISR.init (pulse 1 3) (fun _ => 1/2) t).flag = 0 ∧
        (Binary32.detAvgRun ISR.init (pulse 1 3) (fun _ => 1/2) (t + 1)).flag = 1) ↔ t = 3) ∧
    (∀ t, Binary32.finalizeCond (pdOnset (pdTrack (pulse 1 3 t)
        (Binary32.detAvgRun ISR.init (pulse 1 3) (fun _ => 1/2) t))) ↔ t = 3 + 1) ∧
    (∀ t, 3 + 2 ≤ t →
        (Binary32.detAvgRun ISR.init (pulse 1 3) (fun _ => 1/2) t).spki = 1 / 8 ∧
        (Binary32.detAvgRun ISR.init (pulse 1 3) (fun _ => 1/2) t).npki = 0 ∧
        (Binary32.detAvgRun ISR.init (pulse 1 3) (fun _ => 1/2) t).thresholdi1 = 1 / 32) ∧
    (∀ t, (Binary32.detAvgRun ISR.init (pulse 1 3) (fun _ => 1/2) t).npki = 0) :=
  ⟨by norm_num, by norm_num, by decide!, by decide!, by decide!,
    single_pulse_one_beat_binary32 1 (by norm_num) (by norm_num) (by decide!) (by decide!)
      (by decide!) 3 (fun _ => 1/2)⟩

/-! ## The finalize rule in binary32 arithmetic -/

theorem twoPulses_before_finalize :
    (Binary32.detAvgRun ISR.init twoPulses (fun _ => 0) 4).peakt = 1 ∧
    (Binary32.detAvgRun ISR.init twoPulses (fun _ => 0) 4).spki = 1 + 1 / 2 ^ 23 ∧
    (Binary32.detAvgRun ISR.init twoPulses (fun _ => 0) 4).npki = 0 ∧
    (Binary32.detAvgRun ISR.init twoPulses (fun _ => 0) 4).thresholdi1 = 1 / 4 + 1 / 2 ^ 25 ∧
    (Binary32.detAvgRun ISR.init twoPulses (fun _ => 0) 4).x5.rd 2 = 0 := by
  decide!

theorem twoPulses_after_finalize :
    (Binary32.detAvgRun ISR.init twoPulses (fun _ => 0) 5).spki = 1 + 1 / 2 ^ 23 ∧
    (Binary32.detAvgRun ISR.init twoPulses (fun _ => 0) 5).peaki = 1 ∧
    (Binary32.detAvgRun ISR.init twoPulses (fun _ => 0) 5).peakt = 0 := by
  decide!

/-- C7 as stated fails on the program, in two ways. (a) On tick 4 of the run with the pulse
`2^-149` at tick 3, the newest integrator value 0 is at most the value of two ticks ago and
below half of `peakt = 2^-149`, but the product `0.5f*peakt` rounds to 0: the branch is not
taken, `peakt` keeps `2^-149` and `peaki` is not set to it. (b) On tick 4 of the run with the
pulses `8 + 2^-20` at tick 0 and 1 at tick 3 the branch is taken with `peakt = 1` above the
threshold and `spki = 1 + 2^-23`; the stored `spki` is `1 + 2^-23`, the rounded result, not
`peaki/8 + 7*spki/8 = 1 + 7/2^26`. -/
theorem finalize_rule_is_rounded :
    (((0 : ℚ) ≤ (Binary32.detAvgRun ISR.init (pulse tiny 3) (fun _ => 0) 4).x5.rd 2 ∧
      (0 : ℚ) < (1/2) * (Binary32.detAvgRun ISR.init (pulse tiny 3) (fun _ => 0) 4).peakt) ∧
    (Binary32.detAvgRun ISR.init (pulse tiny 3) (fun _ => 0) 4).peakt = tiny ∧
    (Binary32.detAvgRun ISR.init (pulse tiny 3) (fun _ => 0) 5).peakt = tiny ∧
    (Binary32.detAvgRun ISR.init (pulse tiny 3) (fun _ => 0) 5).peaki = 0 ∧
    tiny ≠ 0) ∧
    (((0 : ℚ) ≤ (Binary32.detAvgRun ISR.init twoPulses (fun _ => 0) 4).x5.rd 2 ∧
      (0 : ℚ) < (1/2) * (Binary32.detAvgRun ISR.init twoPulses (fun _ => 0) 4).peakt) ∧
    (Binary32.detAvgRun ISR.init twoPulses (fun _ => 0) 4).peakt >
      (Binary32.detAvgRun ISR.init twoPulses (fun _ => 0) 4).thresholdi1 ∧
    (Binary32.detAvgRun ISR.init twoPulses (fun _ => 0) 5).peaki = 1 ∧
    (Binary32.detAvgRun ISR.init twoPulses (fun _ => 0) 5).spki = 1 + 1 / 2 ^ 23 ∧
    (Binary32.detAvgRun ISR.init twoPulses (fun _ => 0) 4).peakt / 8 +
      7 * (Binary32.detAvgRun ISR.init twoPulses (fun _ => 0) 4).spki / 8 = 1 + 7 / 2 ^ 26 ∧
    (Binary32.detAvgRun ISR.init twoPulses (fun _ => 0) 5).spki ≠
      (Binary32.detAvgRun ISR.init twoPulses (fun _ => 0) 4).peakt / 8 +
        7 * (Binary32.detAvgRun ISR.init twoPulses (fun _ => 0) 4).spki / 8) := by
  have a := pulse32_at tiny tiny_pos 3 (fun _ => 0)
  have s5 := pulse32_stuck tiny tiny_pos half_tiny 3 (fun _ => 0) 1
  have hn : ¬ ((0 : ℚ) ≤ (Binary32.detAvgRun ISR.init (pulse tiny 3) (fun _ => 0) 4).x5.rd 2 ∧
      (0 : ℚ) < fl ((1/2) *
        (Binary32.detAvgRun ISR.init (pulse tiny 3) (fun _ => 0) 4).peakt)) := by
    rw [a.1, half_tiny]; norm_num
  have n := detAvg32_neg 0 0 _ hn
  have q := pulse32_before tiny 3 (fun _ => 0) 3 (le_refl 3)
  have hpk : (Binary32.detAvgRun ISR.init (pulse tiny 3) (fun _ => 0) 4).peaki = 0 := by
    have hn3 : ¬ (tiny ≤ (Binary32.detAvgRun ISR.init (pulse tiny 3) (fun _ => 0) 3).x5.rd 2 ∧
        tiny < fl ((1/2) *
          (Binary32.detAvgRun ISR.init (pulse tiny 3) (fun _ => 0) 3).peakt)) := by
      rw [q.1.2.2.2.2.2.1]
      intro hc
      exact absurd hc.1 (not_le.mpr tiny_pos)
    have n3 := detAvg32_neg tiny 0 _ hn3
    have e : Binary32.detAvgRun ISR.init (pulse tiny 3) (fun _ => 0) 4 =
        Binary32.detAvg tiny 0 (Binary32.detAvgRun ISR.init (pulse tiny 3) (fun _ => 0) 3) := by
      show Binary32.detAvg (pulse tiny 3 3) 0 _ = _
      unfold pulse
      rw [if_pos rfl]
    rw [e, n3.1]
    decide!
  have e5 : Binary32.detAvgRun ISR.init (pulse tiny 3) (fun _ => 0) 5 =
      Binary32.detAvg 0 0 (Binary32.detAvgRun ISR.init (pulse tiny 3) (fun _ => 0) 4) := by
    show Binary32.detAvg (pulse tiny 3 4) 0 _ = _
    rw [pulse32_zero tiny 3 4 (by decide)]
  have b := twoPulses_before_finalize
  have c := twoPulses_after_finalize
  have tp := tiny_pos
  refine ⟨⟨⟨?_, ?_⟩, a.1, s5.1, ?_, ne_of_gt tp⟩, ⟨?_, ?_⟩, ?_, c.2.1, c.1, ?_, ?_⟩
  · rw [a.2.2.2.2.2.1]
  · rw [a.1]; linarith
  · rw [e5, n.1, hpk]
  · rw [b.2.2.2.2]
  · rw [b.1]; norm_num
  · rw [b.1, b.2.2.2.1]; norm_num
  · rw [b.1, b.2.1]; norm_num
  · rw [c.1, b.1, b.2.1]; norm_num

/-- C7, amended. Peak finalize rule in binary32 arithmetic, for every integrator value `m`,
raw sample and globals holding finite values of magnitude at most `2^126`: on a tick where
`m` is at most the value of two ticks ago (`x5[2]`) and below the rounded product
`0.5f*peakt`, `peaki` becomes `peakt`; if that exceeds the threshold held before the update
`spki` becomes the rounded sum of the rounded products `peaki/8` and `7*spki/8` and `npki`
is unchanged, otherwise `npki` becomes the rounded sum of the rounded `peaki/8` and
`7*npki/8` and `spki` is unchanged; `thresholdi1` becomes `npki + (spki - npki)/4` of the
updated estimates with the difference, the product and the sum each rounded; `peakt`
becomes 0. On a tick where the condition is false, `spki`, `npki`, `thresholdi1` and
`peaki` are unchanged. Where no rounding occurs (the product `0.5f*peakt`, respectively the
two products and the sum of an estimate, are binary32 numbers) the condition is that of
exact arithmetic and the estimates are `peaki/8 + 7*spki/8`, `peaki/8 + 7*npki/8`. -/
theorem peak_finalize_rule_binary32 (m f : ℚ) (s : ISR)
    (_hr : |s.peakt| ≤ 2 ^ 126 ∧ |s.spki| ≤ 2 ^ 126 ∧ |s.npki| ≤ 2 ^ 126) :
    (m ≤ s.x5.rd 2 ∧ m < fl ((1/2) * s.peakt) →
      (Binary32.detAvg m f s).peaki = s.peakt ∧
      (s.peakt > s.thresholdi1 →
        (Binary32.detAvg m f s).spki = fl (fl ((1/8) * s.peakt) + fl ((7/8) * s.spki)) ∧
        (Binary32.detAvg m f s).npki = s.npki) ∧
      (¬ s.peakt > s.thresholdi1 →
        (Binary32.detAvg m f s).npki = fl (fl ((1/8) * s.peakt) + fl ((7/8) * s.npki)) ∧
        (Binary32.detAvg m f s).spki = s.spki) ∧
      (Binary32.detAvg m f s).thresholdi1 =
        fl ((Binary32.detAvg m f s).npki +
          fl ((1/4) * fl ((Binary32.detAvg m f s).spki - (Binary32.detAvg m f s).npki))) ∧
      (Binary32.detAvg m f s).peakt = 0) ∧
    (¬ (m ≤ s.x5.rd 2 ∧ m < fl ((1/2) * s.peakt)) →
      (Binary32.detAvg m f s).spki = s.spki ∧ (Binary32.detAvg m f s).npki = s.npki ∧
      (Binary32.detAvg m f s).thresholdi1 = s.thresholdi1 ∧
      (Binary32.detAvg m f s).peaki = s.peaki) ∧
    (fl ((1/2) * s.peakt) = s.peakt / 2 →
      ((m ≤ s.x5.rd 2 ∧ m < fl ((1/2) * s.peakt)) ↔ (m ≤ s.x5.rd 2 ∧ m < s.peakt / 2))) ∧
    (m ≤ s.x5.rd 2 ∧ m < fl ((1/2) * s.peakt) → s.peakt > s.thresholdi1 →
      fl ((1/8) * s.peakt) = s.peakt / 8 → fl ((7/8) * s.spki) = 7 * s.spki / 8 →
      fl (s.peakt / 8 + 7 * s.spki / 8) = s.peakt / 8 + 7 * s.spki / 8 →
      (Binary32.detAvg m f s).spki = s.peakt / 8 + 7 * s.spki / 8) ∧
    (m ≤ s.x5.rd 2 ∧ m < fl ((1/2) * s.peakt) → ¬ s.peakt > s.thresholdi1 →
      fl ((1/8) * s.peakt) = s.peakt / 8 → fl ((7/8) * s.npki) = 7 * s.npki / 8 →
      fl (s.peakt / 8 + 7 * s.npki / 8) = s.peakt / 8 + 7 * s.npki / 8 →
      (Binary32.detAvg m f s).npki = s.peakt / 8 + 7 * s.npki / 8) := by
  refine ⟨?_, ?_, ?_, ?_, ?_⟩
  · intro h
    have p := detAvg32_pos m f s h
    refine ⟨p.1, ?_, ?_, p.2.2.2.2, p.2.1⟩
    · intro hgt
      rw [p.2.2.1, p.2.2.2.1, if_pos hgt, if_pos hgt]
      exact ⟨rfl, rfl⟩
    · intro hgt
      rw [p.2.2.1, p.2.2.2.1, if_neg hgt, if_neg hgt]
      exact ⟨rfl, rfl⟩
  · intro h
    have p := detAvg32_neg m f s h
    exact ⟨p.2.2.1, p.2.2.2.1, p.2.2.2.2, p.1⟩
  · intro e
    rw [e]
  · intro h hgt e1 e2 e3
    rw [(detAvg32_pos m f s h).2.2.1, if_pos hgt, e1, e2, e3]
  · intro h hgt e1 e2 e3
    rw [(detAvg32_pos m f s h).2.2.2.1, if_neg hgt, e1, e2, e3]

/-- Witness for the amended C7: tick 4 of the run with two pulses, on which the branch is
taken with `peakt = 1` and `spki = 1 + 2^-23`. -/
theorem peak_finalize_rule_binary32_witness :
    ((0 : ℚ) ≤ (Binary32.detAvgRun ISR.init twoPulses (fun _ => 0) 4).x5.rd 2 ∧
      (0 : ℚ) < fl ((1/2) * (Binary32.detAvgRun ISR.init twoPulses (fun _ => 0) 4).peakt)) ∧
    (Binary32.detAvgRun ISR.init twoPulses (fun _ => 0) 4).peakt >
      (Binary32.detAvgRun ISR.init twoPulses (fun _ => 0) 4).thresholdi1 ∧
    (Binary32.detAvg 0 0 (Binary32.detAvgRun ISR.init twoPulses (fun _ => 0) 4)).peaki =
      (Binary32.detAvgRun ISR.init twoPulses (fun _ => 0) 4).peakt ∧
    (Binary32.detAvg 0 0 (Binary32.detAvgRun ISR.init twoPulses (fun _ => 0) 4)).spki =
      fl (fl ((1/8) * (Binary32.detAvgRun ISR.init twoPulses (fun _ => 0) 4).peakt) +
        fl ((7/8) * (Binary32.detAvgRun ISR.init twoPulses (fun _ => 0) 4).spki)) ∧
    (Binary32.detAvg 0 0 (Binary32.detAvgRun ISR.init twoPulses (fun _ => 0) 4)).peakt = 0 :=
  have b := twoPulses_before_finalize
  have hc : (0 : ℚ) ≤ (Binary32.detAvgRun ISR.init twoPulses (fun _ => 0) 4).x5.rd 2 ∧
      (0 : ℚ) < fl ((1/2) * (Binary32.detAvgRun ISR.init twoPulses (fun _ => 0) 4).peakt) := by
    rw [b.1, b.2.2.2.2]
    decide!
  have hgt : (Binary32.detAvgRun ISR.init twoPulses (fun _ => 0) 4).peakt >
      (Binary32.detAvgRun ISR.init twoPulses (fun _ => 0) 4).thresholdi1 := by
    rw [b.1, b.2.2.2.1]; norm_num
  have h := (peak_finalize_rule_binary32 0 0
    (Binary32.detAvgRun ISR.init twoPulses (fun _ => 0) 4)
    (by rw [b.1, b.2.1, b.2.2.1]; norm_num [abs_of_nonneg])).1 hc
  ⟨hc, hgt, h.1, (h.2.1 hgt).1, h.2.2.2.2⟩

/-! ## The published average in the cycle run -/

/-- A stretch of ticks none of which promotes leaves the stable buffer as it was. -/
theorem SAbuf_stretch (inp : Nat → Int × Indeterminate) (a d : Nat)
    (h : ∀ t, a ≤ t → t < a + d → ¬ promotionAt inp t) :
    (ISRrun inp (a + d)).SAbuf = (ISRrun inp a).SAbuf := by
  induction d with
  | zero => rfl
  | succ d ih =>
    have p := ih (fun t h1 h2 => h t h1 (by omega))
    exact (SAbuf_unchanged inp (a + d) (h (a + d) (by omega) (by omega))).trans p

theorem promotions_zero_of_none (inp : Nat → Int × Indeterminate) (t : Nat)
    (h : ∀ i, i < t → ¬ promotionAt inp i) : promotions inp t = 0 := by
  induction t with
  | zero => rfl
  | succ t ih =>
    rw [promotions_succ, ih (fun i hi => h i (by omega)), if_neg (h t (by omega))]

/-- Tick 9216 of the cycle run is the onset of a beat epoch into an empty accumulator. -/
theorem cycle4_onset_9216 :
    (ISRrun cycle4 9216).flag = 0 ∧
    (detected (cycle4 9216).1 (cycle4 9216).2 (ISRrun cycle4 9216)).flag = 1 ∧
    (ISRrun cycle4 9216).Tempbuf = Arr.zero 200 ∧ (ISRrun cycle4 9216).c_epochs = 0 := by
  have s := cycle4_state 9216
  have s7 := cycle4_state 9215
  have hc : completesEpoch (cycle4 9215).1 (cycle4 9215).2 (ISRrun cycle4 9215) := by
    refine ⟨s7.2.2.2, ?_⟩
    rw [s7.2.1]
    decide
  have he : (ISRrun cycle4 9215).c_epochs = 31 := by
    rw [s7.2.2.1]
    decide
  have p := promotion_effect cycle4 9215 hc he
  exact ⟨s.1.trans (if_pos (by decide)), s.2.2.2, p.2.1, p.2.2⟩

/-- The stable buffer of the cycle run after its second promotion: 32 times the cycle. -/
theorem cycle4_template (p : Nat) :
    (ISRrun cycle4 9216).SAbuf.rd p = 32 * waveformAt cycle4Wave p :=
  template_of_identical_epochs cycle4 (fun k => 4608 + 144 * k) cycle4Wave
    cycle4_onset_4608.2.2.1 cycle4_onset_4608.2.2.2
    (fun k _ => ⟨(cycle4_state (4608 + 144 * k)).1.trans (if_pos (by omega)),
      (cycle4_state (4608 + 144 * k)).2.2.2⟩)
    (fun k _ => ⟨by beta_reduce; omega, fun t h1 h2 => by beta_reduce at h1 h2; omega⟩)
    (fun k _ => ⟨fun m _ => cycle4_wave_after k m, fun j hj => cycle4_wave_before k j hj⟩) p

/-- Two epochs after the second promotion of the cycle run: the stable buffer still holds
32 times the cycle, the accumulator twice the cycle. -/
theorem cycle4_buffers_9504 (p : Nat) :
    (ISRrun cycle4 9504).SAbuf.rd p = 32 * waveformAt cycle4Wave p ∧
    (ISRrun cycle4 9504).Tempbuf.rd p = 2 * waveformAt cycle4Wave p := by
  constructor
  · have h := SAbuf_stretch cycle4 9216 288 (fun t h1 h2 hp => by
      have := (cycle4_promotionAt t).mp hp
      omega)
    rw [show (9504 : Nat) = 9216 + 288 from rfl, h]
    exact cycle4_template p
  · have wa : ∀ k m, rawAt cycle4 (9216 + 144 * k + m) = cycle4Wave m := by
      intro k m
      have e : 9216 + 144 * k + m = 4608 + 144 * (k + 32) + m := by omega
      rw [e]
      exact cycle4_wave_after (k + 32) m
    have wb : ∀ k j, j ≤ 54 →
        past (rawAt cycle4) (9216 + 144 * k) j = cycle4Wave (-(j : Int)) := by
      intro k j hj
      have e : 9216 + 144 * k = 4608 + 144 * (k + 32) := by omega
      rw [e]
      exact cycle4_wave_before (k + 32) j hj
    have h := (epochs_accumulate cycle4 (fun k => 9216 + 144 * k) cycle4Wave
      cycle4_onset_9216.2.2.1 cycle4_onset_9216.2.2.2
      (fun k _ => ⟨(cycle4_state (9216 + 144 * k)).1.trans (if_pos (by omega)),
        (cycle4_state (9216 + 144 * k)).2.2.2⟩)
      (fun k _ => ⟨by beta_reduce; omega, fun t h1 h2 => by beta_reduce at h1 h2; omega⟩)
      (fun k _ => ⟨fun m _ => wa k m, fun j hj => wb k j hj⟩) 2 (by decide)).2 p
    have e : ((2 : Nat) : ℚ) = 2 := by norm_num
    rw [e] at h
    exact h

theorem waveformAt_cycle4_199 : waveformAt cycle4Wave 199 = 1/4 := by
  unfold waveformAt cycle4Wave
  norm_num

/-- Witness for C15. At tick 9504 of the cycle run, the onset of the third epoch after the
second promotion, the read counter is 199, `SAbuf[199] = 8` and `Tempbuf[199] = 1/2`, and
the value published is `8/32 = 1/4`, also when `Tempbuf` is replaced by the zero array. At
tick 100, inside the first epoch and before any promotion, the read counter is 99,
`Tempbuf[99] = 1/2`, `SAbuf` is all zero and the value published is 0. -/
theorem live_output_serves_stable_buffer_witness :
    ((detected (cycle4 9504).1 (cycle4 9504).2 (ISRrun cycle4 9504)).flag = 1 ∧
      (detected (cycle4 9504).1 (cycle4 9504).2 (ISRrun cycle4 9504)).counter_out = 199 ∧
      (ISRrun cycle4 9504).SAbuf.rd 199 = 8 ∧ (ISRrun cycle4 9504).Tempbuf.rd 199 = 1/2 ∧
      (ISRrun cycle4 (9504 + 1)).Aout3 = 1/4 ∧
      (ISRfxn (cycle4 9504).1 (cycle4 9504).2
        { ISRrun cycle4 9504 with Tempbuf := Arr.zero 200 }).Aout3 = 1/4) ∧
    (promotions cycle4 100 = 0 ∧
      (detected (cycle4 100).1 (cycle4 100).2 (ISRrun cycle4 100)).flag = 1 ∧
      (detected (cycle4 100).1 (cycle4 100).2 (ISRrun cycle4 100)).counter_out = 99 ∧
      (ISRrun cycle4 100).Tempbuf.rd 99 = 1/2 ∧
      (ISRrun cycle4 100).SAbuf = Arr.zero 200 ∧ (ISRrun cycle4 (100 + 1)).Aout3 = 0) := by
  have h := live_output_serves_stable_buffer cycle4 9504
  have g := live_output_serves_stable_buffer cycle4 100
  have s := cycle4_state 9504
  have s1 := cycle4_state 100
  have b := cycle4_buffers_9504 199
  have w := waveformAt_cycle4_199
  have hf : (ISRrun cycle4 9504).flag ≠ 1 := by
    rw [s.1, if_pos (by decide)]
    decide
  have hc := (detected_counter_out (cycle4 9504).1 (cycle4 9504).2 (ISRrun cycle4 9504)).1 hf
    s.2.2.2
  have hS : (ISRrun cycle4 9504).SAbuf.rd 199 = 8 := by
    rw [b.1, w]; norm_num
  have hT : (ISRrun cycle4 9504).Tempbuf.rd 199 = 1/2 := by
    rw [b.2, w]; norm_num
  have hA : (ISRrun cycle4 (9504 + 1)).Aout3 = 1/4 := by
    have a := h.1 s.2.2.2
    rw [hc] at a
    have e : (199 : Int).toNat = 199 := rfl
    rw [e, hS] at a
    rw [a]; norm_num
  have hp : promotions cycle4 100 = 0 :=
    promotions_zero_of_none cycle4 100 (fun i hi hpr => by
      have := (cycle4_promotionAt i).mp hpr
      omega)
  have o0 : (ISRrun cycle4 0).flag = 0 := rfl
  have o1 := (cycle4_state 0).2.2.2
  have c := detected_counters _ _ _ (AvgInv_run cycle4 100) (OutInv_run cycle4 100) s1.2.2.2
  have hc1 : (detected (cycle4 100).1 (cycle4 100).2 (ISRrun cycle4 100)).counter_out = 99 := by
    rw [c.2.2, s1.2.1]
    decide
  have hT1 : (ISRrun cycle4 100).Tempbuf.rd 99 = 1/2 := by
    have a := epoch_accumulated cycle4 0 o0 o1 100 (by decide) 99 (by decide)
    rw [show (0 : Nat) + 100 = 100 from rfl] at a
    rw [a, if_pos (by decide)]
    have r : ((cycle4 (0 + (144 - 99))).1 : ℚ) / 2048 = rawAt cycle4 45 := rfl
    rw [r, rawAt_cycle4]
    have z : (ISRrun cycle4 0).Tempbuf.rd 99 = 0 := Arr.rd_zero 200 99
    rw [z]
    norm_num
  exact ⟨⟨s.2.2.2, hc, hS, hT, hA, (h.2.1 (Arr.zero 200)).trans hA⟩,
    ⟨hp, s1.2.2.2, hc1, hT1, (g.2.2 hp).1, (g.2.2 hp).2⟩⟩

end Receiver
